import Mathlib

/-!
# Storage API of the rafty key-value store

A shallow embedding of `rafty/http/storage_api.go`: the policy layer that wraps
the consensus store (Get / Set / Delete / IsLeader), decides overwrite and
expiration, and records pending expirations in a FIFO queue with a keyed mirror;
the eviction tick, the snapshot of the mirror under a reserved key and the loop
that runs them; and of the HMAC verifier of `verifier/hmac.go`.

Conventions of the embedding.

* Go pointers that the code tests against `nil` are `Option`s; a dereference of
  a nil pointer is the result `Except.error Fault.nilDereference`.
* The receiver `s *StorageAPI` is passed explicitly and the updated receiver is
  returned next to the Go results.
* `time.Now()` is the argument `now`; the readings of the clock inside one call
  are taken at that one instant.
* The store is an interface in Go.  Here it is a record of functions over a
  state type `σ`; every call issued to it is also appended to the ghost field
  `calls`, so that "no call is made" can be stated.
* The record codec (MessagePack) and the JSON encoding of the mirror are
  parameters, as is the keyed hash of the verifier.
* The FIFO queue (`go.fifo`) is a list, head first: `Add` appends, `Next`
  removes the head.  The `range` over the decoded snapshot visits its entries in
  the order of the decoded list; no statement depends on that order.
-/

namespace verifier

/-! ## HMAC verifier (`verifier/hmac.go`) -/

/-- The verifier `HMAC256`: the shared secret. -/
structure HMAC256 where
  secret : List Nat
deriving DecidableEq, Repr

/-- The error values of the package; `VerificationFailed` is the one `Verify` returns. -/
inductive VerifierError where
  | VerificationFailed
deriving DecidableEq, Repr

/-- Source `HMAC256.Sign`.  The argument `mac secret message` stands for the standard library
calls of the body: the HMAC-SHA256 of the message under the secret, in standard base64. -/
def HMAC256.Sign (mac : List Nat → List Nat → String) (h : HMAC256) (message : List Nat) :
    String × Option VerifierError :=
  let sig := mac h.secret message
  (sig, none)

/-- Source `HMAC256.Verify`. -/
def HMAC256.Verify (mac : List Nat → List Nat → String) (h : HMAC256) (message : List Nat)
    (signature : String) : Option VerifierError :=
  let computedSig := (h.Sign mac message).1
  if computedSig != signature then some VerifierError.VerificationFailed else none

end verifier

namespace httpd

/-! ## Data model -/

/-- Byte string, the Go type `[]byte`; the nil slice is `none` where the code tests for it. -/
abbrev Bytes := List Nat

/-- Instant of `time.Time`, counted in nanoseconds from the Unix epoch. -/
structure Time where
  unixNano : Int
deriving DecidableEq, Repr

/-- Go `t.After(u)`: the instant `t` is strictly later than `u`. -/
def Time.After (t u : Time) : Bool := decide (u.unixNano < t.unixNano)

/-- Go `t.Unix()`: whole seconds since the Unix epoch (rounded down). -/
def Time.Unix (t : Time) : Int := t.unixNano / 1000000000

/-- Go `t.Add(d)` with `d` a count of seconds. -/
def Time.AddSeconds (t : Time) (secs : Int) : Time := ⟨t.unixNano + secs * 1000000000⟩

/-- Stored record, `rafty_objects.NodeValue`. -/
structure NodeValue where
  TTL : Int
  Key : String
  Value : String
  Expiration : Time
  Created : Int
deriving DecidableEq, Repr

/-- Envelope returned by the Storage API: an action tag and the record. -/
structure KeyValueAPIObject where
  Action : String
  Node : NodeValue
deriving DecidableEq, Repr

/-- Modelled from the spec: the error kinds of the Storage API (section 7).  The source names
`RAFTErrorKeyExists` and the constructors `NewErrorNotFound` and `NewErrorResponse`; their
declarations are not among the sources.  `notFound` is the kind built by `NewErrorNotFound`,
`general` the kind built by `NewErrorResponse` (invalid key, encoding, store failure). -/
inductive ErrorCode where
  | notFound
  | RAFTErrorKeyExists
  | general
deriving DecidableEq, Repr

/-- Structured error, `ErrorResponse`; the three fields are the ones the source assigns. -/
structure ErrorResponse where
  Cause : String
  Error : ErrorCode
  MetaData : String
deriving DecidableEq, Repr

/-- Modelled from the spec: `NewErrorResponse(cause, msg)`, the general error carrying a message. -/
def NewErrorResponse (cause msg : String) : ErrorResponse :=
  { Cause := cause, Error := ErrorCode.general, MetaData := msg }

/-- Modelled from the spec: `NewErrorNotFound(cause)`, the not-found error. -/
def NewErrorNotFound (cause : String) : ErrorResponse :=
  { Cause := cause, Error := ErrorCode.notFound, MetaData := "" }

/-- Reserved key under which the TTL mirror is persisted (spelling as in the source). -/
def TTLSNAPSHOT_KEY : String := "TCF_TTL_SNAPHOT"

/-- Pending expiration; the field `TTL` holds the expiration in unix seconds. -/
structure ttlIndexElement where
  TTL : Int
  Key : String
  Index : Int
deriving DecidableEq, Repr

/-- Call issued to the store (ghost record of the interaction). -/
inductive StoreCall where
  | Get (k : String)
  | Set (k : String) (v : Bytes)
  | Delete (k : String)
deriving DecidableEq, Repr

/-- The `Store` interface as the Storage API uses it, over a store state `σ`.  `Get` reads the
locally applied state (`.ok none` is a nil value); `Set` and `Delete` return the next state
and the Go `error` (`none` is nil). -/
structure Store (σ : Type) where
  Get : σ → String → Except String (Option Bytes)
  Set : σ → String → Bytes → σ × Option String
  Delete : σ → String → σ × Option String
  IsLeader : σ → Bool

/-- The record codec: `NewKeyValueAPIObjectFromMsgPack` and `NodeValue.EncodeForStorage`. -/
structure Codec where
  NewKeyValueAPIObjectFromMsgPack : Option Bytes → Except String KeyValueAPIObject
  EncodeForStorage : NodeValue → Except String Bytes

/-- The keyed mirror `map[string]ttlIndexElement`, as an association list with one pair a key. -/
abbrev Mirror := List (String × ttlIndexElement)

/-- Map assignment `m[k] = e`. -/
def Mirror.set (m : Mirror) (k : String) (e : ttlIndexElement) : Mirror :=
  (k, e) :: m.filter (fun p => p.1 != k)

/-- Map removal `delete(m, k)`. -/
def Mirror.delete (m : Mirror) (k : String) : Mirror :=
  m.filter (fun p => p.1 != k)

/-- The receiver `StorageAPI`: the store, the FIFO `ttlIndex` (head first), the mirror pointer
`queueSnapshot` (`none` is nil), the chunk size, and the ghost list of store calls. -/
structure StorageAPI (σ : Type) where
  store : σ
  ttlIndex : List ttlIndexElement
  queueSnapshot : Option Mirror
  TTLChunkSize : Int
  calls : List StoreCall
deriving DecidableEq, Repr

/-- Abnormal termination of a call: a nil pointer dereference, or `make` with a negative
length. -/
inductive Fault where
  | nilDereference
  | negativeLength
deriving DecidableEq, Repr

/-- Modelled from the spec: `NodeValue.CalculateExpiry` (package `rafty/objects` is not among
the sources): `expiration = created + ttl` when `ttl > 0`, otherwise the field is left as it is. -/
def NodeValue.CalculateExpiry (n : NodeValue) (now : Time) : NodeValue :=
  if n.TTL > 0 then { n with Expiration := now.AddSeconds n.TTL } else n

/-! ## Operations -/

/-- Source `getKeyFromStore`: reject the empty key, else read the store. -/
def getKeyFromStore {σ : Type} (S : Store σ) (s : StorageAPI σ) (k : String) :
    (Option Bytes × Option ErrorResponse) × StorageAPI σ :=
  if k = "" then
    ((none, some (NewErrorResponse ("/" ++ k) "Key cannot be empty")), s)
  else
    let s1 := { s with calls := s.calls ++ [StoreCall.Get k] }
    match S.Get s.store k with
    | .error err => ((none, some { NewErrorNotFound ("/" ++ k) with MetaData := err }), s1)
    | .ok none => ((none, some (NewErrorNotFound ("/" ++ k))), s1)
    | .ok (some v) => ((some v, none), s1)

/-- Source `GetKey`. -/
def GetKey {σ : Type} (S : Store σ) (C : Codec) (s : StorageAPI σ) (now : Time)
    (k : String) (evenIfExpired : Bool) :
    (Option KeyValueAPIObject × Option ErrorResponse) × StorageAPI σ :=
  match getKeyFromStore S s k with
  | ((_, some errResp), s1) => ((none, some errResp), s1)
  | ((v, none), s1) =>
    match C.NewKeyValueAPIObjectFromMsgPack v with
    | .error err =>
      ((none, some (NewErrorResponse ("/" ++ k) ("Key marshalling failed: " ++ err))), s1)
    | .ok returnValue =>
      if now.After returnValue.Node.Expiration && returnValue.Node.TTL != 0
          && evenIfExpired == false then
        ((none, some (NewErrorNotFound ("/" ++ k))), s1)
      else
        ((some returnValue, none), s1)

/-- Source `addTTL`: on a leader, append to the queue and write the mirror entry. -/
def addTTL {σ : Type} (S : Store σ) (s : StorageAPI σ) (elem : ttlIndexElement) :
    Except Fault (StorageAPI σ) :=
  if S.IsLeader s.store == false then
    .ok s
  else
    let q := s.ttlIndex ++ [elem]
    let elem1 := { elem with Index := (q.length : Int) }
    match s.queueSnapshot with
    | none => .error Fault.nilDereference
    | some m => .ok { s with ttlIndex := q, queueSnapshot := some (m.set elem1.Key elem1) }

/-- Source `trackTTLForKey`. -/
def trackTTLForKey {σ : Type} (S : Store σ) (s : StorageAPI σ) (key : String) (expires : Int) :
    Except Fault (StorageAPI σ) :=
  addTTL S s { TTL := expires, Key := key, Index := 0 }

/-- Source `SetKey`. -/
def SetKey {σ : Type} (S : Store σ) (C : Codec) (s : StorageAPI σ) (now : Time)
    (k : String) (value : NodeValue) (overwrite : Bool) :
    Except Fault ((Option NodeValue × Option ErrorResponse) × StorageAPI σ) :=
  match getKeyFromStore S s k with
  | ((existingValue, errResp), s1) =>
    let allowOverwrite : Bool :=
      match C.NewKeyValueAPIObjectFromMsgPack existingValue with
      | .ok asNode =>
        if now.After asNode.Node.Expiration && asNode.Node.TTL != 0 then true else overwrite
      | .error _ => overwrite
    if errResp.isNone && allowOverwrite == false then
      .ok ((none, some { Cause := "/" ++ k, Error := ErrorCode.RAFTErrorKeyExists,
                         MetaData := "" }), s1)
    else
      let value1 := { value with Key := k }
      let value2 := value1.CalculateExpiry now
      let value3 := { value2 with Created := now.Unix }
      match C.EncodeForStorage value3 with
      | .error encErr =>
        .ok ((none, some (NewErrorResponse ("/" ++ k)
                ("Could not encode payload for store: " ++ encErr))), s1)
      | .ok toStore =>
        let r := S.Set s1.store k toStore
        let s2 := { s1 with store := r.1, calls := s1.calls ++ [StoreCall.Set k toStore] }
        match r.2 with
        | some err =>
          .ok ((none, some (NewErrorResponse ("/" ++ k)
                  ("Could not write to store: " ++ err))), s2)
        | none =>
          if value3.TTL > 0 && value3.Key != TTLSNAPSHOT_KEY then
            match trackTTLForKey S s2 value3.Key value3.Expiration.Unix with
            | .error f => .error f
            | .ok s3 => .ok ((some value3, none), s3)
          else
            .ok ((some value3, none), s2)

/-- Source `DeleteKey`. -/
def DeleteKey {σ : Type} (S : Store σ) (s : StorageAPI σ) (k : String) :
    (Option KeyValueAPIObject × Option ErrorResponse) × StorageAPI σ :=
  let r := S.Delete s.store k
  let s1 := { s with store := r.1, calls := s.calls ++ [StoreCall.Delete k] }
  match r.2 with
  | some err => ((none, some (NewErrorResponse ("/" ++ k) ("Delete failed: " ++ err))), s1)
  | none => ((none, none), s1)

/-- Result of `rebuildFromSnapshot`, the type `SnapshotStatus`. -/
inductive SnapshotStatus where
  | StatusSnapshotFound
  | StatusSnapshotNotFound
  | StatusSnapshotNotLeader
deriving DecidableEq, Repr

/-- The JSON encoding of the mirror: `json.Marshal` of the map and `json.Unmarshal` into a map.
The list `Unmarshal` returns also fixes the order in which `range` visits the decoded map. -/
structure JSONCodec where
  Marshal : Mirror → Except String String
  Unmarshal : String → Except String Mirror

/-- Modelled from the spec: `NewKeyValueAPIObject()`, whose declaration is not among the sources:
an envelope around a fresh record, every field at its zero value (so `ttl = 0`, as the data model
requires of the snapshot record). -/
def NewKeyValueAPIObject : KeyValueAPIObject :=
  { Action := "", Node := { TTL := 0, Key := "", Value := "", Expiration := ⟨0⟩, Created := 0 } }

/-- Source `NewStorageAPI`, without the start of the background task. -/
def NewStorageAPI {σ : Type} (store : σ) : StorageAPI σ :=
  { store := store, ttlIndex := [], queueSnapshot := some [], TTLChunkSize := 100, calls := [] }

/-- Source `storeTTLSnapshot`: on a leader, write the JSON of the mirror under the reserved key,
into the existing snapshot record when `GetKey` returns one and into a fresh record otherwise.
The result of `SetKey` is dropped as in the source. -/
def storeTTLSnapshot {σ : Type} (S : Store σ) (C : Codec) (J : JSONCodec) (s : StorageAPI σ)
    (now : Time) : Except Fault (StorageAPI σ) :=
  if S.IsLeader s.store == false then
    .ok s
  else
    match s.queueSnapshot with
    | none => .error Fault.nilDereference
    | some thisSnapShot =>
      match J.Marshal thisSnapShot with
      | .error _ => .ok s
      | .ok asStr =>
        match GetKey S C s now TTLSNAPSHOT_KEY false with
        | ((existing, err), s1) =>
          let existingSnapShot : Option KeyValueAPIObject :=
            if err.isSome then
              some { NewKeyValueAPIObject with
                       Node := { NewKeyValueAPIObject.Node with Key := TTLSNAPSHOT_KEY } }
            else existing
          match existingSnapShot with
          | none => .error Fault.nilDereference
          | some e =>
            match SetKey S C s1 now TTLSNAPSHOT_KEY { e.Node with Value := asStr } true with
            | .error f => .error f
            | .ok (_, s2) => .ok s2

/-- The body of the loop of `processTTLElement` for the dequeued element `thisElem` (source
lines 214 to 249): read the record, decide `skip`, then delete or re-enqueue. -/
def processTTLElement.body {σ : Type} (S : Store σ) (C : Codec) (s : StorageAPI σ) (now : Time)
    (thisElem : ttlIndexElement) : Except Fault (StorageAPI σ) :=
  match GetKey S C s now thisElem.Key true with
  | ((existingKey, getErr), s1) =>
    let skip1 : Bool := getErr.isSome
    match existingKey with
    | none => .error Fault.nilDereference
    | some e =>
      let skip : Bool := if e.Node.Expiration.Unix != thisElem.TTL then true else skip1
      if skip == false then
        if now.Unix > thisElem.TTL then
          .ok (DeleteKey S s1 thisElem.Key).2
        else
          addTTL S s1 thisElem
      else
        .ok s1

/-- The loop `for i := 0; i < max; i++` of `processTTLElement`, with `n = max - i` passes left:
dequeue the head (`Next()`; an empty queue breaks out), record it in `applyDeletes[i]`, run the
body. -/
def processTTLElement.loop {σ : Type} (S : Store σ) (C : Codec) (now : Time) :
    Nat → Nat → StorageAPI σ → List ttlIndexElement →
      Except Fault (StorageAPI σ × List ttlIndexElement)
  | 0, _, s, applyDeletes => .ok (s, applyDeletes)
  | n + 1, i, s, applyDeletes =>
    match s.ttlIndex with
    | [] => .ok (s, applyDeletes)
    | thisElem :: rest =>
      match processTTLElement.body S C { s with ttlIndex := rest } now thisElem with
      | .error f => .error f
      | .ok s1 => processTTLElement.loop S C now n (i + 1) s1 (applyDeletes.set i thisElem)

/-- Source `processTTLElement`: one tick of the eviction engine. -/
def processTTLElement {σ : Type} (S : Store σ) (C : Codec) (J : JSONCodec) (s : StorageAPI σ)
    (now : Time) : Except Fault (StorageAPI σ) :=
  if S.IsLeader s.store == false then
    .ok s
  else
    let max : Int :=
      if (s.ttlIndex.length : Int) < s.TTLChunkSize then (s.ttlIndex.length : Int)
      else s.TTLChunkSize
    if max < 0 then
      .error Fault.negativeLength
    else
      match processTTLElement.loop S C now max.toNat 0 s
          (List.replicate max.toNat { TTL := 0, Key := "", Index := 0 }) with
      | .error f => .error f
      | .ok (s1, applyDeletes) =>
        match applyDeletes, s1.queueSnapshot with
        | [], _ => storeTTLSnapshot S C J s1 now
        | _ :: _, none => .error Fault.nilDereference
        | elem :: elems, some m =>
          let m1 : Mirror := (elem :: elems).foldl (fun acc x => Mirror.delete acc x.Key) m
          storeTTLSnapshot S C J { s1 with queueSnapshot := some m1 } now

/-- Source `rebuildFromSnapshot`: on a leader, read the snapshot record with the default read
policy, decode its value and add every element to the queue `intoFifoQ`.  Returns the status and
the queue. -/
def rebuildFromSnapshot {σ : Type} (S : Store σ) (C : Codec) (J : JSONCodec) (s : StorageAPI σ)
    (now : Time) (intoFifoQ : List ttlIndexElement) :
    (SnapshotStatus × List ttlIndexElement) × StorageAPI σ :=
  if S.IsLeader s.store == false then
    ((SnapshotStatus.StatusSnapshotNotLeader, intoFifoQ), s)
  else
    match GetKey S C s now TTLSNAPSHOT_KEY false with
    | ((_, some _), s1) => ((SnapshotStatus.StatusSnapshotNotFound, intoFifoQ), s1)
    | ((none, none), s1) => ((SnapshotStatus.StatusSnapshotNotFound, intoFifoQ), s1)
    | ((some existingSnapShot, none), s1) =>
      match J.Unmarshal existingSnapShot.Node.Value with
      | .error _ => ((SnapshotStatus.StatusSnapshotNotFound, intoFifoQ), s1)
      | .ok snapShotAsArray =>
        ((SnapshotStatus.StatusSnapshotFound, intoFifoQ ++ snapShotAsArray.map (fun p => p.2)),
         s1)

/-- The rebuild-or-reset block of source `processTTLs` (lines 330 to 338), run by a leader
before each tick: when the mirror pointer is nil, allocate a fresh mirror, rebuild the queue from
the stored snapshot and, on the status the source tests for, write the snapshot.  The queue
handed to `rebuildFromSnapshot` is the receiver's own `ttlIndex`. -/
def processTTLs.rebuild {σ : Type} (S : Store σ) (C : Codec) (J : JSONCodec)
    (s : StorageAPI σ) (now : Time) : Except Fault (StorageAPI σ) :=
  match s.queueSnapshot with
  | some _ => .ok s
  | none =>
    let s1 := { s with queueSnapshot := some [] }
    match rebuildFromSnapshot S C J s1 now s1.ttlIndex with
    | ((status, q), s2) =>
      let s3 := { s2 with ttlIndex := q }
      if status = SnapshotStatus.StatusSnapshotFound then
        storeTTLSnapshot S C J s3 now
      else
        .ok s3

/-- One pass of the loop of source `processTTLs` (the five-second sleep aside). -/
def processTTLs.iteration {σ : Type} (S : Store σ) (C : Codec) (J : JSONCodec)
    (s : StorageAPI σ) (now : Time) : Except Fault (StorageAPI σ) :=
  if S.IsLeader s.store then
    match processTTLs.rebuild S C J s now with
    | .error f => .error f
    | .ok s4 => processTTLElement S C J s4 now
  else
    .ok { s with queueSnapshot := none }

/-! ## A concrete store and codec, used to instantiate the statements -/

/-- State of the reference store: the map and the leadership flag. -/
structure MapStore where
  m : List (String × Bytes)
  leader : Bool
deriving DecidableEq, Repr

/-- Modelled from the spec: the Consensus Store (section 4.1), whose implementation is not among
the sources, seen from one node: a map string to bytes; `Get` reads the local map, `Set`
overwrites, `Delete` is idempotent, and both writes are refused on a follower. -/
def mapStore : Store MapStore where
  Get st k := .ok (st.m.lookup k)
  Set st k v :=
    if st.leader then ({ st with m := (k, v) :: st.m.filter (fun p => p.1 != k) }, none)
    else (st, some "not leader")
  Delete st k :=
    if st.leader then ({ st with m := st.m.filter (fun p => p.1 != k) }, none)
    else (st, some "not leader")
  IsLeader st := st.leader

/-- Sample encoding of an integer: a sign flag and the magnitude. -/
def sampleEncInt (i : Int) : Bytes := [if i < 0 then 1 else 0, i.natAbs]

/-- Sample encoding of a string: its length, then its characters. -/
def sampleEncStr (x : String) : Bytes := x.length :: x.toList.map Char.toNat

/-- Sample decoding of an integer. -/
def sampleDecInt : Bytes → Option (Int × Bytes)
  | sgn :: mag :: rest => some (if sgn = 1 then - (mag : Int) else (mag : Int), rest)
  | _ => none

/-- Sample decoding of a string. -/
def sampleDecStr : Bytes → Option (String × Bytes)
  | n :: rest =>
    if rest.length < n then none
    else some (String.mk ((rest.take n).map Char.ofNat), rest.drop n)
  | _ => none

/-- Sample record encoder. -/
def sampleEncode (n : NodeValue) : Bytes :=
  sampleEncInt n.TTL ++ sampleEncStr n.Key ++ sampleEncStr n.Value
    ++ sampleEncInt n.Expiration.unixNano ++ sampleEncInt n.Created

/-- Sample record decoder; input left over after the five fields is an error. -/
def sampleDecode (b : Bytes) : Option NodeValue := do
  let (ttl, b1) ← sampleDecInt b
  let (key, b2) ← sampleDecStr b1
  let (val, b3) ← sampleDecStr b2
  let (exp, b4) ← sampleDecInt b3
  let (created, b5) ← sampleDecInt b4
  if b5 = [] then
    some { TTL := ttl, Key := key, Value := val, Expiration := ⟨exp⟩, Created := created }
  else none

/-- A codec that round-trips, standing in for MessagePack; decoding tags the envelope `get`. -/
def sampleCodec : Codec where
  NewKeyValueAPIObjectFromMsgPack v :=
    match v with
    | none => .error "EOF"
    | some b =>
      match sampleDecode b with
      | some n => .ok { Action := "get", Node := n }
      | none => .error "malformed record"
  EncodeForStorage n := .ok (sampleEncode n)

/-- Sample rendering of numbers as text: decimal numerals, each followed by a blank. -/
def sampleNatsToString (ns : List Nat) : String :=
  String.mk (ns.foldr (fun n acc => Nat.toDigits 10 n ++ ' ' :: acc) [])

/-- Sample reading of the text rendering; any other character is an error. -/
def sampleStringToNats (x : String) : Option (List Nat) :=
  let step : Option (List Nat × Option Nat) → Char → Option (List Nat × Option Nat) :=
    fun st c =>
      match st with
      | none => none
      | some (acc, cur) =>
        if c.isDigit then some (acc, some (10 * cur.getD 0 + (c.toNat - 48)))
        else if c = ' ' then
          match cur with
          | some n => some (acc ++ [n], none)
          | none => none
        else none
  match x.toList.foldl step (some ([], none)) with
  | some (acc, none) => some acc
  | _ => none

/-- Sample encoding of the mirror entries. -/
def sampleEncEntries (m : Mirror) : Bytes :=
  m.foldr (fun p acc => sampleEncStr p.1 ++ sampleEncInt p.2.TTL ++ sampleEncStr p.2.Key
    ++ sampleEncInt p.2.Index ++ acc) []

/-- Sample decoding of `n` mirror entries. -/
def sampleDecEntries : Nat → Bytes → Option (Mirror × Bytes)
  | 0, b => some ([], b)
  | n + 1, b => do
    let (k, b1) ← sampleDecStr b
    let (ttl, b2) ← sampleDecInt b1
    let (key, b3) ← sampleDecStr b2
    let (idx, b4) ← sampleDecInt b3
    let (more, b5) ← sampleDecEntries n b4
    some ((k, { TTL := ttl, Key := key, Index := idx }) :: more, b5)

/-- A text encoding of the mirror that round-trips, standing in for `encoding/json`. -/
def sampleJSON : JSONCodec where
  Marshal m := .ok (sampleNatsToString (m.length :: sampleEncEntries m))
  Unmarshal x :=
    match sampleStringToNats x with
    | some (n :: b) =>
      match sampleDecEntries n b with
      | some (m, []) => .ok m
      | _ => .error "invalid snapshot"
    | _ => .error "invalid snapshot"

/-- A record with a TTL of five seconds that expires at second 15. -/
def sampleNode : NodeValue :=
  { TTL := 5, Key := "k", Value := "foo", Expiration := ⟨15000000000⟩, Created := 10 }

/-- A leader whose store holds `sampleNode` under `"k"`, with an empty queue and mirror. -/
def sampleAPI : StorageAPI MapStore :=
  { store := { m := [("k", sampleEncode sampleNode)], leader := true },
    ttlIndex := [], queueSnapshot := some [], TTLChunkSize := 100, calls := [] }

/-- The record `SetKey` encodes and returns: the key assigned, the expiry computed, and
`Created` set to the clock (source lines 109 to 113). -/
def SetKey.record (now : Time) (k : String) (value : NodeValue) : NodeValue :=
  { ({ value with Key := k } : NodeValue).CalculateExpiry now with Created := now.Unix }

/-- A replacement value written with a TTL of 666 seconds. -/
def sampleUpdate : NodeValue :=
  { TTL := 666, Key := "", Value := "bar", Expiration := ⟨0⟩, Created := 0 }

/-- The record `SetKey` stores for `sampleUpdate` under `"k"` at second 20. -/
def sampleUpdated : NodeValue :=
  { TTL := 666, Key := "k", Value := "bar", Expiration := ⟨686000000000⟩, Created := 20 }

/-- The state of `sampleAPI` after `SetKey "k" sampleUpdate` at second 20. -/
def sampleAPIUpdated : StorageAPI MapStore :=
  { store := { m := [("k", sampleEncode sampleUpdated)], leader := true },
    ttlIndex := [{ TTL := 686, Key := "k", Index := 0 }],
    queueSnapshot := some [("k", { TTL := 686, Key := "k", Index := 1 })],
    TTLChunkSize := 100,
    calls := [StoreCall.Get "k", StoreCall.Set "k" (sampleEncode sampleUpdated)] }

/-- A leader whose store holds bytes under `"k"` that are not an encoded record. -/
def sampleCorruptAPI : StorageAPI MapStore :=
  { store := { m := [("k", [7])], leader := true },
    ttlIndex := [], queueSnapshot := some [], TTLChunkSize := 100, calls := [] }

/-- The pending expiration of `sampleNode`: key `"k"`, due at second 15. -/
def sampleElem : ttlIndexElement := { TTL := 15, Key := "k", Index := 0 }

/-- A leader with `sampleElem` queued and mirrored, the record of `"k"` in the store. -/
def sampleTickAPI : StorageAPI MapStore :=
  { store := { m := [("k", sampleEncode sampleNode)], leader := true },
    ttlIndex := [sampleElem],
    queueSnapshot := some [("k", { TTL := 15, Key := "k", Index := 1 })],
    TTLChunkSize := 100, calls := [] }

/-- The same node as `sampleTickAPI`, as a follower. -/
def sampleFollowerAPI : StorageAPI MapStore :=
  { sampleTickAPI with store := { m := [("k", sampleEncode sampleNode)], leader := false } }

/-- A leader whose queue starts with an element for the key `"gone"`, which has no record. -/
def sampleMissingAPI : StorageAPI MapStore :=
  { sampleTickAPI with ttlIndex := [{ TTL := 15, Key := "gone", Index := 0 }, sampleElem] }

/-- An older pending expiration of `"k"`, due at second 10, from before the key was rewritten. -/
def sampleOldElem : ttlIndexElement := { TTL := 10, Key := "k", Index := 0 }

/-- A leader whose queue holds the superseded element of `"k"` ahead of the current one, and
which processes one element a tick. -/
def sampleSupersededAPI : StorageAPI MapStore :=
  { store := { m := [("k", sampleEncode sampleNode)], leader := true },
    ttlIndex := [sampleOldElem, sampleElem],
    queueSnapshot := some [("k", { TTL := 15, Key := "k", Index := 2 })],
    TTLChunkSize := 1, calls := [] }

/-- The snapshot record holding the mirror entry of `"k"`, as a leader wrote it at second 12. -/
def sampleSnapshotNode : NodeValue :=
  { TTL := 0, Key := "TCF_TTL_SNAPHOT", Value := "1 1 107 0 15 1 107 0 1 ",
    Expiration := ⟨0⟩, Created := 12 }

/-- A node that has just regained leadership: the mirror pointer is nil, the queue is empty,
the store holds the record of `"k"` and the snapshot with the pending expiration of `"k"`. -/
def sampleRegainedAPI : StorageAPI MapStore :=
  { store := { m := [("TCF_TTL_SNAPHOT", sampleEncode sampleSnapshotNode),
                     ("k", sampleEncode sampleNode)], leader := true },
    ttlIndex := [], queueSnapshot := none, TTLChunkSize := 100, calls := [] }

/-- A node that has just regained leadership and whose store holds no snapshot. -/
def sampleFreshLeaderAPI : StorageAPI MapStore :=
  { store := { m := [("k", sampleEncode sampleNode)], leader := true },
    ttlIndex := [], queueSnapshot := none, TTLChunkSize := 100, calls := [] }

/-- The snapshot record once the empty mirror has been written over it at second 14. -/
def sampleEmptiedSnapshotNode : NodeValue :=
  { sampleSnapshotNode with Value := "0 ", Created := 14 }

/-- A leader whose store holds, under the reserved key, a record whose value is not an encoded
mirror. -/
def sampleBadSnapshotAPI : StorageAPI MapStore :=
  { store := { m := [("TCF_TTL_SNAPHOT", sampleEncode { sampleSnapshotNode with Value := "x" }),
                     ("k", sampleEncode sampleNode)], leader := true },
    ttlIndex := [], queueSnapshot := some [], TTLChunkSize := 100, calls := [] }

/-- Modelled from the spec: the Consensus Store on a leader that cannot commit (section 7,
`StoreUnavailable`): reads are served from the local map, every `Set` and `Delete` fails. -/
def unavailableStore : Store MapStore where
  Get st k := .ok (st.m.lookup k)
  Set st _ _ := (st, some "no quorum")
  Delete st _ := (st, some "no quorum")
  IsLeader st := st.leader

/-- The leader of `sampleSupersededAPI` with the default chunk size: one tick processes both the
superseded element of `"k"` and the current one. -/
def sampleSupersededChunkAPI : StorageAPI MapStore :=
  { sampleSupersededAPI with TTLChunkSize := 100 }

/-- The state of `sampleSupersededAPI` after its tick at second 20: the superseded element is
gone from the queue, the record of `"k"` is in the store, the snapshot has been written. -/
def sampleSupersededAfterAPI : StorageAPI MapStore :=
  { store := { m := [("TCF_TTL_SNAPHOT",
                        sampleEncode { sampleSnapshotNode with Value := "0 ", Created := 20 }),
                     ("k", sampleEncode sampleNode)], leader := true },
    ttlIndex := [sampleElem], queueSnapshot := some [], TTLChunkSize := 1,
    calls := [StoreCall.Get "k", StoreCall.Get "TCF_TTL_SNAPHOT",
              StoreCall.Get "TCF_TTL_SNAPHOT",
              StoreCall.Set "TCF_TTL_SNAPHOT"
                (sampleEncode { sampleSnapshotNode with Value := "0 ", Created := 20 })] }

/-- A first write of `"k"`, with a TTL of five seconds. -/
def sampleFirstWrite : NodeValue :=
  { TTL := 5, Key := "", Value := "foo", Expiration := ⟨0⟩, Created := 0 }

/-- A second write of `"k"`: the record read back, made never-expiring (TTL 0) and given a new
value; its expiration field still reads second 15. -/
def sampleNeverWrite : NodeValue :=
  { sampleNode with TTL := 0, Value := "bar" }

/-- The never-expiring record of `"k"` as the second write, at second 15, stores it. -/
def sampleNeverNode : NodeValue :=
  { TTL := 0, Key := "k", Value := "bar", Expiration := ⟨15000000000⟩, Created := 15 }

/-- A leader after the two writes: the store holds the never-expiring record of `"k"`, the queue
and the mirror still hold the element of the first write, due at second 15. -/
def sampleNeverAPI : StorageAPI MapStore :=
  { store := { m := [("k", sampleEncode sampleNeverNode)], leader := true },
    ttlIndex := [sampleElem],
    queueSnapshot := some [("k", { TTL := 15, Key := "k", Index := 1 })],
    TTLChunkSize := 100,
    calls := [StoreCall.Get "k", StoreCall.Set "k" (sampleEncode sampleNode),
              StoreCall.Get "k", StoreCall.Set "k" (sampleEncode sampleNeverNode)] }

/-- The state of `sampleTickAPI` after its tick at second 20: the key `"k"` deleted, the queue
empty, the snapshot of the empty mirror written. -/
def sampleTickExpiredAPI : StorageAPI MapStore :=
  { store := { m := [("TCF_TTL_SNAPHOT",
                        sampleEncode { sampleSnapshotNode with Value := "0 ", Created := 20 })],
               leader := true },
    ttlIndex := [], queueSnapshot := some [], TTLChunkSize := 100,
    calls := [StoreCall.Get "k", StoreCall.Delete "k", StoreCall.Get "TCF_TTL_SNAPHOT",
              StoreCall.Get "TCF_TTL_SNAPHOT",
              StoreCall.Set "TCF_TTL_SNAPHOT"
                (sampleEncode { sampleSnapshotNode with Value := "0 ", Created := 20 })] }

/-- The state of `sampleTickAPI` after its tick at second 12: the record of `"k"` in the store,
its element back in the queue, the snapshot written. -/
def sampleTickDeferredAPI : StorageAPI MapStore :=
  { store := { m := [("TCF_TTL_SNAPHOT",
                        sampleEncode { sampleSnapshotNode with Value := "0 ", Created := 12 }),
                     ("k", sampleEncode sampleNode)], leader := true },
    ttlIndex := [sampleElem], queueSnapshot := some [], TTLChunkSize := 100,
    calls := [StoreCall.Get "k", StoreCall.Get "TCF_TTL_SNAPHOT",
              StoreCall.Get "TCF_TTL_SNAPHOT",
              StoreCall.Set "TCF_TTL_SNAPHOT"
                (sampleEncode { sampleSnapshotNode with Value := "0 ", Created := 12 })] }

/-! ## Basic facts about the operations -/

/-- A non-empty key whose bytes the store returns: the bytes come back and one `Get` is logged. -/
theorem getKeyFromStore_found {σ : Type} (S : Store σ) (s : StorageAPI σ) (k : String)
    (b : Bytes) (hk : k ≠ "") (hget : S.Get s.store k = .ok (some b)) :
    getKeyFromStore S s k
      = ((some b, none), { s with calls := s.calls ++ [StoreCall.Get k] }) := by
  simp [getKeyFromStore, hk, hget]

/-- Reading never changes the store, the queue or the mirror. -/
theorem getKeyFromStore_store {σ : Type} (S : Store σ) (s : StorageAPI σ) (k : String) :
    (getKeyFromStore S s k).2.store = s.store
      ∧ (getKeyFromStore S s k).2.ttlIndex = s.ttlIndex
      ∧ (getKeyFromStore S s k).2.queueSnapshot = s.queueSnapshot := by
  unfold getKeyFromStore
  split
  · exact ⟨rfl, rfl, rfl⟩
  · split <;> exact ⟨rfl, rfl, rfl⟩

/-- The record `SetKey` stores has the key assigned and keeps the caller's value and TTL. -/
theorem SetKey.record_fields (now : Time) (k : String) (value : NodeValue) :
    (SetKey.record now k value).Key = k
      ∧ (SetKey.record now k value).Value = value.Value
      ∧ (SetKey.record now k value).TTL = value.TTL := by
  unfold SetKey.record NodeValue.CalculateExpiry
  split <;> exact ⟨rfl, rfl, rfl⟩

/-- What a returning `addTTL` did: nothing on a follower; on a leader the mirror was allocated,
the element is at the tail of the queue and the mirror entry carries the new queue length. -/
theorem addTTL_ok_inv {σ : Type} (S : Store σ) (s s3 : StorageAPI σ) (elem : ttlIndexElement)
    (h : addTTL S s elem = .ok s3) :
    s3.store = s.store ∧ s3.calls = s.calls ∧ s3.TTLChunkSize = s.TTLChunkSize
    ∧ (S.IsLeader s.store = true →
        ∃ m, s.queueSnapshot = some m
          ∧ s3.ttlIndex = s.ttlIndex ++ [elem]
          ∧ s3.queueSnapshot
              = some (m.set elem.Key { elem with Index := ((s.ttlIndex ++ [elem]).length : Int) }))
    ∧ (S.IsLeader s.store = false →
        s3.ttlIndex = s.ttlIndex ∧ s3.queueSnapshot = s.queueSnapshot) := by
  unfold addTTL at h
  cases hl : S.IsLeader s.store
  · simp [hl] at h
    subst h
    simp
  · simp only [hl] at h
    cases hm : s.queueSnapshot with
    | none => simp [hm] at h
    | some m =>
      simp [hm] at h
      subst h
      simp

/-- The body of `SetKey` with the record to store named. -/
theorem SetKey_eq {σ : Type} (S : Store σ) (C : Codec) (s : StorageAPI σ)
    (now : Time) (k : String) (value : NodeValue) (overwrite : Bool) :
    SetKey S C s now k value overwrite =
      (if (getKeyFromStore S s k).1.2.isNone
            && (match C.NewKeyValueAPIObjectFromMsgPack (getKeyFromStore S s k).1.1 with
                | .ok asNode =>
                  if now.After asNode.Node.Expiration && asNode.Node.TTL != 0 then true
                  else overwrite
                | .error _ => overwrite) == false then
        .ok ((none, some { Cause := "/" ++ k, Error := ErrorCode.RAFTErrorKeyExists,
                           MetaData := "" }), (getKeyFromStore S s k).2)
      else
        match C.EncodeForStorage (SetKey.record now k value) with
        | .error encErr =>
          .ok ((none, some (NewErrorResponse ("/" ++ k)
                  ("Could not encode payload for store: " ++ encErr))), (getKeyFromStore S s k).2)
        | .ok toStore =>
          match (S.Set (getKeyFromStore S s k).2.store k toStore).2 with
          | some err =>
            .ok ((none, some (NewErrorResponse ("/" ++ k)
                    ("Could not write to store: " ++ err))),
                 { (getKeyFromStore S s k).2 with
                     store := (S.Set (getKeyFromStore S s k).2.store k toStore).1,
                     calls := (getKeyFromStore S s k).2.calls ++ [StoreCall.Set k toStore] })
          | none =>
            if (SetKey.record now k value).TTL > 0
                && (SetKey.record now k value).Key != TTLSNAPSHOT_KEY then
              match trackTTLForKey S
                  { (getKeyFromStore S s k).2 with
                     store := (S.Set (getKeyFromStore S s k).2.store k toStore).1,
                     calls := (getKeyFromStore S s k).2.calls ++ [StoreCall.Set k toStore] }
                  (SetKey.record now k value).Key (SetKey.record now k value).Expiration.Unix with
              | .error f => .error f
              | .ok s3 => .ok ((some (SetKey.record now k value), none), s3)
            else
              .ok ((some (SetKey.record now k value), none),
                   { (getKeyFromStore S s k).2 with
                     store := (S.Set (getKeyFromStore S s k).2.store k toStore).1,
                     calls := (getKeyFromStore S s k).2.calls ++ [StoreCall.Set k toStore] })) := by
  rfl


/-- What a successful `SetKey` did: it encoded the record it returns, the store's `Set` accepted
the bytes, and the TTL index went through `addTTL` when the TTL is positive and the key is not
the reserved one. -/
theorem SetKey_success_inv {σ : Type} (S : Store σ) (C : Codec) (s s' : StorageAPI σ)
    (now : Time) (k : String) (node v : NodeValue) (overwrite : Bool)
    (h : SetKey S C s now k node overwrite = .ok ((some v, none), s')) :
    v = SetKey.record now k node
    ∧ ∃ b, C.EncodeForStorage v = .ok b
        ∧ (S.Set s.store k b).2 = none
        ∧ s'.store = (S.Set s.store k b).1
        ∧ ∃ s2 : StorageAPI σ, s2.store = s'.store ∧ s2.ttlIndex = s.ttlIndex
            ∧ s2.queueSnapshot = s.queueSnapshot
            ∧ (if v.TTL > 0 ∧ k ≠ TTLSNAPSHOT_KEY then
                addTTL S s2 { TTL := v.Expiration.Unix, Key := k, Index := 0 } = .ok s'
               else s' = s2) := by
  rw [SetKey_eq] at h
  obtain ⟨hs1, hs2, hs3⟩ := getKeyFromStore_store S s k
  have hkey : (SetKey.record now k node).Key = k := (SetKey.record_fields now k node).1
  generalize getKeyFromStore S s k = g at h hs1 hs2 hs3
  obtain ⟨⟨existingValue, errResp⟩, s1⟩ := g
  simp only at h hs1 hs2 hs3
  split at h
  · simp at h
  · cases henc : C.EncodeForStorage (SetKey.record now k node) with
    | error e => simp [henc] at h
    | ok b =>
      simp only [henc] at h
      cases hset : (S.Set s1.store k b).2 with
      | some e => simp [hset] at h
      | none =>
        simp only [hset, hkey] at h
        split at h
        · rename_i hc
          simp only [Bool.and_eq_true, decide_eq_true_eq, bne_iff_ne] at hc
          cases ht : trackTTLForKey S
              { s1 with store := (S.Set s1.store k b).1,
                        calls := s1.calls ++ [StoreCall.Set k b] }
              k (SetKey.record now k node).Expiration.Unix with
          | error f => simp [ht] at h
          | ok s3 =>
            simp only [ht, Except.ok.injEq, Prod.mk.injEq, Option.some.injEq, and_true] at h
            obtain ⟨hv, hs'⟩ := h
            subst hv; subst hs'
            have hinv := addTTL_ok_inv S _ _ _ ht
            refine ⟨rfl, b, henc, by rw [← hs1]; exact hset, ?_, ?_⟩
            · rw [hinv.1, hs1]
            · refine ⟨_, hinv.1.symm, hs2, hs3, ?_⟩
              rw [if_pos hc]
              exact ht
        · rename_i hc
          simp only [Bool.and_eq_true, decide_eq_true_eq, bne_iff_ne] at hc
          simp only [Except.ok.injEq, Prod.mk.injEq, Option.some.injEq, and_true] at h
          obtain ⟨hv, hs'⟩ := h
          subst hv; subst hs'
          refine ⟨rfl, b, henc, by rw [← hs1]; exact hset, by simp [hs1], ?_⟩
          exact ⟨_, rfl, hs2, hs3, by rw [if_neg hc]⟩

/-- An expired record does not block a write: with encoding and the store's `Set` succeeding,
and the mirror allocated whenever the write is tracked on a leader, `SetKey` without overwrite
returns the new record and the store holds its bytes. -/
theorem SetKey_expired_slot {σ : Type} (S : Store σ) (C : Codec) (s : StorageAPI σ)
    (now : Time) (k : String) (node : NodeValue) (b bytes : Bytes) (e : KeyValueAPIObject)
    (hk : k ≠ "")
    (hget : S.Get s.store k = .ok (some b))
    (hdec : C.NewKeyValueAPIObjectFromMsgPack (some b) = .ok e)
    (hexp : e.Node.TTL ≠ 0 ∧ now.After e.Node.Expiration = true)
    (henc : C.EncodeForStorage (SetKey.record now k node) = .ok bytes)
    (hset : (S.Set s.store k bytes).2 = none)
    (hheld : S.Get (S.Set s.store k bytes).1 k = .ok (some bytes))
    (hmir : s.queueSnapshot ≠ none ∨ S.IsLeader (S.Set s.store k bytes).1 = false
              ∨ node.TTL ≤ 0 ∨ k = TTLSNAPSHOT_KEY) :
    ∃ s', SetKey S C s now k node false = .ok ((some (SetKey.record now k node), none), s')
      ∧ S.Get s'.store k = .ok (some bytes) := by
  rw [SetKey_eq, getKeyFromStore_found S s k b hk hget]
  obtain ⟨hkey, -, httl⟩ := SetKey.record_fields now k node
  simp only [hdec, hexp.1, hexp.2, henc, hset, hkey, httl]
  simp only [Option.isNone_none, bne_iff_ne, ne_eq, not_false_eq_true, decide_True,
    Bool.and_self, if_true, Bool.true_and, beq_iff_eq, Bool.true_eq_false, if_false]
  by_cases hc : node.TTL > 0 ∧ k ≠ TTLSNAPSHOT_KEY
  · have hmir' : s.queueSnapshot ≠ none ∨ S.IsLeader (S.Set s.store k bytes).1 = false := by
      rcases hmir with h | h | h | h
      · exact Or.inl h
      · exact Or.inr h
      · omega
      · exact absurd h hc.2
    simp only [hc.1, hc.2, decide_True, Bool.and_self, if_true, trackTTLForKey, addTTL, ne_eq,
      not_false_eq_true, bne_iff_ne]
    cases hl : S.IsLeader (S.Set s.store k bytes).1
    · simp [hheld, hexp.1, hc.2]
    · cases hm : s.queueSnapshot with
      | none => simp [hm, hl] at hmir'
      | some m => simp [hheld, hexp.1, hc.2]
  · have : (decide (node.TTL > 0) && (k != TTLSNAPSHOT_KEY)) = false := by
      simp only [Bool.and_eq_false_imp, decide_eq_true_eq, bne_eq_false_iff_eq]
      intro h1
      by_contra h2
      exact hc ⟨h1, h2⟩
    simp [this, hheld, hexp.1]

/-- The result of `GetKey` on a present, decodable record. -/
theorem GetKey_decoded {σ : Type} (S : Store σ) (C : Codec) (s : StorageAPI σ)
    (now : Time) (k : String) (evenIfExpired : Bool) (b : Bytes) (e : KeyValueAPIObject)
    (hk : k ≠ "")
    (hget : S.Get s.store k = .ok (some b))
    (hdec : C.NewKeyValueAPIObjectFromMsgPack (some b) = .ok e) :
    GetKey S C s now k evenIfExpired
      = ((if now.After e.Node.Expiration && e.Node.TTL != 0 && evenIfExpired == false then
            (none, some (NewErrorNotFound ("/" ++ k)))
          else (some e, none)),
         { s with calls := s.calls ++ [StoreCall.Get k] }) := by
  simp only [GetKey, getKeyFromStore, hk, hget, hdec, if_false]
  split <;> rfl

/-- The effect and the result of `DeleteKey` in terms of the store's `Delete`. -/
theorem DeleteKey_eq {σ : Type} (S : Store σ) (s : StorageAPI σ) (k : String) :
    (DeleteKey S s k).2
        = { s with store := (S.Delete s.store k).1, calls := s.calls ++ [StoreCall.Delete k] }
    ∧ (DeleteKey S s k).1.1 = none
    ∧ ((DeleteKey S s k).1.2 = none ↔ (S.Delete s.store k).2 = none) := by
  unfold DeleteKey
  cases h : (S.Delete s.store k).2 <;> simp [h]

/-- A non-empty key for which the store yields no bytes reads as not-found. -/
theorem GetKey_not_held {σ : Type} (S : Store σ) (C : Codec) (s : StorageAPI σ)
    (now : Time) (k : String) (evenIfExpired : Bool)
    (hk : k ≠ "") (hrem : ∀ b, S.Get s.store k ≠ .ok (some b)) :
    ∃ err, (GetKey S C s now k evenIfExpired).1 = (none, some err)
      ∧ err.Error = ErrorCode.notFound ∧ err.Cause = "/" ++ k := by
  unfold GetKey getKeyFromStore
  rw [if_neg hk]
  cases hg : S.Get s.store k with
  | error e => exact ⟨_, rfl, rfl, rfl⟩
  | ok v =>
    cases v with
    | none => exact ⟨_, rfl, rfl, rfl⟩
    | some b => exact absurd hg (hrem b)

/-- Removing the pairs of key `k` does not change what is found under another key. -/
theorem lookup_filter_ne {β : Type} (m : List (String × β)) (k k' : String) (h : k' ≠ k) :
    (m.filter (fun p => p.1 != k)).lookup k' = m.lookup k' := by
  induction m with
  | nil => rfl
  | cons p m ih =>
    obtain ⟨a, v⟩ := p
    by_cases ha : a = k
    · subst ha
      have hne : (k' == a) = false := by simpa using h
      simp [List.filter, List.lookup, hne, ih]
    · have hf : ((a, v).1 != k) = true := by simpa using ha
      simp only [List.filter, hf, List.lookup]
      cases hka : k' == a
      · simpa using ih
      · rfl


/-- The result of `GetKey` is an envelope without error or an error without envelope. -/
theorem GetKey_result_shape {σ : Type} (S : Store σ) (C : Codec) (s : StorageAPI σ)
    (now : Time) (k : String) (evenIfExpired : Bool) :
    (∃ e, (GetKey S C s now k evenIfExpired).1 = (some e, none))
    ∨ (∃ err, (GetKey S C s now k evenIfExpired).1 = (none, some err)) := by
  unfold GetKey
  generalize getKeyFromStore S s k = g
  obtain ⟨⟨v, errResp⟩, s1⟩ := g
  cases errResp with
  | some err => exact Or.inr ⟨err, rfl⟩
  | none =>
    simp only
    cases C.NewKeyValueAPIObjectFromMsgPack v with
    | error msg => exact Or.inr ⟨_, rfl⟩
    | ok rv =>
      simp only
      split
      · exact Or.inr ⟨_, rfl⟩
      · exact Or.inl ⟨_, rfl⟩

/-- The result of a returning `SetKey` is a node without error or an error without node. -/
theorem SetKey_result_shape {σ : Type} (S : Store σ) (C : Codec) (s s' : StorageAPI σ)
    (now : Time) (k : String) (node : NodeValue) (overwrite : Bool)
    (r : Option NodeValue × Option ErrorResponse)
    (h : SetKey S C s now k node overwrite = .ok (r, s')) :
    (∃ v, r = (some v, none)) ∨ (∃ err, r = (none, some err)) := by
  rw [SetKey_eq] at h
  split at h
  · simp only [Except.ok.injEq, Prod.mk.injEq] at h
    exact Or.inr ⟨_, h.1.symm⟩
  · split at h
    · simp only [Except.ok.injEq, Prod.mk.injEq] at h
      exact Or.inr ⟨_, h.1.symm⟩
    · split at h
      · simp only [Except.ok.injEq, Prod.mk.injEq] at h
        exact Or.inr ⟨_, h.1.symm⟩
      · split at h
        · split at h
          · simp at h
          · simp only [Except.ok.injEq, Prod.mk.injEq] at h
            exact Or.inl ⟨_, h.1.symm⟩
        · simp only [Except.ok.injEq, Prod.mk.injEq] at h
          exact Or.inl ⟨_, h.1.symm⟩


/-- After `m[k] = e` the entry under `k` is `e`. -/
theorem Mirror.lookup_set (m : Mirror) (k : String) (e : ttlIndexElement) :
    (m.set k e).lookup k = some e := by
  simp [Mirror.set, List.lookup]


/-! ## Reads -/

/-- C1: for a non-empty key whose stored bytes decode to a record `e`, `GetKey` returns the
not-found error (and no envelope) exactly when the record's TTL is non-zero, the clock is after
its expiration and `evenIfExpired` is false; in every other case it returns `e` with no error. -/
theorem C1_GetKey_expiry_policy {σ : Type} (S : Store σ) (C : Codec) (s : StorageAPI σ)
    (now : Time) (k : String) (evenIfExpired : Bool) (b : Bytes) (e : KeyValueAPIObject)
    (hk : k ≠ "")
    (hget : S.Get s.store k = .ok (some b))
    (hdec : C.NewKeyValueAPIObjectFromMsgPack (some b) = .ok e) :
    ((GetKey S C s now k evenIfExpired).1 = (none, some (NewErrorNotFound ("/" ++ k)))
        ↔ (e.Node.TTL ≠ 0 ∧ now.After e.Node.Expiration = true ∧ evenIfExpired = false))
    ∧ (¬ (e.Node.TTL ≠ 0 ∧ now.After e.Node.Expiration = true ∧ evenIfExpired = false)
        → (GetKey S C s now k evenIfExpired).1 = (some e, none)) := by
  have hG := GetKey_decoded S C s now k evenIfExpired b e hk hget hdec
  by_cases hc : e.Node.TTL ≠ 0 ∧ now.After e.Node.Expiration = true ∧ evenIfExpired = false
  · obtain ⟨h1, h2, h3⟩ := hc
    rw [hG]
    simp [h1, h2, h3]
  · have hres : (GetKey S C s now k evenIfExpired).1 = (some e, none) := by
      rw [hG]
      simp only
      split
      · rename_i h
        exfalso; apply hc
        simp at h
        tauto
      · rfl
    refine ⟨?_, fun _ => hres⟩
    rw [hres]
    simp [hc]

/-- C1 at a concrete input: the record under `"k"` expired at second 15, so a default read at
second 20 is not-found while a read with `evenIfExpired` returns the envelope. -/
theorem C1_GetKey_expiry_policy_witness :
    ("k" ≠ "" ∧ mapStore.Get sampleAPI.store "k" = .ok (some (sampleEncode sampleNode))
      ∧ sampleCodec.NewKeyValueAPIObjectFromMsgPack (some (sampleEncode sampleNode))
          = .ok { Action := "get", Node := sampleNode })
    ∧ (GetKey mapStore sampleCodec sampleAPI ⟨20000000000⟩ "k" false).1
        = (none, some (NewErrorNotFound ("/" ++ "k")))
    ∧ (GetKey mapStore sampleCodec sampleAPI ⟨20000000000⟩ "k" true).1
        = (some { Action := "get", Node := sampleNode }, none) :=
  ⟨⟨by decide, rfl, rfl⟩,
   (C1_GetKey_expiry_policy mapStore sampleCodec sampleAPI ⟨20000000000⟩ "k" false
      (sampleEncode sampleNode) { Action := "get", Node := sampleNode }
      (by decide) rfl rfl).1.2 ⟨by decide, by decide, rfl⟩,
   (C1_GetKey_expiry_policy mapStore sampleCodec sampleAPI ⟨20000000000⟩ "k" true
      (sampleEncode sampleNode) { Action := "get", Node := sampleNode }
      (by decide) rfl rfl).2 (by decide)⟩

/-! ## Writes -/

/-- C2: for a non-empty key holding a live record (decodable, and TTL zero or the clock not after
its expiration), `SetKey` without overwrite returns the KeyExists error with cause `"/" ++ k`;
the store, the TTL queue and the mirror are unchanged, and the only call the store received is
the `Get` (no `Set` is issued). -/
theorem C2_SetKey_live_key_exists {σ : Type} (S : Store σ) (C : Codec) (s : StorageAPI σ)
    (now : Time) (k : String) (node : NodeValue) (b : Bytes) (e : KeyValueAPIObject)
    (hk : k ≠ "")
    (hget : S.Get s.store k = .ok (some b))
    (hdec : C.NewKeyValueAPIObjectFromMsgPack (some b) = .ok e)
    (hlive : e.Node.TTL = 0 ∨ now.After e.Node.Expiration = false) :
    SetKey S C s now k node false
      = .ok ((none, some { Cause := "/" ++ k, Error := ErrorCode.RAFTErrorKeyExists,
                           MetaData := "" }),
             { store := s.store, ttlIndex := s.ttlIndex, queueSnapshot := s.queueSnapshot,
               TTLChunkSize := s.TTLChunkSize, calls := s.calls ++ [StoreCall.Get k] }) := by
  rcases hlive with h | h <;>
    simp [SetKey, getKeyFromStore, hk, hget, hdec, h]

/-- C2 at a concrete input: at second 12 the record under `"k"` is still live. -/
theorem C2_SetKey_live_key_exists_witness :
    (sampleNode.TTL = 0 ∨ (⟨12000000000⟩ : Time).After sampleNode.Expiration = false)
    ∧ SetKey mapStore sampleCodec sampleAPI ⟨12000000000⟩ "k"
        { sampleNode with Value := "bar" } false
      = .ok ((none, some { Cause := "/k", Error := ErrorCode.RAFTErrorKeyExists,
                           MetaData := "" }),
             { sampleAPI with calls := [StoreCall.Get "k"] }) :=
  ⟨by decide,
   C2_SetKey_live_key_exists mapStore sampleCodec sampleAPI ⟨12000000000⟩ "k"
     { sampleNode with Value := "bar" } (sampleEncode sampleNode)
     { Action := "get", Node := sampleNode } (by decide) rfl rfl (by decide)⟩

/-- C3: an expired record (TTL non-zero, clock after its expiration) does not block `SetKey`
without overwrite.  First part: when encoding and the store's `Set` succeed and the write is
either not TTL-tracked or finds the mirror allocated, `SetKey` returns the new node with no error
and the store holds the new bytes under `k`.  Second part: on a leader whose mirror pointer is
nil the same call, with a positive TTL, ends in a nil dereference instead of returning. -/
theorem C3_SetKey_expired_slot_nil_mirror :
    (∀ (σ : Type) (S : Store σ) (C : Codec) (s : StorageAPI σ) (now : Time) (k : String)
        (node : NodeValue) (b bytes : Bytes) (e : KeyValueAPIObject),
        k ≠ "" → S.Get s.store k = .ok (some b) →
        C.NewKeyValueAPIObjectFromMsgPack (some b) = .ok e →
        (e.Node.TTL ≠ 0 ∧ now.After e.Node.Expiration = true) →
        C.EncodeForStorage (SetKey.record now k node) = .ok bytes →
        (S.Set s.store k bytes).2 = none →
        S.Get (S.Set s.store k bytes).1 k = .ok (some bytes) →
        (s.queueSnapshot ≠ none ∨ S.IsLeader (S.Set s.store k bytes).1 = false
          ∨ node.TTL ≤ 0 ∨ k = TTLSNAPSHOT_KEY) →
        ∃ s', SetKey S C s now k node false
                = .ok ((some (SetKey.record now k node), none), s')
          ∧ S.Get s'.store k = .ok (some bytes))
    ∧ SetKey mapStore sampleCodec { sampleAPI with queueSnapshot := none } ⟨20000000000⟩ "k"
          { sampleNode with Value := "bar" } false
        = .error Fault.nilDereference :=
  ⟨fun _ S C s now k node b bytes e hk hget hdec hexp henc hset hheld hmir =>
      SetKey_expired_slot S C s now k node b bytes e hk hget hdec hexp henc hset hheld hmir,
   rfl⟩

/-- C4: read-your-write.  If `SetKey` succeeds, returning the node `v`, and the codec decodes
the bytes it produced for `v` back to `v`, and the store returns under `k` the bytes a successful
`Set` was given, then `v` carries the key `k` and the value and TTL passed in, a following
`GetKey k true` returns an envelope around `v`, and so does `GetKey k false` as long as the TTL
is zero or the clock is not after the expiration.  The state `s` and the flag `overwrite` are
arbitrary, so this covers a first write and an overwrite alike. -/
theorem C4_read_your_write {σ : Type} (S : Store σ) (C : Codec) (s s' : StorageAPI σ)
    (now later : Time) (k : String) (node v : NodeValue) (overwrite : Bool)
    (hk : k ≠ "")
    (hset : SetKey S C s now k node overwrite = .ok ((some v, none), s'))
    (hcodec : ∀ b, C.EncodeForStorage v = .ok b →
        ∃ a, C.NewKeyValueAPIObjectFromMsgPack (some b) = .ok { Action := a, Node := v })
    (hstore : ∀ b, (S.Set s.store k b).2 = none →
        S.Get (S.Set s.store k b).1 k = .ok (some b)) :
    v.Key = k ∧ v.Value = node.Value ∧ v.TTL = node.TTL
    ∧ ∃ a, (GetKey S C s' later k true).1 = (some { Action := a, Node := v }, none)
        ∧ ((v.TTL = 0 ∨ later.After v.Expiration = false) →
            (GetKey S C s' later k false).1 = (some { Action := a, Node := v }, none)) := by
  obtain ⟨hv, b, henc, hok, hst, -⟩ := SetKey_success_inv S C s s' now k node v overwrite hset
  obtain ⟨a, hdec⟩ := hcodec b henc
  have hget : S.Get s'.store k = .ok (some b) := by rw [hst]; exact hstore b hok
  have hf := SetKey.record_fields now k node
  rw [← hv] at hf
  refine ⟨hf.1, hf.2.1, hf.2.2, a, ?_, ?_⟩
  · simp [GetKey_decoded S C s' later k true b _ hk hget hdec]
  · intro hlive
    rw [GetKey_decoded S C s' later k false b _ hk hget hdec]
    rcases hlive with h | h <;> simp [h]

/-- C4 at a concrete input: an update of the existing key `"k"` at second 20, read back one
second later. -/
theorem C4_read_your_write_witness :
    SetKey mapStore sampleCodec sampleAPI ⟨20000000000⟩ "k" sampleUpdate true
        = .ok ((some sampleUpdated, none), sampleAPIUpdated)
    ∧ (sampleUpdated.Key = "k" ∧ sampleUpdated.Value = sampleUpdate.Value
        ∧ sampleUpdated.TTL = sampleUpdate.TTL
        ∧ ∃ a, (GetKey mapStore sampleCodec sampleAPIUpdated ⟨21000000000⟩ "k" true).1
                = (some { Action := a, Node := sampleUpdated }, none)
            ∧ ((sampleUpdated.TTL = 0
                  ∨ (⟨21000000000⟩ : Time).After sampleUpdated.Expiration = false) →
                (GetKey mapStore sampleCodec sampleAPIUpdated ⟨21000000000⟩ "k" false).1
                  = (some { Action := a, Node := sampleUpdated }, none))) :=
  ⟨rfl,
   C4_read_your_write mapStore sampleCodec sampleAPI sampleAPIUpdated ⟨20000000000⟩
     ⟨21000000000⟩ "k" sampleUpdate sampleUpdated true (by decide) rfl
     (fun b hb => by
        have hb' : sampleEncode sampleUpdated = b := by
          simpa [sampleCodec] using hb
        subst hb'
        exact ⟨"get", rfl⟩)
     (fun b _ => by simp [mapStore, sampleAPI, List.lookup])⟩

/-! ## Deletes -/

/-- C5: for a non-empty key, once `DeleteKey` has returned without error, the store's `Delete`
having removed the key from the map (a following `Get` yields no bytes), `GetKey` returns the
not-found error with cause `"/" ++ k` and no envelope, for either value of `evenIfExpired` and
whatever the key held before. -/
theorem C5_GetKey_after_DeleteKey {σ : Type} (S : Store σ) (C : Codec) (s : StorageAPI σ)
    (now : Time) (k : String) (evenIfExpired : Bool)
    (hk : k ≠ "")
    (hdel : (DeleteKey S s k).1.2 = none)
    (hstore : (S.Delete s.store k).2 = none →
        ∀ b, S.Get (S.Delete s.store k).1 k ≠ .ok (some b)) :
    ∃ err, (GetKey S C (DeleteKey S s k).2 now k evenIfExpired).1 = (none, some err)
      ∧ err.Error = ErrorCode.notFound ∧ err.Cause = "/" ++ k := by
  obtain ⟨hst, -, herr⟩ := DeleteKey_eq S s k
  have hrem := hstore (herr.1 hdel)
  apply GetKey_not_held S C _ now k evenIfExpired hk
  rw [hst]
  exact hrem

/-- C5 at a concrete input: the key `"k"` of `sampleAPI` deleted, then read. -/
theorem C5_GetKey_after_DeleteKey_witness :
    (DeleteKey mapStore sampleAPI "k").1.2 = none
    ∧ ∃ err, (GetKey mapStore sampleCodec (DeleteKey mapStore sampleAPI "k").2
                ⟨12000000000⟩ "k" true).1 = (none, some err)
        ∧ err.Error = ErrorCode.notFound ∧ err.Cause = "/" ++ "k" :=
  ⟨by decide,
   C5_GetKey_after_DeleteKey mapStore sampleCodec sampleAPI ⟨12000000000⟩ "k" true
     (by decide) (by decide) (fun _ b hb => by simp [mapStore, sampleAPI, List.lookup] at hb)⟩

/-- C6: `DeleteKey` returns an error exactly when the store's `Delete` does; it issues that one
call and nothing else, so whether the key is absent, live or expired plays no role.  On the
reference store, whose `Delete` is idempotent, a leader reports success for every key and the
bytes held under every other key are unchanged. -/
theorem C6_DeleteKey_error_iff_store_error {σ : Type} (S : Store σ) (s : StorageAPI σ)
    (k : String) :
    ((DeleteKey S s k).1.2 ≠ none ↔ (S.Delete s.store k).2 ≠ none)
    ∧ (DeleteKey S s k).2
        = { s with store := (S.Delete s.store k).1, calls := s.calls ++ [StoreCall.Delete k] }
    ∧ (∀ (t : StorageAPI MapStore) (j : String), t.store.leader = true →
        (DeleteKey mapStore t j).1.2 = none
        ∧ ∀ j', j' ≠ j →
            mapStore.Get (DeleteKey mapStore t j).2.store j' = mapStore.Get t.store j') := by
  obtain ⟨hst, -, herr⟩ := DeleteKey_eq S s k
  refine ⟨?_, hst, ?_⟩
  · exact not_congr herr
  · intro t j hl
    obtain ⟨hst', -, herr'⟩ := DeleteKey_eq mapStore t j
    refine ⟨herr'.2 (by simp [mapStore, hl]), ?_⟩
    intro j' hj
    rw [hst']
    simp only [mapStore, hl, if_true]
    rw [lookup_filter_ne _ _ _ hj]

/-! ## Result shape and edge cases -/

/-- C7 fails as stated: a successful `DeleteKey` returns a nil envelope together with a nil
error (source line 138). -/
theorem C7_DeleteKey_returns_nil_nil :
    (DeleteKey mapStore sampleAPI "k").1 = (none, none) := by
  decide

/-- C7 (amended): `GetKey`, and `SetKey` whenever it returns, yield either a populated result
with a nil error or a nil result with a structured error, never nil with nil; `DeleteKey`
always yields a nil envelope, and its error is nil exactly when the store's `Delete` succeeds. -/
theorem C7_result_or_error {σ : Type} (S : Store σ) (C : Codec) (s : StorageAPI σ)
    (now : Time) (k : String) (evenIfExpired : Bool) (node : NodeValue) (overwrite : Bool) :
    ((∃ e, (GetKey S C s now k evenIfExpired).1 = (some e, none))
      ∨ (∃ err, (GetKey S C s now k evenIfExpired).1 = (none, some err)))
    ∧ (∀ r s', SetKey S C s now k node overwrite = .ok (r, s') →
        (∃ v, r = (some v, none)) ∨ (∃ err, r = (none, some err)))
    ∧ (DeleteKey S s k).1.1 = none
    ∧ ((DeleteKey S s k).1.2 = none ↔ (S.Delete s.store k).2 = none) :=
  ⟨GetKey_result_shape S C s now k evenIfExpired,
   fun r s' h => SetKey_result_shape S C s s' now k node overwrite r h,
   (DeleteKey_eq S s k).2.1, (DeleteKey_eq S s k).2.2⟩

/-- C8: the empty key.  `GetKey` rejects it with the error "Key cannot be empty" before any
call to the store and leaves the state as it was.  `SetKey` receives the same rejection from
`getKeyFromStore` but only tests it for the KeyExists decision: with `k = ""` it goes on to
call the store's `Set`, returns success and tracks the TTL.  `DeleteKey` has no check and
calls the store's `Delete` with the empty key. -/
theorem C8_empty_key_reaches_store :
    (∀ (σ : Type) (S : Store σ) (C : Codec) (s : StorageAPI σ) (now : Time) (flag : Bool),
        GetKey S C s now "" flag
          = ((none, some (NewErrorResponse "/" "Key cannot be empty")), s))
    ∧ SetKey mapStore sampleCodec sampleAPI ⟨20000000000⟩ "" sampleUpdate false
        = .ok ((some { sampleUpdated with Key := "" }, none),
               { store := { m := [("", sampleEncode { sampleUpdated with Key := "" }),
                                  ("k", sampleEncode sampleNode)], leader := true },
                 ttlIndex := [{ TTL := 686, Key := "", Index := 0 }],
                 queueSnapshot := some [("", { TTL := 686, Key := "", Index := 1 })],
                 TTLChunkSize := 100,
                 calls := [StoreCall.Set "" (sampleEncode { sampleUpdated with Key := "" })] })
    ∧ DeleteKey mapStore sampleAPI ""
        = ((none, none), { sampleAPI with calls := [StoreCall.Delete ""] }) :=
  ⟨fun _ _ _ _ _ _ => rfl, rfl, by decide⟩

/-- C9: for a non-empty key whose stored bytes are present but fail to decode, `GetKey`
returns, for either flag value, the general error response with cause `"/" ++ k` carrying the
marshalling message; that error is not a not-found error. -/
theorem C9_GetKey_decode_failure {σ : Type} (S : Store σ) (C : Codec) (s : StorageAPI σ)
    (now : Time) (k : String) (evenIfExpired : Bool) (b : Bytes) (msg : String)
    (hk : k ≠ "")
    (hget : S.Get s.store k = .ok (some b))
    (hdec : C.NewKeyValueAPIObjectFromMsgPack (some b) = .error msg) :
    (GetKey S C s now k evenIfExpired).1
        = (none, some (NewErrorResponse ("/" ++ k) ("Key marshalling failed: " ++ msg)))
    ∧ (NewErrorResponse ("/" ++ k) ("Key marshalling failed: " ++ msg)).Cause = "/" ++ k
    ∧ (NewErrorResponse ("/" ++ k) ("Key marshalling failed: " ++ msg)).Error
        = ErrorCode.general
    ∧ ∀ cause, NewErrorResponse ("/" ++ k) ("Key marshalling failed: " ++ msg)
        ≠ NewErrorNotFound cause := by
  refine ⟨?_, rfl, rfl, ?_⟩
  · simp [GetKey, getKeyFromStore, hk, hget, hdec]
  · intro cause h
    have := congrArg ErrorResponse.Error h
    simp [NewErrorResponse, NewErrorNotFound] at this

/-- C9 at a concrete input: the bytes `[7]` under `"k"` are not an encoded record. -/
theorem C9_GetKey_decode_failure_witness :
    (mapStore.Get sampleCorruptAPI.store "k" = .ok (some [7])
      ∧ sampleCodec.NewKeyValueAPIObjectFromMsgPack (some [7]) = .error "malformed record")
    ∧ (GetKey mapStore sampleCodec sampleCorruptAPI ⟨12000000000⟩ "k" true).1
        = (none, some (NewErrorResponse ("/" ++ "k")
            ("Key marshalling failed: " ++ "malformed record"))) :=
  ⟨⟨rfl, rfl⟩,
   (C9_GetKey_decode_failure mapStore sampleCodec sampleCorruptAPI ⟨12000000000⟩ "k" true [7]
      "malformed record" (by decide) rfl rfl).1⟩

/-! ## TTL tracking on Set -/

/-- C10: after a successful `SetKey` returning the node `v` (the record whose encoding the store
was given), with leadership read from the store as the write left it: if `node.TTL > 0`, `k` is
not the reserved key and the node is a leader, exactly one element with key `k` and the unix
seconds of `v.Expiration` is appended to the tail of the TTL queue and the mirror entry for `k`
is set to it (indexed by the new queue length); otherwise the queue and the mirror are
unchanged.  Hence the queue grows by one element exactly in the first case. -/
theorem C10_SetKey_ttl_tracking {σ : Type} (S : Store σ) (C : Codec) (s s' : StorageAPI σ)
    (now : Time) (k : String) (node v : NodeValue) (overwrite : Bool)
    (hset : SetKey S C s now k node overwrite = .ok ((some v, none), s')) :
    (∃ b, C.EncodeForStorage v = .ok b ∧ s'.store = (S.Set s.store k b).1)
    ∧ ((node.TTL > 0 ∧ k ≠ TTLSNAPSHOT_KEY ∧ S.IsLeader s'.store = true) →
        ∃ m, s.queueSnapshot = some m
          ∧ s'.ttlIndex = s.ttlIndex ++ [{ TTL := v.Expiration.Unix, Key := k, Index := 0 }]
          ∧ s'.queueSnapshot
              = some (m.set k { TTL := v.Expiration.Unix, Key := k,
                                Index := (s.ttlIndex.length : Int) + 1 })
          ∧ (s'.queueSnapshot.bind (fun m' => m'.lookup k))
              = some { TTL := v.Expiration.Unix, Key := k,
                       Index := (s.ttlIndex.length : Int) + 1 })
    ∧ (¬ (node.TTL > 0 ∧ k ≠ TTLSNAPSHOT_KEY ∧ S.IsLeader s'.store = true) →
        s'.ttlIndex = s.ttlIndex ∧ s'.queueSnapshot = s.queueSnapshot)
    ∧ ((∃ e, s'.ttlIndex = s.ttlIndex ++ [e])
        ↔ (node.TTL > 0 ∧ k ≠ TTLSNAPSHOT_KEY ∧ S.IsLeader s'.store = true)) := by
  obtain ⟨hv, b, henc, -, hst, s2, hs2st, hs2q, hs2m, hif⟩ :=
    SetKey_success_inv S C s s' now k node v overwrite hset
  have httl : v.TTL = node.TTL := by rw [hv]; exact (SetKey.record_fields now k node).2.2
  rw [httl] at hif
  have hyes : (node.TTL > 0 ∧ k ≠ TTLSNAPSHOT_KEY ∧ S.IsLeader s'.store = true) →
      ∃ m, s.queueSnapshot = some m
        ∧ s'.ttlIndex = s.ttlIndex ++ [{ TTL := v.Expiration.Unix, Key := k, Index := 0 }]
        ∧ s'.queueSnapshot
            = some (m.set k { TTL := v.Expiration.Unix, Key := k,
                              Index := (s.ttlIndex.length : Int) + 1 }) := by
    rintro ⟨h1, h2, h3⟩
    rw [if_pos ⟨h1, h2⟩] at hif
    obtain ⟨-, -, -, hlead, -⟩ := addTTL_ok_inv S s2 s' _ hif
    obtain ⟨m, hm, hq, hmir⟩ := hlead (by rw [hs2st]; exact h3)
    refine ⟨m, by rw [← hs2m]; exact hm, by rw [hq, hs2q], ?_⟩
    rw [hmir, hs2q]
    simp
  have hno : ¬ (node.TTL > 0 ∧ k ≠ TTLSNAPSHOT_KEY ∧ S.IsLeader s'.store = true) →
      s'.ttlIndex = s.ttlIndex ∧ s'.queueSnapshot = s.queueSnapshot := by
    intro hn
    by_cases hc : node.TTL > 0 ∧ k ≠ TTLSNAPSHOT_KEY
    · rw [if_pos hc] at hif
      obtain ⟨-, -, -, -, hfol⟩ := addTTL_ok_inv S s2 s' _ hif
      have hl : S.IsLeader s2.store = false := by
        rw [hs2st]
        cases hb : S.IsLeader s'.store
        · rfl
        · exact absurd ⟨hc.1, hc.2, hb⟩ hn
      obtain ⟨h1, h2⟩ := hfol hl
      exact ⟨by rw [h1, hs2q], by rw [h2, hs2m]⟩
    · rw [if_neg hc] at hif
      subst hif
      exact ⟨hs2q, hs2m⟩
  refine ⟨⟨b, henc, hst⟩, ?_, hno, ?_⟩
  · intro h
    obtain ⟨m, hm, hq, hmir⟩ := hyes h
    refine ⟨m, hm, hq, hmir, ?_⟩
    rw [hmir]
    exact Mirror.lookup_set m k _
  · constructor
    · rintro ⟨e, he⟩
      by_contra hn
      have := (hno hn).1
      rw [this] at he
      have hlen := congrArg List.length he
      simp at hlen
    · intro h
      obtain ⟨m, -, hq, -⟩ := hyes h
      exact ⟨_, hq⟩

/-- C10 at a concrete input: the update of `"k"` with a TTL of 666 at second 20 on a leader. -/
theorem C10_SetKey_ttl_tracking_witness :
    SetKey mapStore sampleCodec sampleAPI ⟨20000000000⟩ "k" sampleUpdate true
        = .ok ((some sampleUpdated, none), sampleAPIUpdated)
    ∧ sampleAPIUpdated.ttlIndex = sampleAPI.ttlIndex ++ [{ TTL := 686, Key := "k", Index := 0 }]
    ∧ sampleAPIUpdated.queueSnapshot.bind (fun m' => m'.lookup "k")
        = some { TTL := 686, Key := "k", Index := 1 } :=
  have h := (C10_SetKey_ttl_tracking mapStore sampleCodec sampleAPI sampleAPIUpdated
      ⟨20000000000⟩ "k" sampleUpdate sampleUpdated true rfl).2.1
        ⟨by decide, by decide, by decide⟩
  ⟨rfl, by obtain ⟨m, -, hq, -, -⟩ := h; exact hq, by obtain ⟨m, -, -, -, hl⟩ := h; exact hl⟩

/-! ## The eviction tick -/

/-- An error from `GetKey` comes with a nil envelope. -/
theorem GetKey_error_nil {σ : Type} (S : Store σ) (C : Codec) (s : StorageAPI σ)
    (now : Time) (k : String) (evenIfExpired : Bool) (err : ErrorResponse)
    (h : (GetKey S C s now k evenIfExpired).1.2 = some err) :
    (GetKey S C s now k evenIfExpired).1.1 = none := by
  rcases GetKey_result_shape S C s now k evenIfExpired with ⟨e, he⟩ | ⟨e, he⟩
  · rw [he] at h; simp at h
  · rw [he]

/-- C11: on a follower (`IsLeader()` false) `processTTLElement` and `storeTTLSnapshot` return at
once with the receiver as it was: no call reaches the store (no Set, no Delete), and the TTL
queue and the mirror are unchanged, whatever the queue holds and whatever the clock reads. -/
theorem C11_follower_tick_is_noop {σ : Type} (S : Store σ) (C : Codec) (J : JSONCodec)
    (s : StorageAPI σ) (now : Time) (hfollower : S.IsLeader s.store = false) :
    processTTLElement S C J s now = .ok s ∧ storeTTLSnapshot S C J s now = .ok s := by
  constructor
  · simp [processTTLElement, hfollower]
  · simp [storeTTLSnapshot, hfollower]

/-- C11 at a concrete input: a follower holding a queued element past its expiry. -/
theorem C11_follower_tick_is_noop_witness :
    mapStore.IsLeader sampleFollowerAPI.store = false
    ∧ processTTLElement mapStore sampleCodec sampleJSON sampleFollowerAPI ⟨20000000000⟩
        = .ok sampleFollowerAPI
    ∧ storeTTLSnapshot mapStore sampleCodec sampleJSON sampleFollowerAPI ⟨20000000000⟩
        = .ok sampleFollowerAPI :=
  ⟨rfl, C11_follower_tick_is_noop mapStore sampleCodec sampleJSON sampleFollowerAPI
    ⟨20000000000⟩ rfl⟩

/-- The first pass of the loop faults when the head element's key cannot be read. -/
theorem processTTLElement_loop_missing {σ : Type} (S : Store σ) (C : Codec)
    (s : StorageAPI σ) (now : Time) (n i : Nat) (applyDeletes : List ttlIndexElement)
    (e : ttlIndexElement) (rest : List ttlIndexElement) (err : ErrorResponse)
    (hq : s.ttlIndex = e :: rest)
    (hget : (GetKey S C { s with ttlIndex := rest } now e.Key true).1.2 = some err) :
    processTTLElement.loop S C now (n + 1) i s applyDeletes = .error Fault.nilDereference := by
  have hnil := GetKey_error_nil S C _ now e.Key true err hget
  simp only [processTTLElement.loop, hq, processTTLElement.body]
  generalize GetKey S C { s with ttlIndex := rest } now e.Key true = g at hnil
  obtain ⟨⟨ek, ge⟩, s1⟩ := g
  simp only at hnil
  subst hnil
  rfl

/-- C14: eviction of a missing record.  The claim is that the tick drops the element and goes
on.  First part: on a leader with a positive chunk size, whenever `GetKey` fails for the key of
the head element of the queue (no record, unreadable or undecodable bytes), the tick ends in a
nil dereference: the source sets `skip` and then reads `existingKey.Node` of the nil envelope
(line 220).  Second and third part: a concrete leader whose head element names the key `"gone"`,
absent from the store. -/
theorem C14_missing_record_faults :
    (∀ (σ : Type) (S : Store σ) (C : Codec) (J : JSONCodec) (s : StorageAPI σ) (now : Time)
        (e : ttlIndexElement) (rest : List ttlIndexElement) (err : ErrorResponse),
        S.IsLeader s.store = true → s.ttlIndex = e :: rest → 0 < s.TTLChunkSize →
        (GetKey S C { s with ttlIndex := rest } now e.Key true).1.2 = some err →
        processTTLElement S C J s now = .error Fault.nilDereference)
    ∧ mapStore.Get sampleMissingAPI.store "gone" = .ok none
    ∧ processTTLElement mapStore sampleCodec sampleJSON sampleMissingAPI ⟨20000000000⟩
        = .error Fault.nilDereference := by
  refine ⟨?_, rfl, rfl⟩
  intro σ S C J s now e rest err hlead hq hc hget
  have hmax : ∃ n, (if ((s.ttlIndex.length : Int) < s.TTLChunkSize) then
      (s.ttlIndex.length : Int) else s.TTLChunkSize).toNat = n + 1 := by
    have hlen : (0 : Int) < (s.ttlIndex.length : Int) := by rw [hq]; simp
    split
    · exact ⟨s.ttlIndex.length - 1, by omega⟩
    · exact ⟨s.TTLChunkSize.toNat - 1, by omega⟩
  obtain ⟨n, hn⟩ := hmax
  have hnonneg : ¬ (if ((s.ttlIndex.length : Int) < s.TTLChunkSize) then
      (s.ttlIndex.length : Int) else s.TTLChunkSize) < 0 := by
    split <;> omega
  simp only [processTTLElement, hlead, hnonneg, hn, Bool.true_eq_false, if_false,
    beq_iff_eq]
  rw [processTTLElement_loop_missing S C s now n 0 _ e rest err hq hget]

/-- The state `GetKey` returns: the receiver with the one `Get` logged, or the receiver itself
for the empty key. -/
theorem GetKey_state {σ : Type} (S : Store σ) (C : Codec) (s : StorageAPI σ)
    (now : Time) (k : String) (evenIfExpired : Bool) :
    (GetKey S C s now k evenIfExpired).2
      = if k = "" then s else { s with calls := s.calls ++ [StoreCall.Get k] } := by
  unfold GetKey getKeyFromStore
  by_cases hk : k = ""
  · simp [hk]
  · simp only [hk, if_false]
    cases S.Get s.store k with
    | error e => rfl
    | ok v =>
      cases v with
      | none => rfl
      | some b =>
        simp only
        cases C.NewKeyValueAPIObjectFromMsgPack (some b) with
        | error e => rfl
        | ok rv =>
          simp only
          split <;> rfl

/-- A key for which `GetKey` returns an envelope is not the empty key. -/
theorem GetKey_some_ne_empty {σ : Type} (S : Store σ) (C : Codec) (s : StorageAPI σ)
    (now : Time) (k : String) (evenIfExpired : Bool) (e : KeyValueAPIObject)
    (h : (GetKey S C s now k evenIfExpired).1 = (some e, none)) : k ≠ "" := by
  intro hk
  subst hk
  simp [GetKey, getKeyFromStore] at h

/-- The body of the loop once `GetKey` has returned an envelope: the three outcomes. -/
theorem processTTLElement_body_found {σ : Type} (S : Store σ) (C : Codec) (s : StorageAPI σ)
    (now : Time) (e : ttlIndexElement) (r : KeyValueAPIObject)
    (hrec : (GetKey S C s now e.Key true).1 = (some r, none)) :
    processTTLElement.body S C s now e
      = if r.Node.Expiration.Unix ≠ e.TTL then
          .ok { s with calls := s.calls ++ [StoreCall.Get e.Key] }
        else if now.Unix > e.TTL then
          .ok { s with store := (S.Delete s.store e.Key).1,
                       calls := s.calls ++ [StoreCall.Get e.Key, StoreCall.Delete e.Key] }
        else
          addTTL S { s with calls := s.calls ++ [StoreCall.Get e.Key] } e := by
  have hk := GetKey_some_ne_empty S C s now e.Key true r hrec
  have hst := GetKey_state S C s now e.Key true
  rw [if_neg hk] at hst
  unfold processTTLElement.body
  generalize GetKey S C s now e.Key true = g at hrec hst
  obtain ⟨⟨ek, ge⟩, s1⟩ := g
  simp only [Prod.mk.injEq] at hrec hst
  obtain ⟨h1, h2⟩ := hrec
  subst h1; subst h2; subst hst
  by_cases hne : r.Node.Expiration.Unix = e.TTL
  · by_cases hnow : now.Unix > e.TTL
    · simp [hne, hnow, DeleteKey_eq]
    · simp [hne, hnow]
  · simp [hne]

/-- The pass of the loop for a superseded element.  The receiver `s` has `e` at the head of its
queue, and the record `GetKey` returns for `e.Key` (read with `evenIfExpired`) has an expiration
whose unix seconds differ from `e.TTL`.  Then the pass that processes `e`, whatever the clock
reads, dequeues `e` and issues the `Get` and nothing else: no `Delete` and no `Set` reach the
store, the store and with it the record are unchanged, `e` is not re-enqueued (the queue is
the rest), and the loop goes on with the remaining passes. -/
theorem processTTLElement_pass_superseded {σ : Type} (S : Store σ) (C : Codec)
    (s : StorageAPI σ) (now : Time) (e : ttlIndexElement) (rest : List ttlIndexElement)
    (r : KeyValueAPIObject) (n i : Nat) (applyDeletes : List ttlIndexElement)
    (hq : s.ttlIndex = e :: rest)
    (hrec : (GetKey S C { s with ttlIndex := rest } now e.Key true).1 = (some r, none))
    (hne : r.Node.Expiration.Unix ≠ e.TTL) :
    processTTLElement.body S C { s with ttlIndex := rest } now e
        = .ok { s with ttlIndex := rest, calls := s.calls ++ [StoreCall.Get e.Key] }
    ∧ processTTLElement.loop S C now (n + 1) i s applyDeletes
        = processTTLElement.loop S C now n (i + 1)
            { s with ttlIndex := rest, calls := s.calls ++ [StoreCall.Get e.Key] }
            (applyDeletes.set i e) := by
  have hb := processTTLElement_body_found S C { s with ttlIndex := rest } now e r hrec
  rw [if_pos hne] at hb
  refine ⟨hb, ?_⟩
  simp only [processTTLElement.loop, hq, hb]

/-- Whole seconds do not decrease with the instant. -/
theorem Time.Unix_le_of_not_After (t u : Time) (h : t.After u = false) : t.Unix ≤ u.Unix := by
  unfold Time.After at h
  unfold Time.Unix
  have hle : t.unixNano ≤ u.unixNano := by
    have := of_decide_eq_false h
    omega
  exact Int.ediv_le_ediv (by decide) hle

/-- The pass of the loop for an element that carries the record's expiration.  The receiver
`s` is a leader's, with the mirror allocated as `processTTLs` leaves it before each tick, `e`
already dequeued; the record `GetKey` returns for `e.Key` has an expiration whose unix seconds
equal `e.TTL`.  If the clock in unix seconds is past `e.TTL` the pass issues `DeleteKey` and
does not re-enqueue `e`; otherwise the store is unchanged and `e` is appended to the tail of
the queue (and written to the mirror).  A record whose expiration the clock has not passed is
always in the second case. -/
theorem processTTLElement_pass_expire_or_defer {σ : Type} (S : Store σ) (C : Codec)
    (s : StorageAPI σ) (now : Time) (e : ttlIndexElement) (r : KeyValueAPIObject) (m : Mirror)
    (hlead : S.IsLeader s.store = true)
    (hmir : s.queueSnapshot = some m)
    (hrec : (GetKey S C s now e.Key true).1 = (some r, none))
    (heq : r.Node.Expiration.Unix = e.TTL) :
    (now.Unix > e.TTL →
        processTTLElement.body S C s now e
          = .ok { s with store := (S.Delete s.store e.Key).1,
                         calls := s.calls ++ [StoreCall.Get e.Key, StoreCall.Delete e.Key] })
    ∧ (¬ now.Unix > e.TTL →
        processTTLElement.body S C s now e
          = .ok { s with ttlIndex := s.ttlIndex ++ [e],
                         queueSnapshot :=
                           some (m.set e.Key { e with Index := (s.ttlIndex.length : Int) + 1 }),
                         calls := s.calls ++ [StoreCall.Get e.Key] })
    ∧ (now.After r.Node.Expiration = false → ¬ now.Unix > e.TTL) := by
  have hb := processTTLElement_body_found S C s now e r hrec
  rw [if_neg (by simpa using heq)] at hb
  refine ⟨?_, ?_, ?_⟩
  · intro hnow
    rw [hb, if_pos hnow]
  · intro hnow
    rw [hb, if_neg hnow]
    simp [addTTL, hlead, hmir]
  · intro hlive
    have := Time.Unix_le_of_not_After now r.Node.Expiration hlive
    omega

/-- A returning pass of the loop body leaves the queue as it is or with the element at its
tail. -/
theorem processTTLElement_body_queue {σ : Type} (S : Store σ) (C : Codec)
    (s s1 : StorageAPI σ) (now : Time) (e : ttlIndexElement)
    (h : processTTLElement.body S C s now e = .ok s1) :
    s1.ttlIndex = s.ttlIndex ∨ s1.ttlIndex = s.ttlIndex ++ [e] := by
  rcases GetKey_result_shape S C s now e.Key true with ⟨r, hr⟩ | ⟨err, herr⟩
  · rw [processTTLElement_body_found S C s now e r hr] at h
    split at h
    · simp only [Except.ok.injEq] at h
      subst h
      exact Or.inl rfl
    · split at h
      · simp only [Except.ok.injEq] at h
        subst h
        exact Or.inl rfl
      · obtain ⟨-, -, -, hl, hf⟩ := addTTL_ok_inv S _ s1 e h
        cases hlead : S.IsLeader s.store
        · exact Or.inl (hf hlead).1
        · obtain ⟨m, -, hq, -⟩ := hl hlead
          exact Or.inr hq
  · exfalso
    unfold processTTLElement.body at h
    generalize GetKey S C s now e.Key true = g at herr h
    obtain ⟨⟨ek, ge⟩, s2⟩ := g
    simp only [Prod.mk.injEq] at herr
    obtain ⟨h1, -⟩ := herr
    subst h1
    simp at h

/-- Writing position `i` of a slice and taking the first `i + 1` entries. -/
theorem take_set_succ {α : Type} (ad : List α) (i : Nat) (e : α) (h : i < ad.length) :
    (ad.set i e).take (i + 1) = ad.take i ++ [e] := by
  induction ad generalizing i with
  | nil => simp at h
  | cons a ad ih =>
    cases i with
    | zero => simp
    | succ i =>
      simp only [List.length_cons, Nat.add_lt_add_iff_right] at h
      simp [ih i h]

/-- Entries behind position `i` are not touched by writing position `i`. -/
theorem drop_set_succ {α : Type} (ad : List α) (i : Nat) (e : α) (k : Nat) :
    (ad.set i e).drop (i + 1 + k) = ad.drop (i + 1 + k) := by
  induction ad generalizing i with
  | nil => simp
  | cons a ad ih =>
    cases i with
    | zero =>
      have : 0 + 1 + k = k + 1 := by omega
      simp [this]
    | succ i =>
      have : i + 1 + 1 + k = (i + 1 + k) + 1 := by omega
      simp only [this, List.set_cons_succ, List.drop_succ_cons]
      exact ih i

/-- A returning loop of `n` passes on a queue of at least `n` elements removes the first `n`
elements, head first, keeps the others in order and puts the re-enqueued ones, a sublist of the
removed ones, behind them; `applyDeletes` receives the removed elements at the positions from
`i` on. -/
theorem processTTLElement_loop_queue {σ : Type} (S : Store σ) (C : Codec) (now : Time) :
    ∀ (n i : Nat) (s s' : StorageAPI σ) (ad ad' : List ttlIndexElement),
      processTTLElement.loop S C now n i s ad = .ok (s', ad') →
      n ≤ s.ttlIndex.length → i + n ≤ ad.length →
      (∃ rq, s'.ttlIndex = s.ttlIndex.drop n ++ rq ∧ rq.Sublist (s.ttlIndex.take n))
      ∧ ad' = ad.take i ++ s.ttlIndex.take n ++ ad.drop (i + n) := by
  intro n
  induction n with
  | zero =>
    intro i s s' ad ad' h _ _
    simp only [processTTLElement.loop, Except.ok.injEq, Prod.mk.injEq] at h
    obtain ⟨h1, h2⟩ := h
    subst h1; subst h2
    exact ⟨⟨[], by simp, by simp⟩, by simp⟩
  | succ n ih =>
    intro i s s' ad ad' h hn hi
    cases hq : s.ttlIndex with
    | nil => rw [hq] at hn; simp at hn
    | cons e rest =>
      rw [hq] at hn
      simp only [List.length_cons, Nat.add_le_add_iff_right] at hn
      simp only [processTTLElement.loop, hq] at h
      cases hb : processTTLElement.body S C { s with ttlIndex := rest } now e with
      | error f => simp [hb] at h
      | ok s1 =>
        simp only [hb] at h
        have hs1 := processTTLElement_body_queue S C _ s1 now e hb
        simp only at hs1
        have hlen : n ≤ s1.ttlIndex.length := by
          rcases hs1 with h1 | h1
          · rw [h1]; exact hn
          · rw [h1, List.length_append]; omega
        have hadlen : (i + 1) + n ≤ (ad.set i e).length := by simp; omega
        obtain ⟨⟨rq, hrq, hsub⟩, had⟩ := ih (i + 1) s1 s' (ad.set i e) ad' h hlen hadlen
        have htake : s1.ttlIndex.take n = rest.take n := by
          rcases hs1 with h1 | h1
          · rw [h1]
          · rw [h1, List.take_append_of_le_length hn]
        constructor
        · rcases hs1 with h1 | h1
          · refine ⟨rq, ?_, ?_⟩
            · rw [hrq, h1]; simp
            · rw [htake] at hsub
              simp only [List.take_succ_cons]
              exact List.Sublist.cons e hsub
          · refine ⟨e :: rq, ?_, ?_⟩
            · rw [hrq, h1, List.drop_append_of_le_length hn]; simp
            · rw [htake] at hsub
              simp only [List.take_succ_cons]
              exact List.Sublist.cons₂ e hsub
        · rw [had, htake]
          have hi' : i < ad.length := by omega
          have h1 := take_set_succ ad i e hi'
          have h2 : (ad.set i e).drop (i + 1 + n) = ad.drop (i + (n + 1)) := by
            rw [drop_set_succ ad i e n]
            congr 1
            omega
          rw [h1, h2]
          simp


/-- The reserved key is not the empty key. -/
theorem TTLSNAPSHOT_KEY_ne_empty : TTLSNAPSHOT_KEY ≠ "" := by decide

/-- A write under the reserved key always returns and never touches the queue or the mirror. -/
theorem SetKey_reserved {σ : Type} (S : Store σ) (C : Codec) (s : StorageAPI σ)
    (now : Time) (v : NodeValue) (overwrite : Bool) :
    ∃ r s', SetKey S C s now TTLSNAPSHOT_KEY v overwrite = .ok (r, s')
      ∧ s'.ttlIndex = s.ttlIndex ∧ s'.queueSnapshot = s.queueSnapshot
      ∧ s'.TTLChunkSize = s.TTLChunkSize := by
  rw [SetKey_eq]
  obtain ⟨hs1, hs2, hs3⟩ := getKeyFromStore_store S s TTLSNAPSHOT_KEY
  have hs4 : (getKeyFromStore S s TTLSNAPSHOT_KEY).2.TTLChunkSize = s.TTLChunkSize := by
    unfold getKeyFromStore
    split
    · rfl
    · split <;> rfl
  have hkey : (SetKey.record now TTLSNAPSHOT_KEY v).Key = TTLSNAPSHOT_KEY :=
    (SetKey.record_fields now TTLSNAPSHOT_KEY v).1
  split
  · exact ⟨_, _, rfl, hs2, hs3, hs4⟩
  · split
    · exact ⟨_, _, rfl, hs2, hs3, hs4⟩
    · split
      · exact ⟨_, _, rfl, hs2, hs3, hs4⟩
      · simp only [hkey, bne_self_eq_false, Bool.and_false, Bool.false_eq_true, if_false]
        exact ⟨_, _, rfl, hs2, hs3, hs4⟩

/-- The snapshot write returns whenever the mirror is allocated, and it leaves the queue, the
mirror and the chunk size as they were. -/
theorem storeTTLSnapshot_frame {σ : Type} (S : Store σ) (C : Codec) (J : JSONCodec)
    (s : StorageAPI σ) (now : Time) :
    (s.queueSnapshot ≠ none → ∃ s', storeTTLSnapshot S C J s now = .ok s')
    ∧ ∀ s', storeTTLSnapshot S C J s now = .ok s' →
        s'.ttlIndex = s.ttlIndex ∧ s'.queueSnapshot = s.queueSnapshot
          ∧ s'.TTLChunkSize = s.TTLChunkSize := by
  unfold storeTTLSnapshot
  cases hl : S.IsLeader s.store
  · simp only [beq_self_eq_true, if_true]
    exact ⟨fun _ => ⟨s, rfl⟩, fun s' h => by cases h; exact ⟨rfl, rfl, rfl⟩⟩
  · simp only [Bool.true_eq_false, beq_iff_eq, if_false]
    cases hm : s.queueSnapshot with
    | none => exact ⟨fun h => absurd rfl h, fun s' h => by simp at h⟩
    | some m =>
      simp only
      cases J.Marshal m with
      | error e =>
        exact ⟨fun _ => ⟨s, rfl⟩, fun s' h => by cases h; exact ⟨rfl, hm, rfl⟩⟩
      | ok asStr =>
        simp only
        have hst := GetKey_state S C s now TTLSNAPSHOT_KEY false
        rw [if_neg TTLSNAPSHOT_KEY_ne_empty] at hst
        have hshape := GetKey_result_shape S C s now TTLSNAPSHOT_KEY false
        generalize GetKey S C s now TTLSNAPSHOT_KEY false = g at hst hshape
        obtain ⟨⟨ex, err⟩, s1⟩ := g
        simp only at hst hshape
        subst hst
        have key : ∀ (e : KeyValueAPIObject),
            (∃ s', (match SetKey S C { s with calls := s.calls ++ [StoreCall.Get TTLSNAPSHOT_KEY] }
                now TTLSNAPSHOT_KEY { e.Node with Value := asStr } true with
              | .error f => (Except.error f : Except Fault (StorageAPI σ))
              | .ok (_, s2) => .ok s2) = .ok s')
            ∧ ∀ s', (match SetKey S C { s with calls := s.calls ++ [StoreCall.Get TTLSNAPSHOT_KEY] }
                now TTLSNAPSHOT_KEY { e.Node with Value := asStr } true with
              | .error f => (Except.error f : Except Fault (StorageAPI σ))
              | .ok (_, s2) => .ok s2) = .ok s' →
              s'.ttlIndex = s.ttlIndex ∧ s'.queueSnapshot = some m
                ∧ s'.TTLChunkSize = s.TTLChunkSize := by
          intro e
          obtain ⟨r, s2, hset, h1, h2, h3⟩ := SetKey_reserved S C
            { s with calls := s.calls ++ [StoreCall.Get TTLSNAPSHOT_KEY] } now
            { e.Node with Value := asStr } true
          rw [hset]
          refine ⟨⟨s2, rfl⟩, fun s' h => ?_⟩
          simp only [Except.ok.injEq] at h
          subst h
          exact ⟨h1, by rw [h2]; exact hm, h3⟩
        rcases hshape with ⟨e, he⟩ | ⟨e, he⟩
        · simp only [Prod.mk.injEq] at he
          obtain ⟨h1, h2⟩ := he
          subst h1; subst h2
          simp only [Option.isSome_none, Bool.false_eq_true, if_false]
          exact ⟨fun _ => (key e).1, (key e).2⟩
        · simp only [Prod.mk.injEq] at he
          obtain ⟨h1, h2⟩ := he
          subst h1; subst h2
          simp only [Option.isSome_some, if_true]
          exact ⟨fun _ => (key _).1, (key _).2⟩

/-- The number of passes of a tick: the smaller of the queue length and the chunk size. -/
theorem processTTLElement_max (len : Nat) (c : Int)
    (h : ¬ (if (len : Int) < c then (len : Int) else c) < 0) :
    (if (len : Int) < c then (len : Int) else c).toNat = min len c.toNat ∧ 0 ≤ c := by
  split at h <;> rename_i hc
  · rw [if_pos hc]
    simp only [Int.toNat_ofNat]
    omega
  · rw [if_neg hc]
    omega

/-- A returning tick on a leader: the chunk size is not negative, the loop ran for the smaller of
queue length and chunk size and returned, `applyDeletes` holds the dequeued elements, the mirror
was allocated, and the tick ends with the loop's queue and with the mirror less the keys of
`applyDeletes`. -/
theorem processTTLElement_ok_inv {σ : Type} (S : Store σ) (C : Codec) (J : JSONCodec)
    (s s' : StorageAPI σ) (now : Time)
    (hlead : S.IsLeader s.store = true)
    (h : processTTLElement S C J s now = .ok s') :
    0 ≤ s.TTLChunkSize
    ∧ ∃ s1, processTTLElement.loop S C now (min s.ttlIndex.length s.TTLChunkSize.toNat) 0 s
          (List.replicate (min s.ttlIndex.length s.TTLChunkSize.toNat)
            { TTL := 0, Key := "", Index := 0 })
          = .ok (s1, s.ttlIndex.take (min s.ttlIndex.length s.TTLChunkSize.toNat))
        ∧ s'.ttlIndex = s1.ttlIndex
        ∧ ∃ m1, s1.queueSnapshot = some m1
            ∧ s'.queueSnapshot
                = some ((s.ttlIndex.take (min s.ttlIndex.length s.TTLChunkSize.toNat)).foldl
                    (fun acc x => Mirror.delete acc x.Key) m1) := by
  unfold processTTLElement at h
  simp only [hlead, Bool.true_eq_false, beq_iff_eq, if_false] at h
  by_cases hneg : (if (s.ttlIndex.length : Int) < s.TTLChunkSize then (s.ttlIndex.length : Int)
      else s.TTLChunkSize) < 0
  · rw [if_pos hneg] at h
    simp at h
  · rw [if_neg hneg] at h
    obtain ⟨hmax, hc⟩ := processTTLElement_max s.ttlIndex.length s.TTLChunkSize hneg
    rw [hmax] at h
    refine ⟨hc, ?_⟩
    generalize hk : min s.ttlIndex.length s.TTLChunkSize.toNat = k at h
    have hkle : k ≤ s.ttlIndex.length := by omega
    cases hloop : processTTLElement.loop S C now k 0 s
          (List.replicate k { TTL := 0, Key := "", Index := 0 }) with
    | error f => simp [hloop] at h
    | ok pr =>
      obtain ⟨s1, ad⟩ := pr
      simp only [hloop] at h
      have had : ad = s.ttlIndex.take k := by
        have := (processTTLElement_loop_queue S C now k 0 s s1 _ ad hloop hkle (by simp)).2
        simpa using this
      subst had
      refine ⟨s1, rfl, ?_⟩
      cases hq : s.ttlIndex.take k with
      | nil =>
        have hk0 : k = 0 := by
          have hl0 : (s.ttlIndex.take k).length = 0 := by rw [hq]; rfl
          rw [List.length_take] at hl0
          omega
        subst hk0
        simp only [processTTLElement.loop, Except.ok.injEq, Prod.mk.injEq] at hloop
        obtain ⟨hs1, -⟩ := hloop
        subst hs1
        simp only [hq] at h
        obtain ⟨hq', hm, -⟩ := (storeTTLSnapshot_frame S C J s now).2 s' h
        refine ⟨hq', ?_⟩
        cases hm1 : s.queueSnapshot with
        | none => simp [storeTTLSnapshot, hm1, hlead] at h
        | some m => exact ⟨m, rfl, by rw [hm, hm1]; rfl⟩
      | cons x xs =>
        simp only [hq] at h
        cases hm1 : s1.queueSnapshot with
        | none => simp [hm1] at h
        | some m1 =>
          simp only [hm1] at h
          obtain ⟨hq', hm, -⟩ := (storeTTLSnapshot_frame S C J _ now).2 s' h
          exact ⟨hq', m1, rfl, hm⟩


/-- The sample integer encoding decodes to the integer, leaving what follows. -/
theorem sampleDecInt_encInt (i : Int) (rest : Bytes) :
    sampleDecInt (sampleEncInt i ++ rest) = some (i, rest) := by
  unfold sampleEncInt
  by_cases h : i < 0
  · rw [if_pos h]
    show some ((if (1 : Nat) = 1 then - ((i.natAbs : Nat) : Int) else ((i.natAbs : Nat) : Int)), rest)
      = some (i, rest)
    rw [if_pos rfl]
    congr 2
    omega
  · rw [if_neg h]
    show some ((if (0 : Nat) = 1 then - ((i.natAbs : Nat) : Int) else ((i.natAbs : Nat) : Int)), rest)
      = some (i, rest)
    rw [if_neg (by decide)]
    congr 2
    omega

/-- The sample string encoding decodes to the string, leaving what follows. -/
theorem sampleDecStr_encStr (x : String) (rest : Bytes) :
    sampleDecStr (sampleEncStr x ++ rest) = some (x, rest) := by
  unfold sampleEncStr
  have hlen : (x.toList.map Char.toNat).length = x.length := by
    rw [List.length_map]; rfl
  show (if (List.map Char.toNat x.toList ++ rest).length < x.length then none
      else some (String.mk (((List.map Char.toNat x.toList ++ rest).take x.length).map Char.ofNat),
        (List.map Char.toNat x.toList ++ rest).drop x.length)) = some (x, rest)
  have h1 : ¬ (List.map Char.toNat x.toList ++ rest).length < x.length := by
    rw [List.length_append, hlen]; omega
  rw [if_neg h1]
  have h2 : (List.map Char.toNat x.toList ++ rest).take x.length
      = List.map Char.toNat x.toList := by
    rw [← hlen, List.take_left]
  have h3 : (List.map Char.toNat x.toList ++ rest).drop x.length = rest := by
    rw [← hlen, List.drop_left]
  rw [h2, h3]
  have h4 : List.map Char.ofNat (List.map Char.toNat x.toList) = x.toList := by
    rw [List.map_map]
    have : (Char.ofNat ∘ Char.toNat) = id := by
      funext c
      exact Char.ofNat_toNat c
    rw [this, List.map_id]
  rw [h4]
  rfl

/-- The sample record codec round-trips. -/
theorem sampleCodec_round_trip (v : NodeValue) :
    ∃ b a, sampleCodec.EncodeForStorage v = .ok b
      ∧ sampleCodec.NewKeyValueAPIObjectFromMsgPack (some b) = .ok { Action := a, Node := v } := by
  refine ⟨sampleEncode v, "get", rfl, ?_⟩
  have hdec : sampleDecode (sampleEncode v) = some v := by
    unfold sampleDecode sampleEncode
    have h5 := sampleDecInt_encInt v.Created []
    rw [List.append_nil] at h5
    simp only [List.append_assoc, sampleDecInt_encInt, sampleDecStr_encStr, Option.bind_eq_bind,
      Option.some_bind, h5, if_true]
  show (match sampleDecode (sampleEncode v) with
    | some n => (Except.ok { Action := "get", Node := n } : Except String KeyValueAPIObject)
    | none => Except.error "malformed record")
      = (Except.ok { Action := "get", Node := v } : Except String KeyValueAPIObject)
  rw [hdec]


/-- The state `getKeyFromStore` returns. -/
theorem getKeyFromStore_state {σ : Type} (S : Store σ) (s : StorageAPI σ) (k : String) :
    (getKeyFromStore S s k).2
      = if k = "" then s else { s with calls := s.calls ++ [StoreCall.Get k] } := by
  unfold getKeyFromStore
  by_cases hk : k = ""
  · simp [hk]
  · simp only [hk, if_false]
    split <;> rfl

/-- An overwriting write under the reserved key, when encoding and the store's `Set` succeed. -/
theorem SetKey_reserved_write {σ : Type} (S : Store σ) (C : Codec) (s : StorageAPI σ)
    (now : Time) (v : NodeValue) (b : Bytes)
    (henc : C.EncodeForStorage (SetKey.record now TTLSNAPSHOT_KEY v) = .ok b)
    (hset : (S.Set s.store TTLSNAPSHOT_KEY b).2 = none) :
    SetKey S C s now TTLSNAPSHOT_KEY v true
      = .ok ((some (SetKey.record now TTLSNAPSHOT_KEY v), none),
             { s with store := (S.Set s.store TTLSNAPSHOT_KEY b).1,
                      calls := s.calls ++ [StoreCall.Get TTLSNAPSHOT_KEY,
                                            StoreCall.Set TTLSNAPSHOT_KEY b] }) := by
  rw [SetKey_eq]
  have hst := getKeyFromStore_state S s TTLSNAPSHOT_KEY
  rw [if_neg TTLSNAPSHOT_KEY_ne_empty] at hst
  have hkey : (SetKey.record now TTLSNAPSHOT_KEY v).Key = TTLSNAPSHOT_KEY :=
    (SetKey.record_fields now TTLSNAPSHOT_KEY v).1
  have hallow : ((match C.NewKeyValueAPIObjectFromMsgPack
        (getKeyFromStore S s TTLSNAPSHOT_KEY).1.1 with
      | .ok asNode =>
        if now.After asNode.Node.Expiration && asNode.Node.TTL != 0 then true else true
      | .error _ => true) == false) = false := by
    split
    · split <;> rfl
    · rfl
  rw [hallow, Bool.and_false]
  simp only [Bool.false_eq_true, if_false, henc, hst, hset, hkey, bne_self_eq_false,
    Bool.and_false, List.append_assoc, List.singleton_append]


/-- The snapshot write on a leader with the mirror allocated and encodable: it is the write,
under the reserved key, of the envelope `GetKey` returned (or of a fresh one) with the encoded
mirror as its value. -/
theorem storeTTLSnapshot_leader {σ : Type} (S : Store σ) (C : Codec) (J : JSONCodec)
    (s : StorageAPI σ) (now : Time) (m : Mirror) (str : String)
    (hlead : S.IsLeader s.store = true)
    (hmir : s.queueSnapshot = some m)
    (hjson : J.Marshal m = .ok str) :
    ∃ e : KeyValueAPIObject,
      ((GetKey S C s now TTLSNAPSHOT_KEY false).1.1 = some e
        ∨ e = { NewKeyValueAPIObject with
                  Node := { NewKeyValueAPIObject.Node with Key := TTLSNAPSHOT_KEY } })
      ∧ storeTTLSnapshot S C J s now
          = (match SetKey S C { s with calls := s.calls ++ [StoreCall.Get TTLSNAPSHOT_KEY] }
                now TTLSNAPSHOT_KEY { e.Node with Value := str } true with
             | .error f => .error f
             | .ok (_, s2) => .ok s2) := by
  unfold storeTTLSnapshot
  simp only [hlead, Bool.true_eq_false, beq_iff_eq, if_false, hmir, hjson]
  have hst := GetKey_state S C s now TTLSNAPSHOT_KEY false
  rw [if_neg TTLSNAPSHOT_KEY_ne_empty] at hst
  have hshape := GetKey_result_shape S C s now TTLSNAPSHOT_KEY false
  generalize GetKey S C s now TTLSNAPSHOT_KEY false = g at hst hshape
  obtain ⟨⟨ex, err⟩, s1⟩ := g
  simp only at hst hshape
  subst hst
  rcases hshape with ⟨e, he⟩ | ⟨e, he⟩
  · simp only [Prod.mk.injEq] at he
    obtain ⟨h1, h2⟩ := he
    subst h1; subst h2
    refine ⟨e, Or.inl rfl, ?_⟩
    simp only [Option.isSome_none, Bool.false_eq_true, if_false, hmir]
  · simp only [Prod.mk.injEq] at he
    obtain ⟨h1, h2⟩ := he
    subst h1; subst h2
    refine ⟨_, Or.inr rfl, ?_⟩
    simp only [Option.isSome_some, if_true, hmir]

/-! ## Snapshot round trip -/

/-- C12: snapshot round trip.  On a leader whose mirror `m` is allocated and keyed as `addTTL`
keys it (every entry stored under the key of its element), whose snapshot record, if `GetKey`
returns one, has TTL zero, with the JSON encoding of `m` decoding back to the entries of `m`, the
record codec round-tripping and the store's `Set` under the reserved key succeeding, keeping
the bytes and the leadership: `storeTTLSnapshot` returns, and `rebuildFromSnapshot` into an empty
queue, at any later clock, returns `StatusSnapshotFound` with a queue whose set of keys is the
key set of `m`. -/
theorem C12_snapshot_round_trip {σ : Type} (S : Store σ) (C : Codec) (J : JSONCodec)
    (s : StorageAPI σ) (now later : Time) (m : Mirror) (str : String)
    (hlead : S.IsLeader s.store = true)
    (hmir : s.queueSnapshot = some m)
    (hkeys : ∀ p ∈ m, p.2.Key = p.1)
    (httl : ∀ e, (GetKey S C s now TTLSNAPSHOT_KEY false).1.1 = some e → e.Node.TTL = 0)
    (hjson : J.Marshal m = .ok str ∧ ∃ m', J.Unmarshal str = .ok m' ∧ ∀ p, p ∈ m' ↔ p ∈ m)
    (hcodec : ∀ v, ∃ b a, C.EncodeForStorage v = .ok b
        ∧ C.NewKeyValueAPIObjectFromMsgPack (some b) = .ok { Action := a, Node := v })
    (hstore : ∀ b, (S.Set s.store TTLSNAPSHOT_KEY b).2 = none
        ∧ S.Get (S.Set s.store TTLSNAPSHOT_KEY b).1 TTLSNAPSHOT_KEY = .ok (some b)
        ∧ S.IsLeader (S.Set s.store TTLSNAPSHOT_KEY b).1 = true) :
    ∃ s1, storeTTLSnapshot S C J s now = .ok s1
      ∧ ∃ q s2, rebuildFromSnapshot S C J s1 later []
            = ((SnapshotStatus.StatusSnapshotFound, q), s2)
        ∧ ∀ k, (∃ e ∈ q, e.Key = k) ↔ (∃ e, (k, e) ∈ m) := by
  obtain ⟨hmarshal, m', hun, hsame⟩ := hjson
  obtain ⟨e, he, hstoreEq⟩ := storeTTLSnapshot_leader S C J s now m str hlead hmir hmarshal
  have hettl : e.Node.TTL = 0 := by
    rcases he with h | h
    · exact httl e h
    · rw [h]; rfl
  obtain ⟨-, hval, hrttl⟩ := SetKey.record_fields now TTLSNAPSHOT_KEY { e.Node with Value := str }
  have hv0 : (SetKey.record now TTLSNAPSHOT_KEY { e.Node with Value := str }).TTL = 0 := by
    rw [hrttl]; exact hettl
  have hvs : (SetKey.record now TTLSNAPSHOT_KEY { e.Node with Value := str }).Value = str := hval
  obtain ⟨b, a, henc, hdec⟩ :=
    hcodec (SetKey.record now TTLSNAPSHOT_KEY { e.Node with Value := str })
  obtain ⟨hset, hget, hlead'⟩ := hstore b
  have hw := SetKey_reserved_write S C { s with calls := s.calls ++ [StoreCall.Get TTLSNAPSHOT_KEY] }
    now { e.Node with Value := str } b henc hset
  rw [hw] at hstoreEq
  generalize SetKey.record now TTLSNAPSHOT_KEY { e.Node with Value := str } = v
    at hv0 hvs hdec hstoreEq
  refine ⟨_, hstoreEq, ?_⟩
  have hG := GetKey_decoded S C
    { s with store := (S.Set s.store TTLSNAPSHOT_KEY b).1,
             calls := s.calls ++ [StoreCall.Get TTLSNAPSHOT_KEY] ++ [StoreCall.Get TTLSNAPSHOT_KEY,
                                            StoreCall.Set TTLSNAPSHOT_KEY b] }
    later TTLSNAPSHOT_KEY false b _ TTLSNAPSHOT_KEY_ne_empty hget hdec
  simp only [hv0, bne_self_eq_false, Bool.and_false, Bool.false_and,
    Bool.false_eq_true, if_false] at hG
  unfold rebuildFromSnapshot
  simp only [hlead', Bool.true_eq_false, beq_iff_eq, if_false, hG, hvs, hun, List.nil_append]
  refine ⟨_, _, rfl, ?_⟩
  intro k
  constructor
  · rintro ⟨x, hx, hxk⟩
    obtain ⟨p, hp, hpx⟩ := List.mem_map.1 hx
    have hpm := (hsame p).1 hp
    have := hkeys p hpm
    refine ⟨p.2, ?_⟩
    have hk : p.1 = k := by rw [← this, hpx, hxk]
    rw [← hk]
    exact hpm
  · rintro ⟨x, hx⟩
    refine ⟨x, List.mem_map.2 ⟨(k, x), (hsame _).2 hx, rfl⟩, ?_⟩
    exact hkeys _ hx


/-- C12 at a concrete input: the mirror of `sampleTickAPI`, written at second 12 and rebuilt at
second 30. -/
theorem C12_snapshot_round_trip_witness :
    (mapStore.IsLeader sampleTickAPI.store = true
      ∧ sampleTickAPI.queueSnapshot = some [("k", { TTL := 15, Key := "k", Index := 1 })]
      ∧ sampleJSON.Marshal [("k", { TTL := 15, Key := "k", Index := 1 })]
          = .ok "1 1 107 0 15 1 107 0 1 "
      ∧ sampleJSON.Unmarshal "1 1 107 0 15 1 107 0 1 "
          = .ok [("k", { TTL := 15, Key := "k", Index := 1 })])
    ∧ ∃ s1, storeTTLSnapshot mapStore sampleCodec sampleJSON sampleTickAPI ⟨12000000000⟩ = .ok s1
        ∧ ∃ q s2, rebuildFromSnapshot mapStore sampleCodec sampleJSON s1 ⟨30000000000⟩ []
              = ((SnapshotStatus.StatusSnapshotFound, q), s2)
          ∧ ∀ k, (∃ e ∈ q, e.Key = k)
              ↔ (∃ e, (k, e) ∈ [("k", ({ TTL := 15, Key := "k", Index := 1 } : ttlIndexElement))]) :=
  ⟨⟨rfl, rfl, rfl, rfl⟩,
   C12_snapshot_round_trip mapStore sampleCodec sampleJSON sampleTickAPI ⟨12000000000⟩
     ⟨30000000000⟩ [("k", { TTL := 15, Key := "k", Index := 1 })] "1 1 107 0 15 1 107 0 1 "
     rfl rfl
     (fun p hp => by
        simp only [List.mem_singleton] at hp
        subst hp
        rfl)
     (fun e h => by
        have hnone : (GetKey mapStore sampleCodec sampleTickAPI ⟨12000000000⟩
            TTLSNAPSHOT_KEY false).1.1 = none := rfl
        rw [hnone] at h
        exact Option.noConfusion h)
     ⟨rfl, _, rfl, fun _ => Iff.rfl⟩
     sampleCodec_round_trip
     (fun b => by
        refine ⟨rfl, ?_, rfl⟩
        show Except.ok (List.lookup TTLSNAPSHOT_KEY ((TTLSNAPSHOT_KEY, b) :: _)) = _
        simp [List.lookup])⟩

/-- An entry removed from the mirror is not found in it. -/
theorem lookup_filter_self {β : Type} (m : List (String × β)) (k : String) :
    (m.filter (fun p => p.1 != k)).lookup k = none := by
  induction m with
  | nil => rfl
  | cons p m ih =>
    obtain ⟨a, v⟩ := p
    by_cases ha : a = k
    · subst ha
      simp [List.filter, ih]
    · have hf : ((a, v).1 != k) = true := by simpa using ha
      have hne : (k == a) = false := by simpa using fun h => ha h.symm
      simp only [List.filter, hf, List.lookup, hne]
      exact ih

/-- Removal never brings an entry back. -/
theorem Mirror.lookup_delete_none (m : Mirror) (j k : String) (h : m.lookup k = none) :
    (m.delete j).lookup k = none := by
  unfold Mirror.delete
  by_cases hk : k = j
  · subst hk
    exact lookup_filter_self m k
  · rw [lookup_filter_ne m j k hk]
    exact h

/-- After the removal loop no key of `applyDeletes` has an entry in the mirror. -/
theorem foldl_delete_lookup (ad : List ttlIndexElement) :
    ∀ (m : Mirror) (k : String),
      (m.lookup k = none ∨ ∃ e ∈ ad, e.Key = k) →
      (ad.foldl (fun acc x => Mirror.delete acc x.Key) m).lookup k = none := by
  induction ad with
  | nil =>
    intro m k h
    rcases h with h | ⟨e, he, -⟩
    · exact h
    · simp at he
  | cons x xs ih =>
    intro m k h
    simp only [List.foldl_cons]
    apply ih
    rcases h with h | ⟨e, he, hek⟩
    · exact Or.inl (Mirror.lookup_delete_none m x.Key k h)
    · rcases List.mem_cons.1 he with h1 | h1
      · subst h1
        left
        rw [← hek]
        exact lookup_filter_self m e.Key
      · exact Or.inr ⟨e, h1, hek⟩

/-- Rebuilding reads the store and the snapshot; the mirror is not written. -/
theorem rebuildFromSnapshot_mirror {σ : Type} (S : Store σ) (C : Codec) (J : JSONCodec)
    (s : StorageAPI σ) (now : Time) (q : List ttlIndexElement) :
    (rebuildFromSnapshot S C J s now q).2.queueSnapshot = s.queueSnapshot := by
  unfold rebuildFromSnapshot
  cases S.IsLeader s.store
  · rfl
  · simp only [Bool.true_eq_false, beq_iff_eq, if_false]
    have hg := GetKey_state S C s now TTLSNAPSHOT_KEY false
    rw [if_neg TTLSNAPSHOT_KEY_ne_empty] at hg
    generalize GetKey S C s now TTLSNAPSHOT_KEY false = g at hg
    obtain ⟨⟨ex, err⟩, s1⟩ := g
    simp only at hg
    subst hg
    cases ex with
    | none => cases err <;> rfl
    | some e =>
      cases err with
      | some x => rfl
      | none =>
        simp only
        cases J.Unmarshal e.Node.Value <;> rfl

/-- The rebuild-or-reset block hands the tick a receiver whose mirror is allocated. -/
theorem processTTLs_rebuild_mirror {σ : Type} (S : Store σ) (C : Codec) (J : JSONCodec)
    (s s4 : StorageAPI σ) (now : Time)
    (h : processTTLs.rebuild S C J s now = .ok s4) : s4.queueSnapshot ≠ none := by
  unfold processTTLs.rebuild at h
  cases hm : s.queueSnapshot with
  | some m =>
    simp only [hm, Except.ok.injEq] at h
    subst h
    simp [hm]
  | none =>
    simp only [hm] at h
    have hst : (rebuildFromSnapshot S C J { s with queueSnapshot := some [] } now
        s.ttlIndex).2.queueSnapshot = some [] := by
      rw [rebuildFromSnapshot_mirror]
    generalize rebuildFromSnapshot S C J { s with queueSnapshot := some [] } now s.ttlIndex = r
      at h hst
    obtain ⟨⟨status, q⟩, s2⟩ := r
    simp only at h hst
    split at h
    · have := ((storeTTLSnapshot_frame S C J _ now).2 s4 h).2.1
      rw [this]
      simp [hst]
    · simp only [Except.ok.injEq] at h
      subst h
      simp [hst]

/-- A returning pass of the loop body keeps the mirror allocated. -/
theorem processTTLElement_body_mirror {σ : Type} (S : Store σ) (C : Codec)
    (s s1 : StorageAPI σ) (now : Time) (e : ttlIndexElement)
    (h : processTTLElement.body S C s now e = .ok s1) (hm : s.queueSnapshot ≠ none) :
    s1.queueSnapshot ≠ none := by
  rcases GetKey_result_shape S C s now e.Key true with ⟨r, hr⟩ | ⟨err, herr⟩
  · rw [processTTLElement_body_found S C s now e r hr] at h
    split at h
    · simp only [Except.ok.injEq] at h
      subst h
      exact hm
    · split at h
      · simp only [Except.ok.injEq] at h
        subst h
        exact hm
      · obtain ⟨-, -, -, hl, hf⟩ := addTTL_ok_inv S _ s1 e h
        cases hlead : S.IsLeader s.store
        · rw [(hf hlead).2]
          exact hm
        · obtain ⟨m, -, -, hq⟩ := hl hlead
          rw [hq]
          simp
  · exfalso
    unfold processTTLElement.body at h
    generalize GetKey S C s now e.Key true = g at herr h
    obtain ⟨⟨ek, ge⟩, s2⟩ := g
    simp only [Prod.mk.injEq] at herr
    obtain ⟨h1, -⟩ := herr
    subst h1
    simp at h

/-- Assignment under the key of the element keeps the mirror keyed by element key. -/
theorem Mirror.set_keyed (m : Mirror) (e : ttlIndexElement)
    (h : ∀ p ∈ m, p.2.Key = p.1) : ∀ p ∈ m.set e.Key e, p.2.Key = p.1 := by
  intro p hp
  unfold Mirror.set at hp
  rcases List.mem_cons.1 hp with h1 | h1
  · subst h1
    rfl
  · exact h p (List.mem_filter.1 h1).1

/-- Removal keeps the mirror keyed by element key. -/
theorem Mirror.delete_keyed (m : Mirror) (k : String)
    (h : ∀ p ∈ m, p.2.Key = p.1) : ∀ p ∈ m.delete k, p.2.Key = p.1 := by
  intro p hp
  exact h p (List.mem_filter.1 hp).1


/-! ## The tick, seen from one key -/

/-- What `GetKey` returns depends on the store only through what `Get` yields for the key. -/
theorem GetKey_congr {σ : Type} (S : Store σ) (C : Codec) (s t : StorageAPI σ)
    (now : Time) (k : String) (evenIfExpired : Bool)
    (h : S.Get s.store k = S.Get t.store k) :
    (GetKey S C s now k evenIfExpired).1 = (GetKey S C t now k evenIfExpired).1 := by
  unfold GetKey getKeyFromStore
  by_cases hk : k = ""
  · simp [hk]
  · simp only [hk, if_false]
    rw [h]
    cases S.Get t.store k with
    | error e => rfl
    | ok v =>
      cases v with
      | none => rfl
      | some b =>
        simp only
        cases C.NewKeyValueAPIObjectFromMsgPack (some b) with
        | error e => rfl
        | ok rv =>
          simp only
          split <;> rfl

/-- A key the store holds nothing under cannot be read. -/
theorem GetKey_absent {σ : Type} (S : Store σ) (C : Codec) (s : StorageAPI σ)
    (now : Time) (k : String) (evenIfExpired : Bool) (r : KeyValueAPIObject)
    (h : S.Get s.store k = .ok none) :
    (GetKey S C s now k evenIfExpired).1 ≠ (some r, none) := by
  unfold GetKey getKeyFromStore
  by_cases hk : k = ""
  · simp [hk]
  · simp [hk, h]

/-- The three outcomes of a returning pass of the loop body: the record was read, and either its
expiration differs from the element's and only the `Get` was issued, or it is equal and past and
the key was deleted, or it is equal and not past and the element went through `addTTL`. -/
theorem processTTLElement_body_cases {σ : Type} (S : Store σ) (C : Codec)
    (s s1 : StorageAPI σ) (now : Time) (e : ttlIndexElement)
    (h : processTTLElement.body S C s now e = .ok s1) :
    ∃ r, (GetKey S C s now e.Key true).1 = (some r, none)
      ∧ ((r.Node.Expiration.Unix ≠ e.TTL
            ∧ s1 = { s with calls := s.calls ++ [StoreCall.Get e.Key] })
        ∨ (r.Node.Expiration.Unix = e.TTL ∧ now.Unix > e.TTL
            ∧ s1 = { s with store := (S.Delete s.store e.Key).1,
                            calls := s.calls ++ [StoreCall.Get e.Key, StoreCall.Delete e.Key] })
        ∨ (r.Node.Expiration.Unix = e.TTL ∧ ¬ now.Unix > e.TTL
            ∧ addTTL S { s with calls := s.calls ++ [StoreCall.Get e.Key] } e = .ok s1)) := by
  rcases GetKey_result_shape S C s now e.Key true with ⟨r, hr⟩ | ⟨err, herr⟩
  · refine ⟨r, hr, ?_⟩
    rw [processTTLElement_body_found S C s now e r hr] at h
    by_cases hne : r.Node.Expiration.Unix = e.TTL
    · rw [if_neg (by simpa using hne)] at h
      by_cases hnow : now.Unix > e.TTL
      · rw [if_pos hnow] at h
        simp only [Except.ok.injEq] at h
        exact Or.inr (Or.inl ⟨hne, hnow, h.symm⟩)
      · rw [if_neg hnow] at h
        exact Or.inr (Or.inr ⟨hne, hnow, h⟩)
    · rw [if_pos hne] at h
      simp only [Except.ok.injEq] at h
      exact Or.inl ⟨hne, h.symm⟩
  · exfalso
    unfold processTTLElement.body at h
    generalize GetKey S C s now e.Key true = g at herr h
    obtain ⟨⟨ek, ge⟩, s2⟩ := g
    simp only [Prod.mk.injEq] at herr
    obtain ⟨h1, -⟩ := herr
    subst h1
    simp at h

/-- The effect of a returning pass of the loop body on the store, the call log and the queue:
the element is dropped, or its key is deleted, or it is put back at the tail. -/
theorem processTTLElement_body_effect {σ : Type} (S : Store σ) (C : Codec)
    (s s1 : StorageAPI σ) (now : Time) (e : ttlIndexElement)
    (h : processTTLElement.body S C s now e = .ok s1) :
    ∃ r, (GetKey S C s now e.Key true).1 = (some r, none)
      ∧ ((s1.store = s.store ∧ s1.calls = s.calls ++ [StoreCall.Get e.Key]
            ∧ s1.ttlIndex = s.ttlIndex
            ∧ (r.Node.Expiration.Unix ≠ e.TTL
                ∨ (¬ now.Unix > e.TTL ∧ S.IsLeader s.store = false)))
        ∨ (s1.store = (S.Delete s.store e.Key).1
            ∧ s1.calls = s.calls ++ [StoreCall.Get e.Key, StoreCall.Delete e.Key]
            ∧ s1.ttlIndex = s.ttlIndex
            ∧ r.Node.Expiration.Unix = e.TTL ∧ now.Unix > e.TTL)
        ∨ (s1.store = s.store ∧ s1.calls = s.calls ++ [StoreCall.Get e.Key]
            ∧ s1.ttlIndex = s.ttlIndex ++ [e]
            ∧ r.Node.Expiration.Unix = e.TTL ∧ ¬ now.Unix > e.TTL
            ∧ S.IsLeader s.store = true)) := by
  obtain ⟨r, hr, hc⟩ := processTTLElement_body_cases S C s s1 now e h
  refine ⟨r, hr, ?_⟩
  rcases hc with ⟨hne, hs⟩ | ⟨heq, hnow, hs⟩ | ⟨heq, hnow, hadd⟩
  · subst hs
    exact Or.inl ⟨rfl, rfl, rfl, Or.inl hne⟩
  · subst hs
    exact Or.inr (Or.inl ⟨rfl, rfl, rfl, heq, hnow⟩)
  · obtain ⟨h1, h2, -, hl, hf⟩ := addTTL_ok_inv S _ s1 e hadd
    cases hlead : S.IsLeader s.store
    · exact Or.inl ⟨h1, h2, (hf hlead).1, Or.inr ⟨hnow, rfl⟩⟩
    · obtain ⟨m, -, hq, -⟩ := hl hlead
      exact Or.inr (Or.inr ⟨h1, h2, hq, heq, hnow, rfl⟩)

/-- Every element a returning loop puts back at the tail of the queue is one whose expiry the
clock, in unix seconds, has not passed. -/
theorem processTTLElement_loop_requeued {σ : Type} (S : Store σ) (C : Codec) (now : Time) :
    ∀ (n i : Nat) (s s' : StorageAPI σ) (ad ad' : List ttlIndexElement),
      processTTLElement.loop S C now n i s ad = .ok (s', ad') →
      n ≤ s.ttlIndex.length →
      ∃ rq, s'.ttlIndex = s.ttlIndex.drop n ++ rq ∧ ∀ x ∈ rq, ¬ now.Unix > x.TTL := by
  intro n
  induction n with
  | zero =>
    intro i s s' ad ad' h _
    simp only [processTTLElement.loop, Except.ok.injEq, Prod.mk.injEq] at h
    obtain ⟨h1, h2⟩ := h
    subst h1; subst h2
    exact ⟨[], by simp, by simp⟩
  | succ n ih =>
    intro i s s' ad ad' h hn
    cases hq : s.ttlIndex with
    | nil => rw [hq] at hn; simp at hn
    | cons e rest =>
      rw [hq] at hn
      simp only [List.length_cons, Nat.add_le_add_iff_right] at hn
      simp only [processTTLElement.loop, hq] at h
      cases hb : processTTLElement.body S C { s with ttlIndex := rest } now e with
      | error f => simp [hb] at h
      | ok s1 =>
        simp only [hb] at h
        obtain ⟨r0, -, hc⟩ := processTTLElement_body_effect S C _ s1 now e hb
        simp only at hc
        rcases hc with ⟨-, -, hq1, -⟩ | ⟨-, -, hq1, -, -⟩ | ⟨-, -, hq1, -, hnow, -⟩
        · obtain ⟨rq, hrq, hp⟩ := ih (i + 1) s1 s' _ ad' h (by rw [hq1]; exact hn)
          exact ⟨rq, by rw [hrq, hq1]; simp, hp⟩
        · obtain ⟨rq, hrq, hp⟩ := ih (i + 1) s1 s' _ ad' h (by rw [hq1]; exact hn)
          exact ⟨rq, by rw [hrq, hq1]; simp, hp⟩
        · obtain ⟨rq, hrq, hp⟩ := ih (i + 1) s1 s' _ ad' h
            (by rw [hq1, List.length_append]; omega)
          refine ⟨e :: rq, ?_, ?_⟩
          · rw [hrq, hq1, List.drop_append_of_le_length hn]; simp
          · intro x hx
            rcases List.mem_cons.1 hx with hx | hx
            · subst hx; exact hnow
            · exact hp x hx


/-- A returning loop only adds to the call log. -/
theorem processTTLElement_loop_calls {σ : Type} (S : Store σ) (C : Codec) (now : Time) :
    ∀ (n i : Nat) (s s' : StorageAPI σ) (ad ad' : List ttlIndexElement),
      processTTLElement.loop S C now n i s ad = .ok (s', ad') →
      ∃ new, s'.calls = s.calls ++ new := by
  intro n
  induction n with
  | zero =>
    intro i s s' ad ad' h
    simp only [processTTLElement.loop, Except.ok.injEq, Prod.mk.injEq] at h
    obtain ⟨h1, -⟩ := h
    subst h1
    exact ⟨[], by simp⟩
  | succ n ih =>
    intro i s s' ad ad' h
    cases hq : s.ttlIndex with
    | nil =>
      simp only [processTTLElement.loop, hq, Except.ok.injEq, Prod.mk.injEq] at h
      obtain ⟨h1, -⟩ := h
      subst h1
      exact ⟨[], by simp⟩
    | cons e rest =>
      simp only [processTTLElement.loop, hq] at h
      cases hb : processTTLElement.body S C { s with ttlIndex := rest } now e with
      | error f => simp [hb] at h
      | ok s1 =>
        simp only [hb] at h
        obtain ⟨new, hnew⟩ := ih (i + 1) s1 s' _ ad' h
        obtain ⟨r0, -, hc⟩ := processTTLElement_body_effect S C _ s1 now e hb
        simp only at hc
        rcases hc with ⟨-, hc1, -⟩ | ⟨-, hc1, -⟩ | ⟨-, hc1, -⟩
        · exact ⟨[StoreCall.Get e.Key] ++ new, by rw [hnew, hc1, List.append_assoc]⟩
        · exact ⟨[StoreCall.Get e.Key, StoreCall.Delete e.Key] ++ new,
            by rw [hnew, hc1, List.append_assoc]⟩
        · exact ⟨[StoreCall.Get e.Key] ++ new, by rw [hnew, hc1, List.append_assoc]⟩

/-- While the store holds nothing under `k`, a returning loop processes no element of `k` (its
pass would fault) and the store still holds nothing under `k` at the end, provided deleting
another key leaves what is under `k` in place. -/
theorem processTTLElement_loop_absent {σ : Type} (S : Store σ) (C : Codec) (now : Time)
    (k : String)
    (hdel : ∀ st j, j ≠ k → S.Get (S.Delete st j).1 k = S.Get st k) :
    ∀ (n i : Nat) (s s' : StorageAPI σ) (ad ad' : List ttlIndexElement),
      processTTLElement.loop S C now n i s ad = .ok (s', ad') →
      S.Get s.store k = .ok none →
      S.Get s'.store k = .ok none := by
  intro n
  induction n with
  | zero =>
    intro i s s' ad ad' h hnone
    simp only [processTTLElement.loop, Except.ok.injEq, Prod.mk.injEq] at h
    obtain ⟨h1, -⟩ := h
    subst h1
    exact hnone
  | succ n ih =>
    intro i s s' ad ad' h hnone
    cases hq : s.ttlIndex with
    | nil =>
      simp only [processTTLElement.loop, hq, Except.ok.injEq, Prod.mk.injEq] at h
      obtain ⟨h1, -⟩ := h
      subst h1
      exact hnone
    | cons e rest =>
      simp only [processTTLElement.loop, hq] at h
      cases hb : processTTLElement.body S C { s with ttlIndex := rest } now e with
      | error f => simp [hb] at h
      | ok s1 =>
        simp only [hb] at h
        obtain ⟨r0, hr0, hc⟩ := processTTLElement_body_effect S C _ s1 now e hb
        simp only at hc
        have hek : e.Key ≠ k := by
          intro hek
          rw [hek] at hr0
          exact GetKey_absent S C { s with ttlIndex := rest } now k true r0 hnone hr0
        apply ih (i + 1) s1 s' _ ad' h
        rcases hc with ⟨hs1, -⟩ | ⟨hs1, -⟩ | ⟨hs1, -⟩
        · rw [hs1]; exact hnone
        · rw [hs1, hdel _ _ hek]; exact hnone
        · rw [hs1]; exact hnone

/-- One returning pass of the loop body, seen from a key `k` whose record `r` the store holds:
unless the element is one of `k` that carries the record's expiration and is due, the pass
leaves what the store holds under `k`, issues no `Delete` for `k`, and puts an element of `k`
back only when it carries the record's expiration. -/
theorem processTTLElement_body_key {σ : Type} (S : Store σ) (C : Codec)
    (s s1 : StorageAPI σ) (now : Time) (e : ttlIndexElement) (k : String)
    (r : KeyValueAPIObject)
    (hdel : ∀ st j, j ≠ k → S.Get (S.Delete st j).1 k = S.Get st k)
    (h : processTTLElement.body S C s now e = .ok s1)
    (hrec : (GetKey S C s now k true).1 = (some r, none))
    (hP : e.Key = k → r.Node.Expiration.Unix = e.TTL → ¬ now.Unix > e.TTL) :
    S.Get s1.store k = S.Get s.store k
    ∧ (∃ p, s1.calls = s.calls ++ p ∧ StoreCall.Delete k ∉ p)
    ∧ ((s1.ttlIndex = s.ttlIndex
          ∧ (S.IsLeader s.store = true → e.Key = k → r.Node.Expiration.Unix ≠ e.TTL))
        ∨ (s1.ttlIndex = s.ttlIndex ++ [e] ∧ (e.Key = k → r.Node.Expiration.Unix = e.TTL)))
    ∧ ((∀ st j, S.IsLeader (S.Delete st j).1 = S.IsLeader st) →
          S.IsLeader s1.store = S.IsLeader s.store) := by
  obtain ⟨r0, hr0, hc⟩ := processTTLElement_body_effect S C s s1 now e h
  have hr : e.Key = k → r0 = r := by
    intro hek
    rw [hek, hrec] at hr0
    simp only [Prod.mk.injEq, Option.some.injEq, and_true] at hr0
    exact hr0.symm
  rcases hc with ⟨hs1, hc1, hq1, hwhy⟩ | ⟨hs1, hc1, hq1, heq, hnow⟩ | ⟨hs1, hc1, hq1, heq, hnow, hl⟩
  · refine ⟨by rw [hs1], ⟨_, hc1, by simp⟩, Or.inl ⟨hq1, ?_⟩, fun _ => by rw [hs1]⟩
    intro hlead hek
    rcases hwhy with hne | ⟨-, hf⟩
    · rw [← hr hek]; exact hne
    · rw [hlead] at hf; exact absurd hf (by decide)
  · have hek : e.Key ≠ k := by
      intro hek
      have := hr hek
      subst this
      exact hP hek heq hnow
    refine ⟨by rw [hs1]; exact hdel _ _ hek, ⟨_, hc1, ?_⟩, Or.inl ⟨hq1, ?_⟩,
      fun hl => by rw [hs1]; exact hl _ _⟩
    · simp only [List.mem_cons, StoreCall.Delete.injEq, List.mem_singleton, not_or]
      exact ⟨by simp, fun h => hek h.symm, by simp⟩
    · intro _ hek'
      exact absurd hek' hek
  · refine ⟨by rw [hs1], ⟨_, hc1, by simp⟩, Or.inr ⟨hq1, ?_⟩, fun _ => by rw [hs1]⟩
    intro hek
    rw [← hr hek]; exact heq


/-- A returning loop, seen from a key `k` whose record `r` the store holds when the loop
starts.  Provided no processed element of `k` both carries the record's expiration and is due,
and deleting another key leaves what is under `k` in place: the store holds under `k` what it
held, no `Delete` for `k` is issued, every element of `k` put back at the tail carries the
record's expiration, and, on a store that stays leader, every processed element of `k` that
carries the record's expiration is put back. -/
theorem processTTLElement_loop_key {σ : Type} (S : Store σ) (C : Codec) (now : Time)
    (k : String) (r : KeyValueAPIObject)
    (hdel : ∀ st j, j ≠ k → S.Get (S.Delete st j).1 k = S.Get st k) :
    ∀ (n i : Nat) (s s' : StorageAPI σ) (ad ad' : List ttlIndexElement),
      processTTLElement.loop S C now n i s ad = .ok (s', ad') →
      n ≤ s.ttlIndex.length →
      (GetKey S C s now k true).1 = (some r, none) →
      (∀ x ∈ s.ttlIndex.take n,
          x.Key = k → r.Node.Expiration.Unix = x.TTL → ¬ now.Unix > x.TTL) →
      S.Get s'.store k = S.Get s.store k
      ∧ (∃ new, s'.calls = s.calls ++ new ∧ StoreCall.Delete k ∉ new)
      ∧ ∃ rq, s'.ttlIndex = s.ttlIndex.drop n ++ rq
          ∧ (∀ x ∈ rq, x.Key = k → r.Node.Expiration.Unix = x.TTL)
          ∧ ((∀ st j, S.IsLeader (S.Delete st j).1 = S.IsLeader st) →
              S.IsLeader s.store = true →
              ∀ x ∈ s.ttlIndex.take n,
                x.Key = k → r.Node.Expiration.Unix = x.TTL → x ∈ rq) := by
  intro n
  induction n with
  | zero =>
    intro i s s' ad ad' h _ _ _
    simp only [processTTLElement.loop, Except.ok.injEq, Prod.mk.injEq] at h
    obtain ⟨h1, -⟩ := h
    subst h1
    exact ⟨rfl, ⟨[], by simp, by simp⟩, [], by simp, by simp, by simp⟩
  | succ n ih =>
    intro i s s' ad ad' h hn hrec hP
    cases hq : s.ttlIndex with
    | nil => rw [hq] at hn; simp at hn
    | cons e rest =>
      rw [hq] at hn hP
      simp only [List.length_cons, Nat.add_le_add_iff_right] at hn
      simp only [List.take_succ_cons, List.mem_cons, forall_eq_or_imp] at hP
      obtain ⟨hPe, hPrest⟩ := hP
      simp only [processTTLElement.loop, hq] at h
      cases hb : processTTLElement.body S C { s with ttlIndex := rest } now e with
      | error f => simp [hb] at h
      | ok s1 =>
        simp only [hb] at h
        have hrec0 : (GetKey S C { s with ttlIndex := rest } now k true).1 = (some r, none) := by
          rw [GetKey_congr S C { s with ttlIndex := rest } s now k true rfl]
          exact hrec
        obtain ⟨hst, ⟨p, hp, hpd⟩, hqc, hlc⟩ :=
          processTTLElement_body_key S C _ s1 now e k r hdel hb hrec0 hPe
        simp only at hst hp hqc hlc
        have hrec1 : (GetKey S C s1 now k true).1 = (some r, none) := by
          rw [GetKey_congr S C s1 s now k true hst]
          exact hrec
        have htake : s1.ttlIndex.take n = rest.take n := by
          rcases hqc with ⟨h1, -⟩ | ⟨h1, -⟩
          · rw [h1]
          · rw [h1, List.take_append_of_le_length hn]
        have hlen : n ≤ s1.ttlIndex.length := by
          rcases hqc with ⟨h1, -⟩ | ⟨h1, -⟩
          · rw [h1]; exact hn
          · rw [h1, List.length_append]; omega
        obtain ⟨hst', ⟨new, hnew, hnd⟩, rq, hrq, hrqk, hrqm⟩ :=
          ih (i + 1) s1 s' _ ad' h hlen hrec1 (by rw [htake]; exact hPrest)
        refine ⟨by rw [hst', hst], ⟨p ++ new, by rw [hnew, hp, List.append_assoc], ?_⟩, ?_⟩
        · simp only [List.mem_append, not_or]
          exact ⟨hpd, hnd⟩
        · rcases hqc with ⟨h1, hdrop⟩ | ⟨h1, hkeep⟩
          · refine ⟨rq, by rw [hrq, h1]; simp, hrqk, ?_⟩
            intro hl hlead x hx hxk hxe
            simp only [List.take_succ_cons, List.mem_cons] at hx
            rcases hx with hx | hx
            · subst hx
              exact absurd hxe (hdrop hlead hxk)
            · refine hrqm hl ?_ x (by rw [htake]; exact hx) hxk hxe
              rw [hlc hl]; exact hlead
          · refine ⟨e :: rq, ?_, ?_, ?_⟩
            · rw [hrq, h1, List.drop_append_of_le_length hn]; simp
            · intro x hx hxk
              rcases List.mem_cons.1 hx with hx | hx
              · subst hx; exact hkeep hxk
              · exact hrqk x hx hxk
            · intro hl hlead x hx hxk hxe
              simp only [List.take_succ_cons, List.mem_cons] at hx
              rcases hx with hx | hx
              · exact List.mem_cons.2 (Or.inl hx)
              · refine List.mem_cons_of_mem _ (hrqm hl ?_ x (by rw [htake]; exact hx) hxk hxe)
                rw [hlc hl]; exact hlead

/-- A returning loop that processes an element of `k` carrying the expiration of the record the
store holds under `k`, with that expiration past: a `Delete` for `k` is issued, and on a store
that stays leader and whose `Delete` removes the key nothing is held under `k` at the end. -/
theorem processTTLElement_loop_due {σ : Type} (S : Store σ) (C : Codec) (now : Time)
    (k : String) (r : KeyValueAPIObject)
    (hdel : ∀ st j, j ≠ k → S.Get (S.Delete st j).1 k = S.Get st k) :
    ∀ (n i : Nat) (s s' : StorageAPI σ) (ad ad' : List ttlIndexElement),
      processTTLElement.loop S C now n i s ad = .ok (s', ad') →
      n ≤ s.ttlIndex.length →
      (GetKey S C s now k true).1 = (some r, none) →
      now.Unix > r.Node.Expiration.Unix →
      (∃ x ∈ s.ttlIndex.take n, x.Key = k ∧ r.Node.Expiration.Unix = x.TTL) →
      (∃ new, s'.calls = s.calls ++ new ∧ StoreCall.Delete k ∈ new)
      ∧ ((∀ st j, S.IsLeader (S.Delete st j).1 = S.IsLeader st) →
          S.IsLeader s.store = true →
          (∀ st, S.IsLeader st = true → S.Get (S.Delete st k).1 k = .ok none) →
          S.Get s'.store k = .ok none) := by
  intro n
  induction n with
  | zero =>
    intro i s s' ad ad' _ _ _ _ hx
    simp at hx
  | succ n ih =>
    intro i s s' ad ad' h hn hrec hnow hx
    cases hq : s.ttlIndex with
    | nil => rw [hq] at hn; simp at hn
    | cons e rest =>
      rw [hq] at hn hx
      simp only [List.length_cons, Nat.add_le_add_iff_right] at hn
      simp only [List.take_succ_cons, List.mem_cons, exists_eq_or_imp] at hx
      simp only [processTTLElement.loop, hq] at h
      cases hb : processTTLElement.body S C { s with ttlIndex := rest } now e with
      | error f => simp [hb] at h
      | ok s1 =>
        simp only [hb] at h
        have hrec0 : (GetKey S C { s with ttlIndex := rest } now k true).1 = (some r, none) := by
          rw [GetKey_congr S C { s with ttlIndex := rest } s now k true rfl]
          exact hrec
        obtain ⟨r0, hr0, hc⟩ := processTTLElement_body_effect S C _ s1 now e hb
        simp only at hc
        have hr : e.Key = k → r0 = r := by
          intro hek
          rw [hek, hrec0] at hr0
          simp only [Prod.mk.injEq, Option.some.injEq, and_true] at hr0
          exact hr0.symm
        by_cases hfire : e.Key = k ∧ r.Node.Expiration.Unix = e.TTL
        · obtain ⟨hek, hee⟩ := hfire
          have hr0r := hr hek
          subst hr0r
          rcases hc with ⟨-, -, -, hwhy⟩ | ⟨hs1, hc1, -, -, -⟩ | ⟨-, -, -, -, hnn, -⟩
          · rcases hwhy with hne | ⟨hnn, -⟩
            · exact absurd hee hne
            · omega
          · obtain ⟨new, hnew⟩ := processTTLElement_loop_calls S C now n (i + 1) s1 s' _ ad' h
            refine ⟨⟨[StoreCall.Get e.Key, StoreCall.Delete e.Key] ++ new,
              by rw [hnew, hc1, List.append_assoc], ?_⟩, ?_⟩
            · rw [hek]; simp
            · intro _ hlead hself
              refine processTTLElement_loop_absent S C now k hdel n (i + 1) s1 s' _ ad' h ?_
              rw [hs1, hek]
              exact hself _ hlead
          · omega
        · have hx' : ∃ x ∈ rest.take n, x.Key = k ∧ r.Node.Expiration.Unix = x.TTL := by
            rcases hx with hx | hx
            · exact absurd hx hfire
            · exact hx
          have hPe : e.Key = k → r.Node.Expiration.Unix = e.TTL → ¬ now.Unix > e.TTL :=
            fun h1 h2 => absurd ⟨h1, h2⟩ hfire
          obtain ⟨hst, ⟨p, hp, -⟩, hqc, hlc⟩ :=
            processTTLElement_body_key S C _ s1 now e k r hdel hb hrec0 hPe
          simp only at hst hp hqc hlc
          have hrec1 : (GetKey S C s1 now k true).1 = (some r, none) := by
            rw [GetKey_congr S C s1 s now k true hst]
            exact hrec
          have htake : s1.ttlIndex.take n = rest.take n := by
            rcases hqc with ⟨h1, -⟩ | ⟨h1, -⟩
            · rw [h1]
            · rw [h1, List.take_append_of_le_length hn]
          have hlen : n ≤ s1.ttlIndex.length := by
            rcases hqc with ⟨h1, -⟩ | ⟨h1, -⟩
            · rw [h1]; exact hn
            · rw [h1, List.length_append]; omega
          obtain ⟨⟨new, hnew, hmem⟩, hnone⟩ :=
            ih (i + 1) s1 s' _ ad' h hlen hrec1 hnow (by rw [htake]; exact hx')
          exact ⟨⟨p ++ new, by rw [hnew, hp, List.append_assoc],
            List.mem_append.2 (Or.inr hmem)⟩,
            fun hl hlead hself => hnone hl (by rw [hlc hl]; exact hlead) hself⟩



/-- A returning write under the reserved key: the calls it adds are the `Get` and at most one
`Set`, both of the reserved key, and the store is as before or as that `Set` left it. -/
theorem SetKey_reserved_effect {σ : Type} (S : Store σ) (C : Codec) (s s' : StorageAPI σ)
    (now : Time) (v : NodeValue) (overwrite : Bool)
    (r : Option NodeValue × Option ErrorResponse)
    (h : SetKey S C s now TTLSNAPSHOT_KEY v overwrite = .ok (r, s')) :
    ∃ new, s'.calls = s.calls ++ new
      ∧ (∀ c ∈ new, c = StoreCall.Get TTLSNAPSHOT_KEY ∨ ∃ b, c = StoreCall.Set TTLSNAPSHOT_KEY b)
      ∧ (s'.store = s.store ∨ ∃ b, s'.store = (S.Set s.store TTLSNAPSHOT_KEY b).1) := by
  rw [SetKey_eq] at h
  have hst := getKeyFromStore_state S s TTLSNAPSHOT_KEY
  rw [if_neg TTLSNAPSHOT_KEY_ne_empty] at hst
  have hkey : (SetKey.record now TTLSNAPSHOT_KEY v).Key = TTLSNAPSHOT_KEY :=
    (SetKey.record_fields now TTLSNAPSHOT_KEY v).1
  generalize getKeyFromStore S s TTLSNAPSHOT_KEY = g at h hst
  obtain ⟨⟨ev, er⟩, s1⟩ := g
  simp only at h hst
  subst hst
  have key : ∀ t : StorageAPI σ,
      ((t.calls = s.calls ++ [StoreCall.Get TTLSNAPSHOT_KEY] ∧ t.store = s.store)
        ∨ ∃ b, t.calls = s.calls ++ [StoreCall.Get TTLSNAPSHOT_KEY]
                  ++ [StoreCall.Set TTLSNAPSHOT_KEY b]
            ∧ t.store = (S.Set s.store TTLSNAPSHOT_KEY b).1) →
      ∃ new, t.calls = s.calls ++ new
        ∧ (∀ c ∈ new, c = StoreCall.Get TTLSNAPSHOT_KEY
            ∨ ∃ b, c = StoreCall.Set TTLSNAPSHOT_KEY b)
        ∧ (t.store = s.store ∨ ∃ b, t.store = (S.Set s.store TTLSNAPSHOT_KEY b).1) := by
    intro t ht
    rcases ht with ⟨h1, h2⟩ | ⟨b, h1, h2⟩
    · exact ⟨[StoreCall.Get TTLSNAPSHOT_KEY], h1, by simp, Or.inl h2⟩
    · refine ⟨[StoreCall.Get TTLSNAPSHOT_KEY, StoreCall.Set TTLSNAPSHOT_KEY b],
        by rw [h1]; simp, ?_, Or.inr ⟨b, h2⟩⟩
      intro c hc
      simp only [List.mem_cons, List.mem_singleton, List.not_mem_nil, or_false] at hc
      rcases hc with hc | hc
      · exact Or.inl hc
      · exact Or.inr ⟨b, hc⟩
  split at h
  · simp only [Except.ok.injEq, Prod.mk.injEq] at h
    obtain ⟨-, h2⟩ := h
    subst h2
    exact key _ (Or.inl ⟨rfl, rfl⟩)
  · split at h
    · simp only [Except.ok.injEq, Prod.mk.injEq] at h
      obtain ⟨-, h2⟩ := h
      subst h2
      exact key _ (Or.inl ⟨rfl, rfl⟩)
    · rename_i b _
      split at h
      · simp only [Except.ok.injEq, Prod.mk.injEq] at h
        obtain ⟨-, h2⟩ := h
        subst h2
        exact key _ (Or.inr ⟨b, rfl, rfl⟩)
      · simp only [hkey, bne_self_eq_false, Bool.and_false, Bool.false_eq_true, if_false,
          Except.ok.injEq, Prod.mk.injEq] at h
        obtain ⟨-, h2⟩ := h
        subst h2
        exact key _ (Or.inr ⟨b, rfl, rfl⟩)

/-- A returning snapshot write: the calls it adds are of the reserved key, `Get` or `Set`, and
the store is as before or as a `Set` of the reserved key left it. -/
theorem storeTTLSnapshot_effect {σ : Type} (S : Store σ) (C : Codec) (J : JSONCodec)
    (s s' : StorageAPI σ) (now : Time)
    (h : storeTTLSnapshot S C J s now = .ok s') :
    ∃ new, s'.calls = s.calls ++ new
      ∧ (∀ c ∈ new, c = StoreCall.Get TTLSNAPSHOT_KEY ∨ ∃ b, c = StoreCall.Set TTLSNAPSHOT_KEY b)
      ∧ (s'.store = s.store ∨ ∃ b, s'.store = (S.Set s.store TTLSNAPSHOT_KEY b).1) := by
  cases hl : S.IsLeader s.store
  · simp only [storeTTLSnapshot, hl, beq_self_eq_true, if_true, Except.ok.injEq] at h
    subst h
    exact ⟨[], by simp, by simp, Or.inl rfl⟩
  · cases hm : s.queueSnapshot with
    | none => simp [storeTTLSnapshot, hl, hm] at h
    | some m =>
      cases hj : J.Marshal m with
      | error e =>
        simp only [storeTTLSnapshot, hl, hm, hj, Bool.true_eq_false, beq_iff_eq, if_false,
          Except.ok.injEq] at h
        subst h
        exact ⟨[], by simp, by simp, Or.inl rfl⟩
      | ok str =>
        obtain ⟨e, -, heq⟩ := storeTTLSnapshot_leader S C J s now m str hl hm hj
        rw [heq] at h
        cases hset : SetKey S C { s with calls := s.calls ++ [StoreCall.Get TTLSNAPSHOT_KEY] }
            now TTLSNAPSHOT_KEY { e.Node with Value := str } true with
        | error f => simp [hset] at h
        | ok pr =>
          obtain ⟨r, s2⟩ := pr
          simp only [hset, Except.ok.injEq] at h
          subst h
          obtain ⟨new, hnew, hc, hs⟩ := SetKey_reserved_effect S C _ s2 now _ true r hset
          simp only at hnew hs
          refine ⟨[StoreCall.Get TTLSNAPSHOT_KEY] ++ new, by rw [hnew, List.append_assoc], ?_, hs⟩
          intro c hcm
          rcases List.mem_append.1 hcm with hcm | hcm
          · exact Or.inl (List.mem_singleton.1 hcm)
          · exact hc c hcm


/-- A returning tick on a leader is the loop over the smaller of queue length and chunk size,
followed by calls of the reserved key only: the queue is the loop's, and the store is the
loop's or what a `Set` of the reserved key made of it. -/
theorem processTTLElement_ok_effect {σ : Type} (S : Store σ) (C : Codec) (J : JSONCodec)
    (s s' : StorageAPI σ) (now : Time)
    (hlead : S.IsLeader s.store = true)
    (h : processTTLElement S C J s now = .ok s') :
    ∃ s1, processTTLElement.loop S C now (min s.ttlIndex.length s.TTLChunkSize.toNat) 0 s
          (List.replicate (min s.ttlIndex.length s.TTLChunkSize.toNat)
            { TTL := 0, Key := "", Index := 0 })
          = .ok (s1, s.ttlIndex.take (min s.ttlIndex.length s.TTLChunkSize.toNat))
      ∧ s'.ttlIndex = s1.ttlIndex
      ∧ ∃ new, s'.calls = s1.calls ++ new
          ∧ (∀ c ∈ new, c = StoreCall.Get TTLSNAPSHOT_KEY
              ∨ ∃ b, c = StoreCall.Set TTLSNAPSHOT_KEY b)
          ∧ (s'.store = s1.store ∨ ∃ b, s'.store = (S.Set s1.store TTLSNAPSHOT_KEY b).1) := by
  obtain ⟨-, s1, hloop, hq, -⟩ := processTTLElement_ok_inv S C J s s' now hlead h
  refine ⟨s1, hloop, hq, ?_⟩
  unfold processTTLElement at h
  simp only [hlead, Bool.true_eq_false, beq_iff_eq, if_false] at h
  by_cases hneg : (if (s.ttlIndex.length : Int) < s.TTLChunkSize then (s.ttlIndex.length : Int)
      else s.TTLChunkSize) < 0
  · rw [if_pos hneg] at h
    simp at h
  · rw [if_neg hneg] at h
    obtain ⟨hmax, -⟩ := processTTLElement_max s.ttlIndex.length s.TTLChunkSize hneg
    rw [hmax] at h
    simp only [hloop] at h
    cases hq : s.ttlIndex.take (min s.ttlIndex.length s.TTLChunkSize.toNat) with
    | nil =>
      simp only [hq] at h
      exact storeTTLSnapshot_effect S C J s1 s' now h
    | cons x xs =>
      simp only [hq] at h
      cases hm1 : s1.queueSnapshot with
      | none => simp [hm1] at h
      | some m1 =>
        simp only [hm1] at h
        have heff := storeTTLSnapshot_effect S C J _ s' now h
        exact heff

/-- A returning tick on a leader, seen from a key `k` whose record `r` the store holds when the
tick starts.  Provided no processed element of `k` both carries the record's expiration and is
due, and deleting another key leaves what is under `k` in place: no `Delete` for `k` is issued;
what the store holds under `k` is unchanged when the write of the reserved key leaves it in
place; every element of `k` put back at the tail carries the record's expiration, and on a store
that stays leader every processed element of `k` carrying it is put back. -/
theorem processTTLElement_tick_key {σ : Type} (S : Store σ) (C : Codec) (J : JSONCodec)
    (s s' : StorageAPI σ) (now : Time) (k : String) (r : KeyValueAPIObject)
    (hlead : S.IsLeader s.store = true)
    (hret : processTTLElement S C J s now = .ok s')
    (hrec : (GetKey S C s now k true).1 = (some r, none))
    (hP : ∀ x ∈ s.ttlIndex.take (min s.ttlIndex.length s.TTLChunkSize.toNat),
        x.Key = k → r.Node.Expiration.Unix = x.TTL → ¬ now.Unix > x.TTL)
    (hdel : ∀ st j, j ≠ k → S.Get (S.Delete st j).1 k = S.Get st k) :
    (∃ new, s'.calls = s.calls ++ new ∧ StoreCall.Delete k ∉ new)
    ∧ ((∀ st b, S.Get (S.Set st TTLSNAPSHOT_KEY b).1 k = S.Get st k) →
        S.Get s'.store k = S.Get s.store k)
    ∧ ∃ rq, s'.ttlIndex = s.ttlIndex.drop (min s.ttlIndex.length s.TTLChunkSize.toNat) ++ rq
        ∧ (∀ x ∈ rq, x.Key = k → r.Node.Expiration.Unix = x.TTL)
        ∧ ((∀ st j, S.IsLeader (S.Delete st j).1 = S.IsLeader st) →
            ∀ x ∈ s.ttlIndex.take (min s.ttlIndex.length s.TTLChunkSize.toNat),
              x.Key = k → r.Node.Expiration.Unix = x.TTL → x ∈ rq) := by
  obtain ⟨s1, hloop, hq, newS, hcalls, hnewS, hstore⟩ :=
    processTTLElement_ok_effect S C J s s' now hlead hret
  obtain ⟨hget, ⟨newL, hnewL, hnd⟩, rq, hrq, hrqk, hrqm⟩ :=
    processTTLElement_loop_key S C now k r hdel _ 0 s s1 _ _ hloop (by omega) hrec hP
  refine ⟨⟨newL ++ newS, by rw [hcalls, hnewL, List.append_assoc], ?_⟩, ?_,
    rq, by rw [hq, hrq], hrqk, fun hl => hrqm hl hlead⟩
  · intro hmem
    rcases List.mem_append.1 hmem with hmem | hmem
    · exact hnd hmem
    · rcases hnewS _ hmem with hc | ⟨b, hc⟩ <;> cases hc
  · intro hset
    rcases hstore with hst | ⟨b, hst⟩
    · rw [hst, hget]
    · rw [hst, hset, hget]

/-- A returning tick on a leader that processes an element of `k` carrying the expiration of the
record the store holds under `k`, with that expiration past: a `Delete` for `k` is issued; on a
store that stays leader, whose `Delete` removes the key and whose write of the reserved key
leaves `k` alone, nothing is held under `k` after the tick; and no element put back at the tail
is due. -/
theorem processTTLElement_tick_due {σ : Type} (S : Store σ) (C : Codec) (J : JSONCodec)
    (s s' : StorageAPI σ) (now : Time) (k : String) (r : KeyValueAPIObject)
    (hlead : S.IsLeader s.store = true)
    (hret : processTTLElement S C J s now = .ok s')
    (hrec : (GetKey S C s now k true).1 = (some r, none))
    (hnow : now.Unix > r.Node.Expiration.Unix)
    (hx : ∃ x ∈ s.ttlIndex.take (min s.ttlIndex.length s.TTLChunkSize.toNat),
        x.Key = k ∧ r.Node.Expiration.Unix = x.TTL)
    (hdel : ∀ st j, j ≠ k → S.Get (S.Delete st j).1 k = S.Get st k) :
    (∃ new, s'.calls = s.calls ++ new ∧ StoreCall.Delete k ∈ new)
    ∧ ((∀ st j, S.IsLeader (S.Delete st j).1 = S.IsLeader st) →
        (∀ st, S.IsLeader st = true → S.Get (S.Delete st k).1 k = .ok none) →
        (∀ st b, S.Get (S.Set st TTLSNAPSHOT_KEY b).1 k = S.Get st k) →
        S.Get s'.store k = .ok none)
    ∧ ∃ rq, s'.ttlIndex = s.ttlIndex.drop (min s.ttlIndex.length s.TTLChunkSize.toNat) ++ rq
        ∧ ∀ x ∈ rq, ¬ now.Unix > x.TTL := by
  obtain ⟨s1, hloop, hq, newS, hcalls, hnewS, hstore⟩ :=
    processTTLElement_ok_effect S C J s s' now hlead hret
  obtain ⟨⟨newL, hnewL, hmem⟩, hnone⟩ :=
    processTTLElement_loop_due S C now k r hdel _ 0 s s1 _ _ hloop (by omega) hrec hnow hx
  obtain ⟨rq, hrq, hrqd⟩ :=
    processTTLElement_loop_requeued S C now _ 0 s s1 _ _ hloop (by omega)
  refine ⟨⟨newL ++ newS, by rw [hcalls, hnewL, List.append_assoc],
    List.mem_append.2 (Or.inl hmem)⟩, ?_, rq, by rw [hq, hrq], hrqd⟩
  intro hl hself hset
  rcases hstore with hst | ⟨b, hst⟩
  · rw [hst]; exact hnone hl hlead hself
  · rw [hst, hset]; exact hnone hl hlead hself

/-- Deleting a key from the reference store leaves what is under the other keys. -/
theorem mapStore_Delete_frame (st : MapStore) (j k : String) (h : j ≠ k) :
    mapStore.Get (mapStore.Delete st j).1 k = mapStore.Get st k := by
  simp only [mapStore]
  cases st.leader
  · rfl
  · simp only [if_true]
    rw [lookup_filter_ne st.m j k (Ne.symm h)]

/-- Writing a key of the reference store leaves what is under the other keys. -/
theorem mapStore_Set_frame (st : MapStore) (j k : String) (b : Bytes) (h : j ≠ k) :
    mapStore.Get (mapStore.Set st j b).1 k = mapStore.Get st k := by
  simp only [mapStore]
  cases st.leader
  · rfl
  · simp only [if_true]
    have hne : (k == j) = false := by simpa using Ne.symm h
    simp only [List.lookup, hne]
    rw [lookup_filter_ne st.m j k (Ne.symm h)]

/-- After a `Delete` the reference store, on a leader, holds nothing under the key. -/
theorem mapStore_Delete_self (st : MapStore) (k : String) (h : mapStore.IsLeader st = true) :
    mapStore.Get (mapStore.Delete st k).1 k = .ok none := by
  have h' : st.leader = true := h
  simp only [mapStore, h', if_true]
  rw [lookup_filter_self]

/-- A `Delete` does not change who leads the reference store. -/
theorem mapStore_Delete_leader (st : MapStore) (j : String) :
    mapStore.IsLeader (mapStore.Delete st j).1 = mapStore.IsLeader st := by
  simp only [mapStore]
  cases hl : st.leader <;> simp [hl]

/-- A record `GetKey` returns under the default policy is also returned with `evenIfExpired`,
and it has TTL 0 or an expiration the clock has not passed. -/
theorem GetKey_live {σ : Type} (S : Store σ) (C : Codec) (s : StorageAPI σ)
    (now : Time) (k : String) (r : KeyValueAPIObject)
    (h : (GetKey S C s now k false).1 = (some r, none)) :
    (GetKey S C s now k true).1 = (some r, none)
    ∧ (r.Node.TTL = 0 ∨ now.After r.Node.Expiration = false) := by
  unfold GetKey getKeyFromStore at h ⊢
  by_cases hk : k = ""
  · simp [hk] at h
  · simp only [hk, if_false] at h ⊢
    cases hg : S.Get s.store k with
    | error e => simp [hg] at h
    | ok v =>
      cases v with
      | none => simp [hg] at h
      | some b =>
        simp only [hg] at h ⊢
        cases hd : C.NewKeyValueAPIObjectFromMsgPack (some b) with
        | error e => simp [hd] at h
        | ok rv =>
          simp only [hd] at h ⊢
          by_cases hexp : (now.After rv.Node.Expiration && rv.Node.TTL != 0) = true
          · simp [hexp] at h
          · simp only [hexp, Bool.false_eq_true, Bool.and_true, beq_self_eq_true, if_false,
              Bool.and_false, Prod.mk.injEq, Option.some.injEq, and_true, Bool.not_eq_true] at h ⊢
            subst h
            refine ⟨rfl, ?_⟩
            by_cases ht : rv.Node.TTL = 0
            · exact Or.inl ht
            · right
              simpa [ht] using hexp

/-- C15, counterexample.  A leader with the default chunk size whose queue holds the superseded
element of `"k"` (due at second 10) ahead of the current one (due at second 15), the record of
`"k"` expiring at second 15.  The superseded element is processed by the tick at second 20, the
record's expiration differs from its `TTL`, and yet the tick deletes `"k"` from the store: the
pass of the current element, in the same tick, issues the `Delete`. -/
theorem C15_tick_deletes_key_of_superseded_element :
    mapStore.IsLeader sampleSupersededChunkAPI.store = true
    ∧ sampleOldElem ∈ sampleSupersededChunkAPI.ttlIndex.take
        (min sampleSupersededChunkAPI.ttlIndex.length sampleSupersededChunkAPI.TTLChunkSize.toNat)
    ∧ (GetKey mapStore sampleCodec sampleSupersededChunkAPI ⟨20000000000⟩
          sampleOldElem.Key true).1 = (some { Action := "get", Node := sampleNode }, none)
    ∧ sampleNode.Expiration.Unix ≠ sampleOldElem.TTL
    ∧ (processTTLElement mapStore sampleCodec sampleJSON sampleSupersededChunkAPI
          ⟨20000000000⟩).toOption.map
          (fun s' => (s'.calls.take 3, s'.store.m.lookup "k", s'.ttlIndex))
        = some ([StoreCall.Get "k", StoreCall.Get "k", StoreCall.Delete "k"], none, []) :=
  ⟨rfl, by decide, rfl, by decide, by decide⟩

/-- C15, as amended: superseded expiration.  A tick on a leader returns; the record `GetKey`
returns for `e.Key` when the tick starts has an expiration whose unix seconds differ from
`e.TTL`, and no other element of the same key among those the tick processes (the first
`min n c` of the queue) carries the record's expiration; deleting another key, or writing the
reserved key, leaves what the store holds under `e.Key` in place.  Then, whatever the clock
reads, the tick issues no `Delete` for `e.Key`, neither `e` nor any other element of its key is
among the elements put back behind the unprocessed ones, and the store holds under `e.Key` what
it held: `GetKey` returns the same record after the tick. -/
theorem C15_superseded_key_untouched_by_tick {σ : Type} (S : Store σ) (C : Codec)
    (J : JSONCodec) (s s' : StorageAPI σ) (now : Time) (e : ttlIndexElement)
    (r : KeyValueAPIObject)
    (hlead : S.IsLeader s.store = true)
    (hret : processTTLElement S C J s now = .ok s')
    (hrec : (GetKey S C s now e.Key true).1 = (some r, none))
    (hne : r.Node.Expiration.Unix ≠ e.TTL)
    (hother : ∀ x ∈ s.ttlIndex.take (min s.ttlIndex.length s.TTLChunkSize.toNat),
        x.Key = e.Key → x ≠ e → r.Node.Expiration.Unix ≠ x.TTL)
    (hdel : ∀ st j, j ≠ e.Key → S.Get (S.Delete st j).1 e.Key = S.Get st e.Key)
    (hset : ∀ st b, S.Get (S.Set st TTLSNAPSHOT_KEY b).1 e.Key = S.Get st e.Key) :
    (∃ new, s'.calls = s.calls ++ new ∧ StoreCall.Delete e.Key ∉ new)
    ∧ (∃ rq, s'.ttlIndex = s.ttlIndex.drop (min s.ttlIndex.length s.TTLChunkSize.toNat) ++ rq
        ∧ e ∉ rq ∧ ∀ x ∈ rq, x.Key ≠ e.Key)
    ∧ S.Get s'.store e.Key = S.Get s.store e.Key
    ∧ (GetKey S C s' now e.Key true).1 = (some r, none) := by
  have hsup : ∀ x ∈ s.ttlIndex.take (min s.ttlIndex.length s.TTLChunkSize.toNat),
      x.Key = e.Key → r.Node.Expiration.Unix ≠ x.TTL := by
    intro x hx hk
    by_cases hxe : x = e
    · rw [hxe]; exact hne
    · exact hother x hx hk hxe
  obtain ⟨hcalls, hstore, rq, hrq, hrqk, -⟩ :=
    processTTLElement_tick_key S C J s s' now e.Key r hlead hret hrec
      (fun x hx hk heq => absurd heq (hsup x hx hk)) hdel
  have hkeys : ∀ x ∈ rq, x.Key ≠ e.Key := fun x hx hk => hsup x
    (by
      have hsub := (processTTLElement_ok_inv S C J s s' now hlead hret).2
      obtain ⟨s1, hloop, hq, -⟩ := hsub
      obtain ⟨rq', hrq', hsubl⟩ :=
        (processTTLElement_loop_queue S C now _ 0 s s1 _ _ hloop (by omega) (by simp)).1
      have : rq' = rq := by
        rw [hq, hrq'] at hrq
        exact List.append_cancel_left hrq
      subst this
      exact hsubl.subset hx) hk (hrqk x hx hk)
  refine ⟨hcalls, ⟨rq, hrq, fun hmem => hkeys e hmem rfl, hkeys⟩, hstore hset, ?_⟩
  rw [GetKey_congr S C s' s now e.Key true (hstore hset)]
  exact hrec

/-- C15 at a concrete input: the leader that processes one element a tick, at second 20.  The
superseded element of `"k"` is the one processed; the tick returns with the record of `"k"` in
the store and the current element of `"k"` still queued. -/
theorem C15_superseded_key_untouched_by_tick_witness :
    (mapStore.IsLeader sampleSupersededAPI.store = true
      ∧ processTTLElement mapStore sampleCodec sampleJSON sampleSupersededAPI ⟨20000000000⟩
          = .ok sampleSupersededAfterAPI
      ∧ sampleOldElem ∈ sampleSupersededAPI.ttlIndex.take
          (min sampleSupersededAPI.ttlIndex.length sampleSupersededAPI.TTLChunkSize.toNat)
      ∧ (GetKey mapStore sampleCodec sampleSupersededAPI ⟨20000000000⟩
            sampleOldElem.Key true).1 = (some { Action := "get", Node := sampleNode }, none)
      ∧ sampleNode.Expiration.Unix ≠ sampleOldElem.TTL)
    ∧ ((∃ new, sampleSupersededAfterAPI.calls = sampleSupersededAPI.calls ++ new
          ∧ StoreCall.Delete sampleOldElem.Key ∉ new)
      ∧ (∃ rq, sampleSupersededAfterAPI.ttlIndex
            = sampleSupersededAPI.ttlIndex.drop
                (min sampleSupersededAPI.ttlIndex.length
                  sampleSupersededAPI.TTLChunkSize.toNat) ++ rq
          ∧ sampleOldElem ∉ rq ∧ ∀ x ∈ rq, x.Key ≠ sampleOldElem.Key)
      ∧ mapStore.Get sampleSupersededAfterAPI.store sampleOldElem.Key
          = mapStore.Get sampleSupersededAPI.store sampleOldElem.Key
      ∧ (GetKey mapStore sampleCodec sampleSupersededAfterAPI ⟨20000000000⟩
            sampleOldElem.Key true).1 = (some { Action := "get", Node := sampleNode }, none)) :=
  ⟨⟨rfl, rfl, by decide, rfl, by decide⟩,
   C15_superseded_key_untouched_by_tick mapStore sampleCodec sampleJSON sampleSupersededAPI
     sampleSupersededAfterAPI ⟨20000000000⟩ sampleOldElem { Action := "get", Node := sampleNode }
     rfl rfl rfl (by decide)
     (by
       intro x hx _ hxe
       have hx' : x = sampleOldElem := by simpa [sampleSupersededAPI] using hx
       exact absurd hx' hxe)
     (fun st j hj => mapStore_Delete_frame st j sampleOldElem.Key hj)
     (fun st b => mapStore_Set_frame st TTLSNAPSHOT_KEY sampleOldElem.Key b (by decide))⟩

/-- The pass of the loop body faults when the element's key cannot be read. -/
theorem processTTLElement_body_missing {σ : Type} (S : Store σ) (C : Codec)
    (s : StorageAPI σ) (now : Time) (e : ttlIndexElement) (err : ErrorResponse)
    (hget : (GetKey S C s now e.Key true).1.2 = some err) :
    processTTLElement.body S C s now e = .error Fault.nilDereference := by
  have hnil := GetKey_error_nil S C s now e.Key true err hget
  unfold processTTLElement.body
  generalize GetKey S C s now e.Key true = g at hnil
  obtain ⟨⟨ek, ge⟩, s1⟩ := g
  simp only at hnil
  subst hnil
  rfl

/-- C16: expire or defer.  First and second part, for every tick on a leader that returns and
every processed element `e` for whose key `GetKey` returns, when the tick starts, a record with
expiration (unix seconds) equal to `e.TTL`, on a store where deleting another key leaves what is
under `e.Key` in place.  If the clock in unix seconds is past `e.TTL`: the tick issues `Delete`
for `e.Key`, `e` is not among the elements put back, and the store holds nothing under `e.Key`
afterwards when it stays leader, its `Delete` removes the key and the write of the reserved key
leaves `e.Key` alone.  Otherwise: no `Delete` for `e.Key` is issued, the store holds under
`e.Key` what it held, and on a store that stays leader `e` is put back behind the unprocessed
elements.  Third part: a tick issues no `Delete` for a key whose record has an expiration
that, in unix seconds, has not passed; in particular (fourth part) none for a key whose record
`GetKey` returns under the default policy and whose TTL is not 0.  Fifth part, where the claim
fails: a record with TTL 0 never expires, yet the tick deletes it when its expiration field
equals the `TTL` of a queued element and is past.  A leader writes `"k"` with a TTL of five
seconds at second 10 and rewrites it at second 15 with TTL 0, the expiration field reading
second 15; at second 20 `GetKey` with the default policy returns the record, and the tick
deletes `"k"`; `GetKey` and `SetKey` test `TTL != 0` before they take a record for expired, the
tick does not. -/
theorem C16_tick_deletes_never_expiring_record :
    (∀ (σ : Type) (S : Store σ) (C : Codec) (J : JSONCodec) (s s' : StorageAPI σ) (now : Time)
        (e : ttlIndexElement) (r : KeyValueAPIObject),
        S.IsLeader s.store = true →
        processTTLElement S C J s now = .ok s' →
        e ∈ s.ttlIndex.take (min s.ttlIndex.length s.TTLChunkSize.toNat) →
        (GetKey S C s now e.Key true).1 = (some r, none) →
        r.Node.Expiration.Unix = e.TTL →
        (∀ st j, j ≠ e.Key → S.Get (S.Delete st j).1 e.Key = S.Get st e.Key) →
        now.Unix > e.TTL →
        (∃ new, s'.calls = s.calls ++ new ∧ StoreCall.Delete e.Key ∈ new)
        ∧ (∃ rq, s'.ttlIndex
              = s.ttlIndex.drop (min s.ttlIndex.length s.TTLChunkSize.toNat) ++ rq ∧ e ∉ rq)
        ∧ ((∀ st j, S.IsLeader (S.Delete st j).1 = S.IsLeader st) →
            (∀ st, S.IsLeader st = true → S.Get (S.Delete st e.Key).1 e.Key = .ok none) →
            (∀ st b, S.Get (S.Set st TTLSNAPSHOT_KEY b).1 e.Key = S.Get st e.Key) →
            S.Get s'.store e.Key = .ok none))
    ∧ (∀ (σ : Type) (S : Store σ) (C : Codec) (J : JSONCodec) (s s' : StorageAPI σ) (now : Time)
        (e : ttlIndexElement) (r : KeyValueAPIObject),
        S.IsLeader s.store = true →
        processTTLElement S C J s now = .ok s' →
        e ∈ s.ttlIndex.take (min s.ttlIndex.length s.TTLChunkSize.toNat) →
        (GetKey S C s now e.Key true).1 = (some r, none) →
        r.Node.Expiration.Unix = e.TTL →
        (∀ st j, j ≠ e.Key → S.Get (S.Delete st j).1 e.Key = S.Get st e.Key) →
        ¬ now.Unix > e.TTL →
        (∃ new, s'.calls = s.calls ++ new ∧ StoreCall.Delete e.Key ∉ new)
        ∧ ((∀ st b, S.Get (S.Set st TTLSNAPSHOT_KEY b).1 e.Key = S.Get st e.Key) →
            S.Get s'.store e.Key = S.Get s.store e.Key)
        ∧ ((∀ st j, S.IsLeader (S.Delete st j).1 = S.IsLeader st) →
            ∃ rq, s'.ttlIndex
                = s.ttlIndex.drop (min s.ttlIndex.length s.TTLChunkSize.toNat) ++ rq
              ∧ e ∈ rq))
    ∧ (∀ (σ : Type) (S : Store σ) (C : Codec) (J : JSONCodec) (s s' : StorageAPI σ) (now : Time)
        (k : String) (r : KeyValueAPIObject),
        S.IsLeader s.store = true →
        processTTLElement S C J s now = .ok s' →
        (GetKey S C s now k true).1 = (some r, none) →
        ¬ now.Unix > r.Node.Expiration.Unix →
        (∀ st j, j ≠ k → S.Get (S.Delete st j).1 k = S.Get st k) →
        ∃ new, s'.calls = s.calls ++ new ∧ StoreCall.Delete k ∉ new)
    ∧ (∀ (σ : Type) (S : Store σ) (C : Codec) (J : JSONCodec) (s s' : StorageAPI σ) (now : Time)
        (k : String) (r : KeyValueAPIObject),
        S.IsLeader s.store = true →
        processTTLElement S C J s now = .ok s' →
        (GetKey S C s now k false).1 = (some r, none) →
        r.Node.TTL ≠ 0 →
        (∀ st j, j ≠ k → S.Get (S.Delete st j).1 k = S.Get st k) →
        ∃ new, s'.calls = s.calls ++ new ∧ StoreCall.Delete k ∉ new)
    ∧ ((SetKey mapStore sampleCodec (NewStorageAPI { m := [], leader := true })
            ⟨10000000000⟩ "k" sampleFirstWrite false).bind
          (fun p => SetKey mapStore sampleCodec p.2 ⟨15000000000⟩ "k" sampleNeverWrite true)
        = .ok ((some sampleNeverNode, none), sampleNeverAPI)
      ∧ sampleNeverNode.TTL = 0
      ∧ (GetKey mapStore sampleCodec sampleNeverAPI ⟨20000000000⟩ "k" false).1
          = (some { Action := "get", Node := sampleNeverNode }, none)
      ∧ (processTTLElement mapStore sampleCodec sampleJSON sampleNeverAPI
            ⟨20000000000⟩).toOption.map
            (fun s' => (s'.calls.drop sampleNeverAPI.calls.length, s'.store.m.lookup "k",
              s'.ttlIndex))
          = some ([StoreCall.Get "k", StoreCall.Delete "k",
                   StoreCall.Get "TCF_TTL_SNAPHOT", StoreCall.Get "TCF_TTL_SNAPHOT",
                   StoreCall.Set "TCF_TTL_SNAPHOT"
                     (sampleEncode { sampleSnapshotNode with Value := "0 ", Created := 20 })],
                  none, [])) := by
  refine ⟨?_, ?_, ?_, ?_, rfl, rfl, rfl, by decide⟩
  · intro σ S C J s s' now e r hlead hret he hrec heq hdel hnow
    obtain ⟨hcalls, hstore, rq, hrq, hrqd⟩ :=
      processTTLElement_tick_due S C J s s' now e.Key r hlead hret hrec (by omega)
        ⟨e, he, rfl, heq⟩ hdel
    exact ⟨hcalls, ⟨rq, hrq, fun hmem => hrqd e hmem hnow⟩, hstore⟩
  · intro σ S C J s s' now e r hlead hret he hrec heq hdel hnow
    obtain ⟨hcalls, hstore, rq, hrq, -, hrqm⟩ :=
      processTTLElement_tick_key S C J s s' now e.Key r hlead hret hrec
        (fun x _ _ hx => by omega) hdel
    exact ⟨hcalls, hstore, fun hl => ⟨rq, hrq, hrqm hl e he rfl heq⟩⟩
  · intro σ S C J s s' now k r hlead hret hrec hnow hdel
    exact (processTTLElement_tick_key S C J s s' now k r hlead hret hrec
      (fun x _ _ hx => by omega) hdel).1
  · intro σ S C J s s' now k r hlead hret hlive httl hdel
    obtain ⟨hrec, hexp⟩ := GetKey_live S C s now k r hlive
    have hle : now.Unix ≤ r.Node.Expiration.Unix := by
      rcases hexp with h0 | hafter
      · exact absurd h0 httl
      · exact Time.Unix_le_of_not_After now r.Node.Expiration hafter
    exact (processTTLElement_tick_key S C J s s' now k r hlead hret hrec
      (fun x _ _ hx => by omega) hdel).1

/-- C16, the first two parts at a concrete input: the leader `sampleTickAPI`, whose queue holds
the element of `"k"` due at second 15, the record of `"k"` expiring at second 15.  The tick at
second 20 deletes `"k"` and leaves the queue empty; the tick at second 12 issues no `Delete`,
leaves the record in place and puts the element back. -/
theorem C16_tick_deletes_never_expiring_record_witness :
    (mapStore.IsLeader sampleTickAPI.store = true
      ∧ processTTLElement mapStore sampleCodec sampleJSON sampleTickAPI ⟨20000000000⟩
          = .ok sampleTickExpiredAPI
      ∧ processTTLElement mapStore sampleCodec sampleJSON sampleTickAPI ⟨12000000000⟩
          = .ok sampleTickDeferredAPI
      ∧ sampleElem ∈ sampleTickAPI.ttlIndex.take
          (min sampleTickAPI.ttlIndex.length sampleTickAPI.TTLChunkSize.toNat)
      ∧ (GetKey mapStore sampleCodec sampleTickAPI ⟨20000000000⟩ sampleElem.Key true).1
          = (some { Action := "get", Node := sampleNode }, none)
      ∧ sampleNode.Expiration.Unix = sampleElem.TTL)
    ∧ ((∃ new, sampleTickExpiredAPI.calls = sampleTickAPI.calls ++ new
          ∧ StoreCall.Delete sampleElem.Key ∈ new)
      ∧ (∃ rq, sampleTickExpiredAPI.ttlIndex
            = sampleTickAPI.ttlIndex.drop
                (min sampleTickAPI.ttlIndex.length sampleTickAPI.TTLChunkSize.toNat) ++ rq
          ∧ sampleElem ∉ rq)
      ∧ mapStore.Get sampleTickExpiredAPI.store sampleElem.Key = .ok none)
    ∧ ((∃ new, sampleTickDeferredAPI.calls = sampleTickAPI.calls ++ new
          ∧ StoreCall.Delete sampleElem.Key ∉ new)
      ∧ mapStore.Get sampleTickDeferredAPI.store sampleElem.Key
          = mapStore.Get sampleTickAPI.store sampleElem.Key
      ∧ (∃ rq, sampleTickDeferredAPI.ttlIndex
            = sampleTickAPI.ttlIndex.drop
                (min sampleTickAPI.ttlIndex.length sampleTickAPI.TTLChunkSize.toNat) ++ rq
          ∧ sampleElem ∈ rq)) :=
  have hdel : ∀ (st : MapStore) (j : String), j ≠ sampleElem.Key →
      mapStore.Get (mapStore.Delete st j).1 sampleElem.Key = mapStore.Get st sampleElem.Key :=
    fun st j hj => mapStore_Delete_frame st j sampleElem.Key hj
  have hset : ∀ (st : MapStore) (b : Bytes),
      mapStore.Get (mapStore.Set st TTLSNAPSHOT_KEY b).1 sampleElem.Key
        = mapStore.Get st sampleElem.Key :=
    fun st b => mapStore_Set_frame st TTLSNAPSHOT_KEY sampleElem.Key b (by decide)
  have hexpire := C16_tick_deletes_never_expiring_record.1 MapStore mapStore sampleCodec
    sampleJSON sampleTickAPI sampleTickExpiredAPI ⟨20000000000⟩ sampleElem
    { Action := "get", Node := sampleNode } rfl rfl (by decide) rfl (by decide) hdel (by decide)
  have hdefer := C16_tick_deletes_never_expiring_record.2.1 MapStore mapStore sampleCodec
    sampleJSON sampleTickAPI sampleTickDeferredAPI ⟨12000000000⟩ sampleElem
    { Action := "get", Node := sampleNode } rfl rfl (by decide) rfl (by decide) hdel (by decide)
  ⟨⟨rfl, rfl, rfl, by decide, rfl, by decide⟩,
   ⟨hexpire.1, hexpire.2.1,
    hexpire.2.2 mapStore_Delete_leader (fun st h => mapStore_Delete_self st sampleElem.Key h)
      hset⟩,
   ⟨hdefer.1, hdefer.2.1 hset, hdefer.2.2 mapStore_Delete_leader⟩⟩

/-! ## The tick as a whole -/

/-- C17: chunk bound.  First part: `NewStorageAPI` sets `TTLChunkSize` to 100.  Second part:
a tick on a leader that returns ran with a chunk size that is not negative and removed exactly
the first `min n c` elements of the queue (`n` its length, `c` the chunk size); the elements
behind them keep their order and stay ahead of the re-enqueued ones, which are a sublist of the
removed ones, so none was examined twice.  Third part: the tick does not always return.  On a
leader with a positive chunk size whose head element names a key that `GetKey` cannot read, the
pass of the head element, run with the head dequeued and the rest of the queue in place, ends in
the nil dereference of line 220, and so does the tick.  Fourth part: with the two elements of
`sampleMissingAPI` queued and the chunk size 100, `min n c` is 2, and the tick stops in its first
pass, with the second element still in the queue: the pass of the head element faults, a loop
of one pass faults, the tick faults. -/
theorem C17_chunk_bound_tick_aborts :
    (∀ (σ : Type) (store : σ), (NewStorageAPI store).TTLChunkSize = 100)
    ∧ (∀ (σ : Type) (S : Store σ) (C : Codec) (J : JSONCodec) (s s' : StorageAPI σ) (now : Time),
        S.IsLeader s.store = true →
        processTTLElement S C J s now = .ok s' →
        0 ≤ s.TTLChunkSize
        ∧ ∃ rq, s'.ttlIndex
              = s.ttlIndex.drop (min s.ttlIndex.length s.TTLChunkSize.toNat) ++ rq
            ∧ rq.Sublist (s.ttlIndex.take (min s.ttlIndex.length s.TTLChunkSize.toNat)))
    ∧ (∀ (σ : Type) (S : Store σ) (C : Codec) (J : JSONCodec) (s : StorageAPI σ) (now : Time)
        (e : ttlIndexElement) (rest : List ttlIndexElement) (err : ErrorResponse),
        S.IsLeader s.store = true → s.ttlIndex = e :: rest → 0 < s.TTLChunkSize →
        (GetKey S C { s with ttlIndex := rest } now e.Key true).1.2 = some err →
        processTTLElement.body S C { s with ttlIndex := rest } now e
            = .error Fault.nilDereference
        ∧ processTTLElement S C J s now = .error Fault.nilDereference)
    ∧ (sampleMissingAPI.ttlIndex = [{ TTL := 15, Key := "gone", Index := 0 }, sampleElem]
        ∧ min sampleMissingAPI.ttlIndex.length sampleMissingAPI.TTLChunkSize.toNat = 2
        ∧ processTTLElement.body mapStore sampleCodec
              { sampleMissingAPI with ttlIndex := [sampleElem] } ⟨20000000000⟩
              { TTL := 15, Key := "gone", Index := 0 } = .error Fault.nilDereference
        ∧ processTTLElement.loop mapStore sampleCodec ⟨20000000000⟩ 1 0 sampleMissingAPI
              (List.replicate 2 { TTL := 0, Key := "", Index := 0 })
            = .error Fault.nilDereference
        ∧ processTTLElement mapStore sampleCodec sampleJSON sampleMissingAPI
            ⟨20000000000⟩ = .error Fault.nilDereference) := by
  refine ⟨fun _ _ => rfl, ?_, ?_, rfl, by decide, rfl, rfl, rfl⟩
  · intro σ S C J s s' now hlead h
    obtain ⟨hc, s1, hloop, hq, -⟩ := processTTLElement_ok_inv S C J s s' now hlead h
    refine ⟨hc, ?_⟩
    have := (processTTLElement_loop_queue S C now _ 0 s s1 _ _ hloop (by omega) (by simp)).1
    rw [hq]
    exact this
  · intro σ S C J s now e rest err hlead hq hc hget
    refine ⟨processTTLElement_body_missing S C _ now e err hget, ?_⟩
    have hmax : ∃ n, (if ((s.ttlIndex.length : Int) < s.TTLChunkSize) then
        (s.ttlIndex.length : Int) else s.TTLChunkSize).toNat = n + 1 := by
      have hlen : (0 : Int) < (s.ttlIndex.length : Int) := by rw [hq]; simp
      split
      · exact ⟨s.ttlIndex.length - 1, by omega⟩
      · exact ⟨s.TTLChunkSize.toNat - 1, by omega⟩
    obtain ⟨n, hn⟩ := hmax
    have hnonneg : ¬ (if ((s.ttlIndex.length : Int) < s.TTLChunkSize) then
        (s.ttlIndex.length : Int) else s.TTLChunkSize) < 0 := by
      split <;> omega
    simp only [processTTLElement, hlead, hnonneg, hn, Bool.true_eq_false, if_false,
      beq_iff_eq]
    rw [processTTLElement_loop_missing S C s now n 0 _ e rest err hq hget]

/-- C18: the mirror after a tick.  The claim is that every key with a pending element in the
queue has a mirror entry when `processTTLElement` returns.  First part: after a returning tick
on a leader no key of a processed element has a mirror entry, because the removal loop (source
lines 255 to 262) deletes the keys of all of `applyDeletes`, the re-enqueued elements included.
Second part: the element of `"k"`, not yet due at second 12, is re-enqueued and is the whole
queue after the tick, while the mirror is empty.  Third part: with a chunk size of one, the
superseded element of `"k"` is dropped and takes the mirror entry of the newer, still queued
element of `"k"` with it.  Fourth part: the snapshot the first tick stores is the encoding of
the empty mirror. -/
theorem C18_mirror_loses_pending_keys :
    (∀ (σ : Type) (S : Store σ) (C : Codec) (J : JSONCodec) (s s' : StorageAPI σ) (now : Time),
        S.IsLeader s.store = true →
        processTTLElement S C J s now = .ok s' →
        ∀ e ∈ s.ttlIndex.take (min s.ttlIndex.length s.TTLChunkSize.toNat),
          s'.queueSnapshot.bind (fun m => m.lookup e.Key) = none)
    ∧ (processTTLElement mapStore sampleCodec sampleJSON sampleTickAPI ⟨12000000000⟩).toOption.map
          (fun s' => (s'.ttlIndex, s'.queueSnapshot))
        = some ([sampleElem], some [])
    ∧ (processTTLElement mapStore sampleCodec sampleJSON sampleSupersededAPI
          ⟨12000000000⟩).toOption.map (fun s' => (s'.ttlIndex, s'.queueSnapshot))
        = some ([sampleElem], some [])
    ∧ (sampleJSON.Marshal [] = .ok "0 "
        ∧ ((processTTLElement mapStore sampleCodec sampleJSON sampleTickAPI
              ⟨12000000000⟩).toOption.bind
            (fun s' => (s'.store.m.lookup TTLSNAPSHOT_KEY).bind sampleDecode)).map
              (fun n => n.Value) = some "0 ") := by
  refine ⟨?_, by decide, by decide, rfl, by decide⟩
  intro σ S C J s s' now hlead h e he
  obtain ⟨-, s1, -, -, m1, -, hm⟩ := processTTLElement_ok_inv S C J s s' now hlead h
  rw [hm]
  exact foldl_delete_lookup _ m1 e.Key (Or.inr ⟨e, he, rfl⟩)

/-- C19: leadership loss.  First part: a pass of the loop of `processTTLs` on a follower sets
the mirror pointer to nil and changes nothing else.  Second and third part: the follower
`sampleFollowerAPI` keeps its queued element, so the queue is not emptied although the comment
of the branch reads "kill the queue we have". -/
theorem C19_follower_iteration_keeps_queue :
    (∀ (σ : Type) (S : Store σ) (C : Codec) (J : JSONCodec) (s : StorageAPI σ) (now : Time),
        S.IsLeader s.store = false →
        processTTLs.iteration S C J s now = .ok { s with queueSnapshot := none })
    ∧ processTTLs.iteration mapStore sampleCodec sampleJSON sampleFollowerAPI ⟨12000000000⟩
        = .ok { sampleFollowerAPI with queueSnapshot := none }
    ∧ ({ sampleFollowerAPI with queueSnapshot := none } : StorageAPI MapStore).ttlIndex
        = [sampleElem] := by
  refine ⟨?_, rfl, rfl⟩
  intro σ S C J s now hfollower
  simp [processTTLs.iteration, hfollower]

/-- C20: rebuild or write fresh.  First part: when the mirror pointer is nil, the rebuild block
writes the fresh (empty) snapshot exactly when `rebuildFromSnapshot` returns
`StatusSnapshotFound`, and writes nothing on any other status.  Second part: with a stored
snapshot holding the entry of `"k"` the status is Found, the element is queued, and the stored
snapshot is overwritten with the encoding of the empty mirror before any element is processed.
Third part: with no stored snapshot the status is NotFound and the store receives the `Get` and
no `Set`. -/
theorem C20_fresh_snapshot_written_on_found :
    (∀ (σ : Type) (S : Store σ) (C : Codec) (J : JSONCodec) (s : StorageAPI σ) (now : Time),
        s.queueSnapshot = none →
        processTTLs.rebuild S C J s now
          = if (rebuildFromSnapshot S C J { s with queueSnapshot := some [] } now s.ttlIndex).1.1
                = SnapshotStatus.StatusSnapshotFound then
              storeTTLSnapshot S C J
                { (rebuildFromSnapshot S C J { s with queueSnapshot := some [] } now s.ttlIndex).2
                    with ttlIndex :=
                      (rebuildFromSnapshot S C J { s with queueSnapshot := some [] } now
                        s.ttlIndex).1.2 } now
            else
              .ok { (rebuildFromSnapshot S C J { s with queueSnapshot := some [] } now
                      s.ttlIndex).2
                    with ttlIndex :=
                      (rebuildFromSnapshot S C J { s with queueSnapshot := some [] } now
                        s.ttlIndex).1.2 })
    ∧ ((rebuildFromSnapshot mapStore sampleCodec sampleJSON
            { sampleRegainedAPI with queueSnapshot := some [] } ⟨14000000000⟩ []).1
          = (SnapshotStatus.StatusSnapshotFound, [{ TTL := 15, Key := "k", Index := 1 }])
        ∧ processTTLs.rebuild mapStore sampleCodec sampleJSON sampleRegainedAPI ⟨14000000000⟩
          = .ok { store := { m := [("TCF_TTL_SNAPHOT", sampleEncode sampleEmptiedSnapshotNode),
                                   ("k", sampleEncode sampleNode)], leader := true },
                  ttlIndex := [{ TTL := 15, Key := "k", Index := 1 }],
                  queueSnapshot := some [],
                  TTLChunkSize := 100,
                  calls := [StoreCall.Get "TCF_TTL_SNAPHOT", StoreCall.Get "TCF_TTL_SNAPHOT",
                            StoreCall.Get "TCF_TTL_SNAPHOT",
                            StoreCall.Set "TCF_TTL_SNAPHOT"
                              (sampleEncode sampleEmptiedSnapshotNode)] })
    ∧ ((rebuildFromSnapshot mapStore sampleCodec sampleJSON
            { sampleFreshLeaderAPI with queueSnapshot := some [] } ⟨14000000000⟩ []).1
          = (SnapshotStatus.StatusSnapshotNotFound, [])
        ∧ processTTLs.rebuild mapStore sampleCodec sampleJSON sampleFreshLeaderAPI
            ⟨14000000000⟩
          = .ok { sampleFreshLeaderAPI with queueSnapshot := some [],
                                            calls := [StoreCall.Get "TCF_TTL_SNAPHOT"] }) := by
  refine ⟨?_, ⟨rfl, rfl⟩, ⟨rfl, rfl⟩⟩
  intro σ S C J s now hnil
  simp only [processTTLs.rebuild, hnil]

/-! ## Rebuilding from the snapshot -/

/-- On a leader `rebuildFromSnapshot` makes the one read of the reserved key and decides on its
result and on the decoding of the value. -/
theorem rebuildFromSnapshot_leader {σ : Type} (S : Store σ) (C : Codec) (J : JSONCodec)
    (s : StorageAPI σ) (now : Time) (q : List ttlIndexElement)
    (hlead : S.IsLeader s.store = true) :
    rebuildFromSnapshot S C J s now q
      = ((match (GetKey S C s now TTLSNAPSHOT_KEY false).1 with
          | (some e, none) =>
            (match J.Unmarshal e.Node.Value with
             | .error _ => (SnapshotStatus.StatusSnapshotNotFound, q)
             | .ok snap => (SnapshotStatus.StatusSnapshotFound, q ++ snap.map (fun p => p.2)))
          | _ => (SnapshotStatus.StatusSnapshotNotFound, q)),
         { s with calls := s.calls ++ [StoreCall.Get TTLSNAPSHOT_KEY] }) := by
  unfold rebuildFromSnapshot
  simp only [hlead, Bool.true_eq_false, beq_iff_eq, if_false]
  have hg := GetKey_state S C s now TTLSNAPSHOT_KEY false
  rw [if_neg TTLSNAPSHOT_KEY_ne_empty] at hg
  generalize GetKey S C s now TTLSNAPSHOT_KEY false = g at hg
  obtain ⟨⟨ex, err⟩, s1⟩ := g
  simp only at hg
  subst hg
  cases ex with
  | none => cases err <;> rfl
  | some e =>
    cases err with
    | some x => rfl
    | none =>
      simp only
      cases J.Unmarshal e.Node.Value <;> rfl

/-- C21: status and frame of `rebuildFromSnapshot`.  On a follower it returns
`StatusSnapshotNotLeader` with the receiver as it was, so without a read of the store.  On a
leader it returns `StatusSnapshotNotFound`, after the one `Get`, when the reserved key is absent,
when the store's `Get` fails or the bytes do not decode, and when the value of the record is not
a valid encoding of a mirror.  Whenever the status is not Found the target queue is returned as
given.  In every case the store and the mirror are unchanged and at most the `Get` of the
reserved key is issued.  The status is `StatusSnapshotFound` only on a leader for which `GetKey`
returns the snapshot record and its value decodes, and then the queue is the given queue followed
by one element for every entry of the decoded snapshot. -/
theorem C21_rebuildFromSnapshot_status_and_frame {σ : Type} (S : Store σ) (C : Codec)
    (J : JSONCodec) (s : StorageAPI σ) (now : Time) (q : List ttlIndexElement) :
    (S.IsLeader s.store = false →
        rebuildFromSnapshot S C J s now q = ((SnapshotStatus.StatusSnapshotNotLeader, q), s))
    ∧ (S.IsLeader s.store = true →
        ((S.Get s.store TTLSNAPSHOT_KEY = .ok none
            ∨ (∃ msg, S.Get s.store TTLSNAPSHOT_KEY = .error msg)
            ∨ (∃ b msg, S.Get s.store TTLSNAPSHOT_KEY = .ok (some b)
                 ∧ C.NewKeyValueAPIObjectFromMsgPack (some b) = .error msg)
            ∨ (∃ b e msg, S.Get s.store TTLSNAPSHOT_KEY = .ok (some b)
                 ∧ C.NewKeyValueAPIObjectFromMsgPack (some b) = .ok e
                 ∧ J.Unmarshal e.Node.Value = .error msg)) →
          rebuildFromSnapshot S C J s now q
            = ((SnapshotStatus.StatusSnapshotNotFound, q),
               { s with calls := s.calls ++ [StoreCall.Get TTLSNAPSHOT_KEY] })))
    ∧ ((rebuildFromSnapshot S C J s now q).1.1 ≠ SnapshotStatus.StatusSnapshotFound →
        (rebuildFromSnapshot S C J s now q).1.2 = q)
    ∧ ((rebuildFromSnapshot S C J s now q).2.store = s.store
        ∧ (rebuildFromSnapshot S C J s now q).2.queueSnapshot = s.queueSnapshot
        ∧ ((rebuildFromSnapshot S C J s now q).2.calls = s.calls
            ∨ (rebuildFromSnapshot S C J s now q).2.calls
                = s.calls ++ [StoreCall.Get TTLSNAPSHOT_KEY]))
    ∧ ((rebuildFromSnapshot S C J s now q).1.1 = SnapshotStatus.StatusSnapshotFound →
        ∃ e snap, S.IsLeader s.store = true
          ∧ (GetKey S C s now TTLSNAPSHOT_KEY false).1 = (some e, none)
          ∧ J.Unmarshal e.Node.Value = .ok snap
          ∧ (rebuildFromSnapshot S C J s now q).1.2 = q ++ snap.map (fun p => p.2)
          ∧ (rebuildFromSnapshot S C J s now q).1.2.length = q.length + snap.length) := by
  have hfollow : S.IsLeader s.store = false →
      rebuildFromSnapshot S C J s now q = ((SnapshotStatus.StatusSnapshotNotLeader, q), s) := by
    intro h
    simp [rebuildFromSnapshot, h]
  refine ⟨hfollow, ?_, ?_, ?_, ?_⟩
  · intro hlead hcase
    rw [rebuildFromSnapshot_leader S C J s now q hlead]
    have hk := TTLSNAPSHOT_KEY_ne_empty
    rcases hcase with h | ⟨msg, h⟩ | ⟨b, msg, h, hd⟩ | ⟨b, e, msg, h, hd, hj⟩
    · simp [GetKey, getKeyFromStore, hk, h]
    · simp [GetKey, getKeyFromStore, hk, h]
    · simp [GetKey, getKeyFromStore, hk, h, hd]
    · rw [GetKey_decoded S C s now TTLSNAPSHOT_KEY false b e hk h hd]
      simp only
      by_cases hexp : (now.After e.Node.Expiration && e.Node.TTL != 0 && false == false) = true
      · rw [if_pos hexp]
      · rw [if_neg hexp]
        simp only [hj]
  · intro hne
    cases hlead : S.IsLeader s.store
    · rw [hfollow hlead]
    · rw [rebuildFromSnapshot_leader S C J s now q hlead] at hne ⊢
      simp only at hne ⊢
      split
      · split
        · rfl
        · rename_i e0 hg0 _ snap hj
          rw [hg0] at hne
          simp [hj] at hne
      · rfl
  · cases hlead : S.IsLeader s.store
    · rw [hfollow hlead]
      exact ⟨rfl, rfl, Or.inl rfl⟩
    · rw [rebuildFromSnapshot_leader S C J s now q hlead]
      exact ⟨rfl, rfl, Or.inr rfl⟩
  · intro hfound
    cases hlead : S.IsLeader s.store
    · rw [hfollow hlead] at hfound
      simp at hfound
    · rw [rebuildFromSnapshot_leader S C J s now q hlead] at hfound ⊢
      simp only at hfound ⊢
      rcases GetKey_result_shape S C s now TTLSNAPSHOT_KEY false with ⟨e, he⟩ | ⟨err, he⟩
      · rw [he] at hfound ⊢
        simp only at hfound ⊢
        cases hj : J.Unmarshal e.Node.Value with
        | error msg => simp [hj] at hfound
        | ok snap =>
          refine ⟨e, snap, ?_, ?_, hj, ?_, ?_⟩
          · trivial
          · rfl
          · simp [hj]
          · simp [hj]
      · rw [he] at hfound
        simp at hfound


/-- C21 at concrete inputs: a follower, a leader without a stored snapshot, a leader whose
snapshot value does not decode, and a leader whose snapshot holds one entry. -/
theorem C21_rebuildFromSnapshot_status_and_frame_witness :
    rebuildFromSnapshot mapStore sampleCodec sampleJSON sampleFollowerAPI ⟨14000000000⟩
        sampleFollowerAPI.ttlIndex
      = ((SnapshotStatus.StatusSnapshotNotLeader, [sampleElem]), sampleFollowerAPI)
    ∧ rebuildFromSnapshot mapStore sampleCodec sampleJSON sampleTickAPI ⟨14000000000⟩
        sampleTickAPI.ttlIndex
      = ((SnapshotStatus.StatusSnapshotNotFound, [sampleElem]),
         { sampleTickAPI with calls := [StoreCall.Get TTLSNAPSHOT_KEY] })
    ∧ rebuildFromSnapshot mapStore sampleCodec sampleJSON sampleBadSnapshotAPI ⟨14000000000⟩ []
      = ((SnapshotStatus.StatusSnapshotNotFound, []),
         { sampleBadSnapshotAPI with calls := [StoreCall.Get TTLSNAPSHOT_KEY] })
    ∧ ((rebuildFromSnapshot mapStore sampleCodec sampleJSON
            { sampleRegainedAPI with queueSnapshot := some [] } ⟨14000000000⟩ [sampleOldElem]).1
          = (SnapshotStatus.StatusSnapshotFound,
             [sampleOldElem, { TTL := 15, Key := "k", Index := 1 }])
        ∧ ∃ e snap,
            (GetKey mapStore sampleCodec { sampleRegainedAPI with queueSnapshot := some [] }
                ⟨14000000000⟩ TTLSNAPSHOT_KEY false).1 = (some e, none)
            ∧ sampleJSON.Unmarshal e.Node.Value = .ok snap
            ∧ (rebuildFromSnapshot mapStore sampleCodec sampleJSON
                { sampleRegainedAPI with queueSnapshot := some [] } ⟨14000000000⟩
                [sampleOldElem]).1.2.length = [sampleOldElem].length + snap.length) :=
  ⟨(C21_rebuildFromSnapshot_status_and_frame mapStore sampleCodec sampleJSON sampleFollowerAPI
      ⟨14000000000⟩ sampleFollowerAPI.ttlIndex).1 rfl,
   (C21_rebuildFromSnapshot_status_and_frame mapStore sampleCodec sampleJSON sampleTickAPI
      ⟨14000000000⟩ sampleTickAPI.ttlIndex).2.1 rfl (Or.inl rfl),
   (C21_rebuildFromSnapshot_status_and_frame mapStore sampleCodec sampleJSON sampleBadSnapshotAPI
      ⟨14000000000⟩ []).2.1 rfl
      (Or.inr (Or.inr (Or.inr ⟨sampleEncode { sampleSnapshotNode with Value := "x" },
        { Action := "get", Node := { sampleSnapshotNode with Value := "x" } },
        "invalid snapshot", rfl, rfl, rfl⟩))),
   rfl,
   by
     obtain ⟨e, snap, -, h1, h2, -, h3⟩ :=
       (C21_rebuildFromSnapshot_status_and_frame mapStore sampleCodec sampleJSON
         { sampleRegainedAPI with queueSnapshot := some [] } ⟨14000000000⟩
         [sampleOldElem]).2.2.2.2 rfl
     exact ⟨e, snap, h1, h2, h3⟩⟩

/-! ## Failed writes -/

/-- C22: TTL is recorded only on a successful write.  For every key, node, overwrite flag and
receiver, a leader's with a positive TTL included: if encoding the record fails, or the store's
`Set` returns an error for the encoded record, `SetKey` returns an error and no node, and the
TTL queue and the mirror are as before.  The error is the KeyExists error when the write was
refused before encoding, and the general error response otherwise. -/
theorem C22_failed_write_records_no_ttl {σ : Type} (S : Store σ) (C : Codec)
    (s : StorageAPI σ) (now : Time) (k : String) (node : NodeValue) (overwrite : Bool)
    (hfail : (∃ msg, C.EncodeForStorage (SetKey.record now k node) = .error msg)
      ∨ (∃ b msg, C.EncodeForStorage (SetKey.record now k node) = .ok b
            ∧ (S.Set s.store k b).2 = some msg)) :
    ∃ err s', SetKey S C s now k node overwrite = .ok ((none, some err), s')
      ∧ s'.ttlIndex = s.ttlIndex ∧ s'.queueSnapshot = s.queueSnapshot
      ∧ (err.Error = ErrorCode.RAFTErrorKeyExists ∨ err.Error = ErrorCode.general) := by
  rw [SetKey_eq]
  obtain ⟨hs1, hs2, hs3⟩ := getKeyFromStore_store S s k
  split
  · exact ⟨_, _, rfl, hs2, hs3, Or.inl rfl⟩
  · rcases hfail with ⟨msg, henc⟩ | ⟨b, msg, henc, hset⟩
    · rw [henc]
      exact ⟨_, _, rfl, hs2, hs3, Or.inr rfl⟩
    · rw [henc]
      simp only
      rw [hs1, hset]
      exact ⟨_, _, rfl, hs2, hs3, Or.inr rfl⟩

/-- C22 at a concrete input: a leader whose store cannot commit, writing `"k"` with a TTL of 666
seconds. -/
theorem C22_failed_write_records_no_ttl_witness :
    (sampleUpdate.TTL > 0 ∧ unavailableStore.IsLeader sampleTickAPI.store = true
      ∧ (unavailableStore.Set sampleTickAPI.store "k"
            (sampleEncode (SetKey.record ⟨20000000000⟩ "k" sampleUpdate))).2 = some "no quorum")
    ∧ ∃ err s', SetKey unavailableStore sampleCodec sampleTickAPI ⟨20000000000⟩ "k"
          sampleUpdate true = .ok ((none, some err), s')
        ∧ s'.ttlIndex = sampleTickAPI.ttlIndex ∧ s'.queueSnapshot = sampleTickAPI.queueSnapshot
        ∧ (err.Error = ErrorCode.RAFTErrorKeyExists ∨ err.Error = ErrorCode.general) :=
  ⟨⟨by decide, rfl, rfl⟩,
   C22_failed_write_records_no_ttl unavailableStore sampleCodec sampleTickAPI ⟨20000000000⟩ "k"
     sampleUpdate true
     (Or.inr ⟨sampleEncode (SetKey.record ⟨20000000000⟩ "k" sampleUpdate), "no quorum",
       rfl, rfl⟩)⟩

end httpd

namespace verifier

/-! ## HMAC sign and verify -/

/-- C13: for every secret, message and signature string, `Verify` returns nil exactly when the
signature equals what `Sign` computes for the message, and returns `VerificationFailed`
otherwise; so verifying a message against its own signature always succeeds.  `Sign` never
returns an error, and its signature is a function of the secret and the message alone. -/
theorem C13_hmac_sign_verify (mac : List Nat → List Nat → String) (h : HMAC256)
    (message : List Nat) (signature : String) :
    (h.Verify mac message signature = none ↔ signature = (h.Sign mac message).1)
    ∧ (signature ≠ (h.Sign mac message).1 →
        h.Verify mac message signature = some VerifierError.VerificationFailed)
    ∧ h.Verify mac message (h.Sign mac message).1 = none
    ∧ (h.Sign mac message).2 = none
    ∧ h.Sign mac message = (mac h.secret message, none) := by
  refine ⟨?_, ?_, ?_, rfl, rfl⟩
  · unfold HMAC256.Verify
    constructor
    · intro hv
      by_contra hne
      have : ((h.Sign mac message).1 != signature) = true := by
        simpa using fun heq => hne heq.symm
      simp [this] at hv
    · intro heq
      simp [heq]
  · intro hne
    unfold HMAC256.Verify
    have : ((h.Sign mac message).1 != signature) = true := by
      simpa using fun heq => hne heq.symm
    simp [this]
  · simp [HMAC256.Verify]

end verifier
